import Mathlib

/-!
Verification development for the DID chaincode (`chaincode/did.go`).

The chaincode stores one JSON document per decentralized identifier in the
ledger world state and offers five transactions: `CreateDID`,
`UpdateCredentials`, `VerifyDID`, `RevokeDID` and `GetDID`.

Embedding:

* A Go `string` and a Go `[]byte` are sequences of bytes (`Bytes`).  Nothing in
  Go forces a string to be valid UTF-8, so neither does the model.
* The packages `unicode/utf8` (`DecodeRune`, `AppendRune`) and `encoding/json`
  (`Marshal` and `Unmarshal` at the struct type `DID`) are embedded as
  executable functions over bytes, following the Go sources (Go 1.22).  Masks,
  shifts and ors of the Go code are written with `%`, `*`, `/` and `+` on
  natural numbers.  Loops carry a bound on their iterations, set by the caller
  to the length of the input.
* The transaction context is the structure `Stub`: the committed world state,
  the outcome the host gives to each call (an error, or none) and the list of
  calls the chaincode has issued.  An operation takes a `Stub` and returns its
  Go result together with the `Stub` after the call.  A Go `error` made by
  `fmt.Errorf` is its message.
* Each invocation is one transaction: the world state of the returned `Stub`
  is the committed state when the host accepted the write or delete.
* The reachable world states (`Reachable`) are the empty one and the state
  after any invocation in a context whose world state is reachable, whatever
  the host answers.  The state machine of the specification is the function
  `specLifecycle`; `lifeOf` abstracts a key of the world state to one of its
  states.
-/

namespace DIDChaincode

/-- A byte, the element type of the Go types `string` and `[]byte`. -/
abbrev Byte := Fin 256

/-- A Go `string` or `[]byte`. -/
abbrev Bytes := List Byte

/-- The Go conversion `byte(n)`: keeps the low eight bits. -/
def byte (n : Nat) : Byte := ⟨n % 256, Nat.mod_lt n (by decide)⟩

/-- The bytes of a string literal of the Go source (ASCII literals only). -/
def lit (s : String) : Bytes := s.data.map (fun c => byte c.toNat)

/-! ## `unicode/utf8` -/

namespace utf8

/-- The rune `utf8.RuneError`, U+FFFD. -/
def RuneError : Nat := 0xFFFD

/-- The constant `utf8.MaxRune`. -/
def MaxRune : Nat := 0x10FFFF

/-- Table `first` of `unicode/utf8`: information about the first byte of an
encoding.  `0xF0` is `as` (ASCII), `0xF1` is `xx` (invalid); otherwise the low
three bits give the size and the high four bits index `acceptRanges`. -/
def first (b : Nat) : Nat :=
  if b < 0x80 then 0xF0
  else if b < 0xC2 then 0xF1
  else if b < 0xE0 then 0x02
  else if b = 0xE0 then 0x13
  else if b < 0xED then 0x03
  else if b = 0xED then 0x23
  else if b < 0xF0 then 0x03
  else if b = 0xF0 then 0x34
  else if b < 0xF4 then 0x04
  else if b = 0xF4 then 0x44
  else 0xF1

/-- Table `acceptRanges` of `unicode/utf8`: the range `(lo, hi)` allowed for
the second byte. -/
def acceptRanges (i : Nat) : Nat × Nat :=
  match i with
  | 0 => (0x80, 0xBF)
  | 1 => (0xA0, 0xBF)
  | 2 => (0x80, 0x9F)
  | 3 => (0x90, 0xBF)
  | 4 => (0x80, 0x8F)
  | _ => (0, 0)

/-- Function `utf8.DecodeRune` (and `DecodeRuneInString`): the first rune of
`s` and its width in bytes; `(RuneError, 1)` for an invalid encoding and
`(RuneError, 0)` for the empty input. -/
def DecodeRune (s : Bytes) : Nat × Nat :=
  match s with
  | [] => (RuneError, 0)
  | s0 :: t =>
    let x := first s0.val
    if x ≥ 0xF0 then
      (if x = 0xF0 then s0.val else RuneError, 1)
    else
      let sz := x % 8
      let accept := acceptRanges (x / 16)
      match t with
      | [] => (RuneError, 1)
      | s1 :: t1 =>
        if s1.val < accept.1 ∨ accept.2 < s1.val then (RuneError, 1)
        else if sz ≤ 2 then ((s0.val % 32) * 64 + s1.val % 64, 2)
        else
          match t1 with
          | [] => (RuneError, 1)
          | s2 :: t2 =>
            if s2.val < 0x80 ∨ 0xBF < s2.val then (RuneError, 1)
            else if sz ≤ 3 then
              ((s0.val % 16) * 4096 + (s1.val % 64) * 64 + s2.val % 64, 3)
            else
              match t2 with
              | [] => (RuneError, 1)
              | s3 :: _ =>
                if s3.val < 0x80 ∨ 0xBF < s3.val then (RuneError, 1)
                else
                  ((s0.val % 8) * 262144 + (s1.val % 64) * 4096
                    + (s2.val % 64) * 64 + s3.val % 64, 4)

/-- Function `utf8.AppendRune` (with `appendRuneNonASCII`) applied to the empty
slice: the UTF-8 encoding of rune `r`; surrogates and runes above `MaxRune`
are encoded as `RuneError`. -/
def AppendRune (r : Nat) : Bytes :=
  if r ≤ 0x7F then [byte r]
  else if r ≤ 0x7FF then [byte (0xC0 + r / 64), byte (0x80 + r % 64)]
  else
    let r3 := if r > MaxRune ∨ (0xD800 ≤ r ∧ r ≤ 0xDFFF) then RuneError else r
    if r > MaxRune ∨ (0xD800 ≤ r ∧ r ≤ 0xDFFF) ∨ r ≤ 0xFFFF then
      [byte (0xE0 + r3 / 4096), byte (0x80 + (r3 / 64) % 64), byte (0x80 + r3 % 64)]
    else
      [byte (0xF0 + r / 262144), byte (0x80 + (r / 4096) % 64),
        byte (0x80 + (r / 64) % 64), byte (0x80 + r % 64)]

end utf8

/-! ## `encoding/json`: encoder -/

namespace json

/-- Table `htmlSafeSet` of `encoding/json`: the ASCII bytes that `Marshal`
copies into a JSON string unescaped.  Control characters, `"`, `&`, `<`, `>`
and the backslash are excluded. -/
def htmlSafeSet (b : Byte) : Bool :=
  0x20 ≤ b.val && b.val < 0x80 && b.val != 0x22 && b.val != 0x26 && b.val != 0x3C
    && b.val != 0x3E && b.val != 0x5C

/-- Constant `hex` of `encoding/json`, indexed: `hex[i]`. -/
def hex (i : Nat) : Byte := (lit "0123456789abcdef").getD i 0

/-- The `switch b` of `appendString` for an ASCII byte outside `htmlSafeSet`:
the escape sequence written for it (Go 1.22 and later; earlier releases write
`\u0008` and `\u000c` for backspace and form feed). -/
def escapeASCII (b : Byte) : Bytes :=
  if b.val = 0x5C ∨ b.val = 0x22 then [0x5C, b]
  else if b.val = 0x08 then [0x5C, 0x62]
  else if b.val = 0x0C then [0x5C, 0x66]
  else if b.val = 0x0A then [0x5C, 0x6E]
  else if b.val = 0x0D then [0x5C, 0x72]
  else if b.val = 0x09 then [0x5C, 0x74]
  else [0x5C, 0x75, 0x30, 0x30, hex (b.val / 16), hex (b.val % 16)]

/-- The loop of `appendString(dst, src, escapeHTML = true)`: the bytes written
between the two quotes for the input that is still to be read.  The first
argument bounds the number of iterations; every iteration reads at least one
byte, so the length of the input is enough. -/
def appendStringLoop : Nat → Bytes → Bytes
  | 0, _ => []
  | _ + 1, [] => []
  | n + 1, b :: rest =>
    if b.val < 0x80 then
      if htmlSafeSet b then b :: appendStringLoop n rest
      else escapeASCII b ++ appendStringLoop n rest
    else
      let d := utf8.DecodeRune ((b :: rest).take 4)
      if d.1 = utf8.RuneError ∧ d.2 = 1 then
        lit "\\ufffd" ++ appendStringLoop n rest
      else if d.1 = 0x2028 ∨ d.1 = 0x2029 then
        lit "\\u202" ++ hex (d.1 % 16) :: appendStringLoop n ((b :: rest).drop d.2)
      else
        (b :: rest).take d.2 ++ appendStringLoop n ((b :: rest).drop d.2)

/-- Function `appendString` of `encoding/json` with `escapeHTML = true`, as
`Marshal` uses it: `src` as a quoted JSON string. -/
def appendString (src : Bytes) : Bytes :=
  0x22 :: appendStringLoop src.length src ++ [0x22]

end json

/-- The Go type `DID` of the chaincode, a decentralized identity. -/
structure DID where
  DID : Bytes
  Name : Bytes
  Credentials : Bytes
  Verified : Bool
  deriving DecidableEq

/-! ## `encoding/json`: decoder -/

namespace json

/-- The errors of `json.Unmarshal`: a `*json.SyntaxError` from the scanner, or
a `*json.UnmarshalTypeError` for a JSON value that does not fit the Go type. -/
inductive DecodeError
  | SyntaxError
  | UnmarshalTypeError
  deriving DecidableEq

/-- A JSON value as the decoder of a `DID` sees it.  A string keeps the bytes
of its literal (between the quotes); the decoder never looks at the digits of
a number or at the elements of an array when the target is a `DID`. -/
inductive Value
  | null
  | bool (b : Bool)
  | number
  | string (literal : Bytes)
  | array
  | object (members : List (Bytes × Value))

/-- Function `isSpace` of the scanner. -/
def isSpace (c : Byte) : Bool :=
  c.val <= 0x20 && (c.val == 0x20 || c.val == 0x09 || c.val == 0x0D || c.val == 0x0A)

/-- Skips the white space that the scanner accepts between tokens. -/
def skipSpace : Bytes → Bytes
  | [] => []
  | c :: t => if isSpace c then skipSpace t else c :: t

/-- A hexadecimal digit, as in `stateInStringEscU` and `getu4`. -/
def isHex (c : Byte) : Bool :=
  (0x30 ≤ c.val && c.val ≤ 0x39) || (0x61 ≤ c.val && c.val ≤ 0x66)
    || (0x41 ≤ c.val && c.val ≤ 0x46)

/-- The states of the scanner inside a string literal. -/
inductive StringState
  | InString
  | InStringEsc
  | InStringEscU
  | InStringEscU1
  | InStringEscU12
  | InStringEscU123
  deriving DecidableEq

/-- Scanner step functions `stateInString`, `stateInStringEsc`,
`stateInStringEscU`, `…U1`, `…U12`, `…U123`, run from the given state: reads
on to the closing quote of a string literal and returns the bytes before it
and the input after it. -/
def scanStringFrom : StringState → Bytes → Option (Bytes × Bytes)
  | _, [] => none
  | StringState.InString, c :: t =>
    if c.val = 0x22 then some ([], t)
    else if c.val = 0x5C then
      (scanStringFrom StringState.InStringEsc t).map (fun p => (c :: p.1, p.2))
    else if c.val < 0x20 then none
    else (scanStringFrom StringState.InString t).map (fun p => (c :: p.1, p.2))
  | StringState.InStringEsc, c :: t =>
    if c.val = 0x62 ∨ c.val = 0x66 ∨ c.val = 0x6E ∨ c.val = 0x72 ∨ c.val = 0x74
        ∨ c.val = 0x5C ∨ c.val = 0x2F ∨ c.val = 0x22 then
      (scanStringFrom StringState.InString t).map (fun p => (c :: p.1, p.2))
    else if c.val = 0x75 then
      (scanStringFrom StringState.InStringEscU t).map (fun p => (c :: p.1, p.2))
    else none
  | StringState.InStringEscU, c :: t =>
    if isHex c then (scanStringFrom StringState.InStringEscU1 t).map (fun p => (c :: p.1, p.2))
    else none
  | StringState.InStringEscU1, c :: t =>
    if isHex c then (scanStringFrom StringState.InStringEscU12 t).map (fun p => (c :: p.1, p.2))
    else none
  | StringState.InStringEscU12, c :: t =>
    if isHex c then (scanStringFrom StringState.InStringEscU123 t).map (fun p => (c :: p.1, p.2))
    else none
  | StringState.InStringEscU123, c :: t =>
    if isHex c then (scanStringFrom StringState.InString t).map (fun p => (c :: p.1, p.2))
    else none

/-- Reads a string literal whose opening quote has been consumed. -/
def scanString (s : Bytes) : Option (Bytes × Bytes) :=
  scanStringFrom StringState.InString s

/-- Skips a run of decimal digits (scanner states `state1`, `stateDot0`,
`stateE0`). -/
def skipDigits : Bytes → Bytes
  | [] => []
  | c :: t => if 0x30 ≤ c.val ∧ c.val ≤ 0x39 then skipDigits t else c :: t

/-- Scanner states `stateE`, `stateESign`, `stateE0`: the exponent of a number,
after `e` or `E`. -/
def scanExponent (s : Bytes) : Option Bytes :=
  let s1 := match s with
    | c :: t => if c.val = 0x2B ∨ c.val = 0x2D then t else s
    | [] => s
  match s1 with
  | c :: t => if 0x30 ≤ c.val ∧ c.val ≤ 0x39 then some (skipDigits t) else none
  | [] => none

/-- Scanner states `state0`, `stateDot`, `stateDot0`: what may follow the
integer part of a number. -/
def scanFraction (s : Bytes) : Option Bytes :=
  match s with
  | c :: t =>
    if c.val = 0x2E then
      match t with
      | d :: t2 =>
        if 0x30 ≤ d.val ∧ d.val ≤ 0x39 then
          match skipDigits t2 with
          | e :: t3 => if e.val = 0x65 ∨ e.val = 0x45 then scanExponent t3 else some (e :: t3)
          | [] => some []
        else none
      | [] => none
    else if c.val = 0x65 ∨ c.val = 0x45 then scanExponent t
    else some s
  | [] => some []

/-- Scanner states `stateNeg`, `state0`, `state1`: reads a number literal and
returns the input after it. -/
def scanNumber (s : Bytes) : Option Bytes :=
  let s1 := match s with
    | c :: t => if c.val = 0x2D then t else s
    | [] => s
  match s1 with
  | c :: t =>
    if c.val = 0x30 then scanFraction t
    else if 0x31 ≤ c.val ∧ c.val ≤ 0x39 then scanFraction (skipDigits t)
    else none
  | [] => none

/-- Removes the bytes of the literal `w` from the front of `s` (scanner states
`stateT…`, `stateF…`, `stateN…`). -/
def expect (w s : Bytes) : Option Bytes :=
  if w.isPrefixOf s then some (s.drop w.length) else none

/-- Constant `maxNestingDepth` of the scanner. -/
def maxNestingDepth : Nat := 10000

mutual
/-- Scanner state `stateBeginValue` (white space already skipped): reads one
JSON value and returns it with the input after it.  `depth` is the number of
objects and arrays that are open.  The first argument bounds the recursion:
each level of nesting takes two units and at least two bytes (its brackets),
each further member or element one unit and at least two bytes, so the length
of the input plus one is enough for every well-formed input. -/
def parseValue : Nat → Nat → Bytes → Option (Value × Bytes)
  | 0, _, _ => none
  | _ + 1, _, [] => none
  | n + 1, depth, c :: t =>
    if c.val = 0x7B then
      if depth + 1 ≤ maxNestingDepth then
        match skipSpace t with
        | c1 :: t1 =>
          if c1.val = 0x7D then some (Value.object [], t1)
          else (parseMembers n (depth + 1) (c1 :: t1)).map (fun p => (Value.object p.1, p.2))
        | [] => none
      else none
    else if c.val = 0x5B then
      if depth + 1 ≤ maxNestingDepth then
        match skipSpace t with
        | c1 :: t1 =>
          if c1.val = 0x5D then some (Value.array, t1)
          else (parseElements n (depth + 1) (c1 :: t1)).map (fun r => (Value.array, r))
        | [] => none
      else none
    else if c.val = 0x22 then (scanString t).map (fun p => (Value.string p.1, p.2))
    else if c.val = 0x74 then (expect (lit "rue") t).map (fun r => (Value.bool true, r))
    else if c.val = 0x66 then (expect (lit "alse") t).map (fun r => (Value.bool false, r))
    else if c.val = 0x6E then (expect (lit "ull") t).map (fun r => (Value.null, r))
    else (scanNumber (c :: t)).map (fun r => (Value.number, r))
/-- Scanner state `stateBeginString` up to the end of the object: reads
`"key" : value` pairs separated by commas and the closing brace. -/
def parseMembers : Nat → Nat → Bytes → Option (List (Bytes × Value) × Bytes)
  | 0, _, _ => none
  | n + 1, depth, s =>
    match s with
    | c :: t =>
      if c.val = 0x22 then
        match scanString t with
        | some (key, r1) =>
          match skipSpace r1 with
          | c2 :: t2 =>
            if c2.val = 0x3A then
              match parseValue n depth (skipSpace t2) with
              | some (v, r2) =>
                match skipSpace r2 with
                | c3 :: t3 =>
                  if c3.val = 0x2C then
                    (parseMembers n depth (skipSpace t3)).map (fun p => ((key, v) :: p.1, p.2))
                  else if c3.val = 0x7D then some ([(key, v)], t3)
                  else none
                | [] => none
              | none => none
            else none
          | [] => none
        | none => none
      else none
    | [] => none
/-- Scanner state `stateBeginValue` inside an array up to its end: reads values
separated by commas and the closing bracket. -/
def parseElements : Nat → Nat → Bytes → Option Bytes
  | 0, _, _ => none
  | n + 1, depth, s =>
    match parseValue n depth s with
    | some (_, r) =>
      match skipSpace r with
      | c :: t =>
        if c.val = 0x2C then parseElements n depth (skipSpace t)
        else if c.val = 0x5D then some t
        else none
      | [] => none
    | none => none
end

/-- Function `checkValid` together with the tokenising done by `decodeState`:
the input is one JSON value surrounded by optional white space. -/
def parse (data : Bytes) : Option Value :=
  match parseValue (data.length + 1) 0 (skipSpace data) with
  | some (v, r) => if skipSpace r = [] then some v else none
  | none => none

/-- The value of a hexadecimal digit in `getu4`; `none` where `getu4` returns
`-1`. -/
def hexValue (c : Byte) : Option Nat :=
  if 0x30 ≤ c.val ∧ c.val ≤ 0x39 then some (c.val - 0x30)
  else if 0x61 ≤ c.val ∧ c.val ≤ 0x66 then some (c.val - 0x61 + 10)
  else if 0x41 ≤ c.val ∧ c.val ≤ 0x46 then some (c.val - 0x41 + 10)
  else none

/-- Function `getu4` of the decoder: the value of the escape `\uXXXX` at the
start of `s`, or `none` (Go: `-1`) when `s` does not start with one. -/
def getu4 (s : Bytes) : Option Nat :=
  match s with
  | c0 :: c1 :: h1 :: h2 :: h3 :: h4 :: _ =>
    if c0.val = 0x5C ∧ c1.val = 0x75 then
      match hexValue h1, hexValue h2, hexValue h3, hexValue h4 with
      | some d1, some d2, some d3, some d4 => some (((d1 * 16 + d2) * 16 + d3) * 16 + d4)
      | _, _, _, _ => none
    else none
  | _ => none

/-- Function `utf16.IsSurrogate`. -/
def IsSurrogate (r : Nat) : Bool := 0xD800 ≤ r && r < 0xE000

/-- Function `utf16.DecodeRune`: the rune of a surrogate pair, or U+FFFD when
the two values are not a valid pair (`r2 = none` stands for the `-1` of Go). -/
def utf16DecodeRune (r1 : Nat) (r2 : Option Nat) : Nat :=
  match r2 with
  | some r2 =>
    if 0xD800 ≤ r1 ∧ r1 < 0xDC00 ∧ 0xDC00 ≤ r2 ∧ r2 < 0xE000 then
      (r1 - 0xD800) * 1024 + (r2 - 0xDC00) + 0x10000
    else 0xFFFD
  | none => 0xFFFD

/-- One iteration of the loop of `unquoteBytes`, at input `c :: t`: the bytes
written and the input left, or `none` where Go returns `ok = false`. -/
def unquoteStep (c : Byte) (t : Bytes) : Option (Bytes × Bytes) :=
  if c.val = 0x5C then
    match t with
    | [] => none
    | e :: t2 =>
      if e.val = 0x22 ∨ e.val = 0x5C ∨ e.val = 0x2F ∨ e.val = 0x27 then some ([e], t2)
      else if e.val = 0x62 then some ([0x08], t2)
      else if e.val = 0x66 then some ([0x0C], t2)
      else if e.val = 0x6E then some ([0x0A], t2)
      else if e.val = 0x72 then some ([0x0D], t2)
      else if e.val = 0x74 then some ([0x09], t2)
      else if e.val = 0x75 then
        match getu4 (c :: t) with
        | none => none
        | some rr =>
          let t3 := t2.drop 4
          if IsSurrogate rr then
            let dec := utf16DecodeRune rr (getu4 t3)
            if dec ≠ 0xFFFD then some (utf8.AppendRune dec, t3.drop 6)
            else some (utf8.AppendRune 0xFFFD, t3)
          else some (utf8.AppendRune rr, t3)
      else none
  else if c.val = 0x22 ∨ c.val < 0x20 then none
  else if c.val < 0x80 then some ([c], t)
  else
    let d := utf8.DecodeRune (c :: t)
    some (utf8.AppendRune d.1, (c :: t).drop d.2)

/-- Function `unquoteBytes` of the decoder on the bytes between the quotes of a
string literal: undoes the escapes and coerces the text to valid UTF-8.  (Go
returns its input unchanged when there is nothing to undo or coerce; the
general loop modelled here computes the same bytes in that case.)  The first
argument bounds the number of iterations, each of which reads at least one
byte. -/
def unquoteBytes : Nat → Bytes → Option Bytes
  | _, [] => some []
  | 0, _ :: _ => none
  | n + 1, c :: t =>
    match unquoteStep c t with
    | none => none
    | some (out, rest) => (unquoteBytes n rest).map (fun r => out ++ r)

/-- Function `unquote`: the Go string denoted by the literal `s` (between its
quotes). -/
def unquote (s : Bytes) : Option Bytes := unquoteBytes s.length s

/-- Function `foldRune` of `encoding/json`: the smallest rune of the
`unicode.SimpleFold` orbit of `r`.  The Unicode table is reproduced only where
the orbit reaches an ASCII letter (U+017F with `S`, U+212A with `K`); on every
other non-ASCII rune the true value is again a non-ASCII rune, which can never
take part in a match with the ASCII field names of `DID`, and `r` stands for
it. -/
def foldRune (r : Nat) : Nat :=
  if r = 0x17F then 0x53 else if r = 0x212A then 0x4B else r

/-- Function `foldName` (loop of `appendFoldedName`): the case-folded form of
a JSON object key, used for case-insensitive field matching. -/
def foldNameLoop : Nat → Bytes → Bytes
  | 0, _ => []
  | _ + 1, [] => []
  | n + 1, c :: t =>
    if c.val < 0x80 then
      (if 0x61 ≤ c.val ∧ c.val ≤ 0x7A then byte (c.val - 0x20) else c) :: foldNameLoop n t
    else
      let d := utf8.DecodeRune (c :: t)
      utf8.AppendRune (foldRune d.1) ++ foldNameLoop n ((c :: t).drop d.2)

/-- Function `foldName` of `encoding/json`. -/
def foldName (s : Bytes) : Bytes := foldNameLoop s.length s

/-- The four exported fields of the Go struct `DID`. -/
inductive Field
  | DID
  | Name
  | Credentials
  | Verified
  deriving DecidableEq

/-- The JSON names of the fields, from the struct tags, in declaration
order. -/
def fieldNames : List (Bytes × Field) :=
  [(lit "did", Field.DID), (lit "name", Field.Name),
   (lit "credentials", Field.Credentials), (lit "verified", Field.Verified)]

/-- Field lookup of `decodeState.object`: the field whose name is exactly the
key, otherwise the first field whose folded name equals the folded key. -/
def lookupField (key : Bytes) : Option Field :=
  match fieldNames.find? (fun f => f.1 = key) with
  | some f => some f.2
  | none => (fieldNames.find? (fun f => foldName f.1 = foldName key)).map (fun f => f.2)

end json

/-- Function `literalStore` (and the `default` branches of `array` and `object`)
for one field of a `DID`: `null` leaves the field alone, a JSON string goes
into a string field and a JSON boolean into `Verified`; every other
combination is an `UnmarshalTypeError`.  (A string literal that the scanner
has accepted always unquotes; Go would panic otherwise.) -/
def json.storeField (f : json.Field) (val : json.Value) (v : DID) :
    Except json.DecodeError DID :=
  match val, f with
  | Value.null, _ => .ok v
  | Value.string l, Field.DID =>
    match unquote l with
    | some s => .ok { v with DID := s }
    | none => .error DecodeError.SyntaxError
  | Value.string l, Field.Name =>
    match unquote l with
    | some s => .ok { v with Name := s }
    | none => .error DecodeError.SyntaxError
  | Value.string l, Field.Credentials =>
    match unquote l with
    | some s => .ok { v with Credentials := s }
    | none => .error DecodeError.SyntaxError
  | Value.bool b, Field.Verified => .ok { v with Verified := b }
  | _, _ => .error DecodeError.UnmarshalTypeError

/-- Function `decodeState.object` for a `DID`: stores the members in input
order, skipping keys that match no field.  Go keeps decoding after the first
`UnmarshalTypeError` and reports it at the end; callers here only see that
`Unmarshal` failed, so the model stops at it. -/
def json.decodeObject : List (Bytes × json.Value) → DID → Except json.DecodeError DID
  | [], v => .ok v
  | (k, val) :: ms, v =>
    match json.unquote k with
    | none => .error json.DecodeError.SyntaxError
    | some key =>
      match json.lookupField key with
      | none => json.decodeObject ms v
      | some f =>
        match json.storeField f val v with
        | .ok v1 => json.decodeObject ms v1
        | .error e => .error e

/-- Function `json.Unmarshal(data, &v)` for `v` of type `DID`: the value of `v`
afterwards, or the error returned. -/
def json.Unmarshal (data : Bytes) (v : DID) : Except json.DecodeError DID :=
  match json.parse data with
  | none => .error json.DecodeError.SyntaxError
  | some json.Value.null => .ok v
  | some (json.Value.object ms) => json.decodeObject ms v
  | some _ => .error json.DecodeError.UnmarshalTypeError

/-- The bytes `json.Marshal` writes for a `DID`: the four fields under their
tag names, in declaration order, without white space. -/
def json.encodeDID (v : DID) : Bytes :=
  lit "\x7b\"did\":" ++ json.appendString v.DID
    ++ lit ",\"name\":" ++ json.appendString v.Name
    ++ lit ",\"credentials\":" ++ json.appendString v.Credentials
    ++ lit ",\"verified\":" ++ (if v.Verified then lit "true" else lit "false")
    ++ lit "\x7d"

/-- Function `json.Marshal(v)` for `v` of type `DID`.  The error is always nil
for this type: it has three string fields and a bool and no custom
marshaler. -/
def json.Marshal (v : DID) : Except json.DecodeError Bytes :=
  .ok (json.encodeDID v)

/-- The zero value of `DID`, as declared by `var identity DID`. -/
def zeroDID : DID := { DID := [], Name := [], Credentials := [], Verified := false }

/-! ## The transaction context -/

/-- A call on the stub (`ctx.GetStub()`), with its arguments. -/
inductive Call
  | GetState (key : Bytes)
  | PutState (key : Bytes) (value : Bytes)
  | DelState (key : Bytes)
  deriving DecidableEq

/-- The transaction context handed to the chaincode by the host.  `state` is
the world state (`none`: the key is absent).  `getErr`, `putErr` and `delErr`
say for which calls the host returns an error, and with what message; the
chaincode has no influence on them.  `calls` lists the calls issued so far,
oldest first. -/
structure Stub where
  state : Bytes → Option Bytes
  getErr : Bytes → Option String
  putErr : Bytes → Bytes → Option String
  delErr : Bytes → Option String
  calls : List Call

/-- The errors the chaincode returns: one made by `fmt.Errorf`, one returned by
`encoding/json`, or one returned by `PutState` or `DelState` and passed on. -/
inductive Error
  | Errorf (msg : String)
  | json (e : json.DecodeError)
  | stub (msg : String)
  deriving DecidableEq

/-- Method `GetState` of the stub: the value at `key` (nil, here `[]`, when
the key is absent), or the error of the host. -/
def Stub.GetState (ctx : Stub) (key : Bytes) : Except String Bytes × Stub :=
  let ctx1 := { ctx with calls := ctx.calls ++ [Call.GetState key] }
  match ctx.getErr key with
  | some e => (.error e, ctx1)
  | none => (.ok ((ctx.state key).getD []), ctx1)

/-- Method `PutState` of the stub: sets the value at `key`, unless the host
returns an error. -/
def Stub.PutState (ctx : Stub) (key value : Bytes) : Except Error Unit × Stub :=
  let ctx1 := { ctx with calls := ctx.calls ++ [Call.PutState key value] }
  match ctx.putErr key value with
  | some e => (.error (Error.stub e), ctx1)
  | none => (.ok (), { ctx1 with state := fun k => if k = key then some value else ctx.state k })

/-- Method `DelState` of the stub: removes `key`, unless the host returns an
error. -/
def Stub.DelState (ctx : Stub) (key : Bytes) : Except Error Unit × Stub :=
  let ctx1 := { ctx with calls := ctx.calls ++ [Call.DelState key] }
  match ctx.delErr key with
  | some e => (.error (Error.stub e), ctx1)
  | none => (.ok (), { ctx1 with state := fun k => if k = key then none else ctx.state k })

/-! ## The chaincode -/

/-- Go: `func (s *SmartContract) CreateDID(ctx, did, name, credentials) error`. -/
def CreateDID (ctx : Stub) (did name credentials : Bytes) : Except Error Unit × Stub :=
  match ctx.GetState did with
  | (.error err, ctx1) => (.error (Error.Errorf ("failed to read from world state: " ++ err)), ctx1)
  | (.ok existingDID, ctx1) =>
    if existingDID.length > 0 then
      (.error (Error.Errorf "DID already exists"), ctx1)
    else
      let identity : DID :=
        { DID := did, Name := name, Credentials := credentials, Verified := false }
      match json.Marshal identity with
      | .error err => (.error (Error.json err), ctx1)
      | .ok identityJSON => ctx1.PutState did identityJSON

/-- Go: `func (s *SmartContract) UpdateCredentials(ctx, did, newCredentials) error`. -/
def UpdateCredentials (ctx : Stub) (did newCredentials : Bytes) : Except Error Unit × Stub :=
  match ctx.GetState did with
  | (.error err, ctx1) => (.error (Error.Errorf ("failed to read DID: " ++ err)), ctx1)
  | (.ok didJSON, ctx1) =>
    if didJSON.length = 0 then
      (.error (Error.Errorf "DID does not exist"), ctx1)
    else
      match json.Unmarshal didJSON zeroDID with
      | .error err => (.error (Error.json err), ctx1)
      | .ok identity =>
        let identity := { identity with Credentials := newCredentials }
        match json.Marshal identity with
        | .error err => (.error (Error.json err), ctx1)
        | .ok updatedDIDJSON => ctx1.PutState did updatedDIDJSON

/-- Go: `func (s *SmartContract) VerifyDID(ctx, did) error`. -/
def VerifyDID (ctx : Stub) (did : Bytes) : Except Error Unit × Stub :=
  match ctx.GetState did with
  | (.error err, ctx1) => (.error (Error.Errorf ("failed to read DID: " ++ err)), ctx1)
  | (.ok didJSON, ctx1) =>
    if didJSON.length = 0 then
      (.error (Error.Errorf "DID does not exist"), ctx1)
    else
      match json.Unmarshal didJSON zeroDID with
      | .error err => (.error (Error.json err), ctx1)
      | .ok identity =>
        let identity := { identity with Verified := true }
        match json.Marshal identity with
        | .error err => (.error (Error.json err), ctx1)
        | .ok updatedDIDJSON => ctx1.PutState did updatedDIDJSON

/-- Go: `func (s *SmartContract) RevokeDID(ctx, did) error`. -/
def RevokeDID (ctx : Stub) (did : Bytes) : Except Error Unit × Stub :=
  match ctx.GetState did with
  | (.error err, ctx1) => (.error (Error.Errorf ("failed to read DID: " ++ err)), ctx1)
  | (.ok existingDID, ctx1) =>
    if existingDID.length = 0 then
      (.error (Error.Errorf "DID does not exist"), ctx1)
    else
      ctx1.DelState did

/-- Go: `func (s *SmartContract) GetDID(ctx, did) (*DID, error)`. -/
def GetDID (ctx : Stub) (did : Bytes) : Except Error DID × Stub :=
  match ctx.GetState did with
  | (.error err, ctx1) => (.error (Error.Errorf ("failed to read DID: " ++ err)), ctx1)
  | (.ok didJSON, ctx1) =>
    if didJSON.length = 0 then
      (.error (Error.Errorf "DID does not exist"), ctx1)
    else
      match json.Unmarshal didJSON zeroDID with
      | .error err => (.error (Error.json err), ctx1)
      | .ok identity => (.ok identity, ctx1)

/-! ## Vocabulary of the specification -/

/-- A host that never returns an error, on the given world state, before any
call. -/
def Stub.reliable (state : Bytes → Option Bytes) : Stub :=
  { state := state, getErr := fun _ => none, putErr := fun _ _ => none,
    delErr := fun _ => none, calls := [] }

/-- The empty world state. -/
def emptyState : Bytes → Option Bytes := fun _ => none

/-- The world state after a successful `PutState`. -/
def putAt (st : Bytes → Option Bytes) (key value : Bytes) : Bytes → Option Bytes :=
  fun k => if k = key then some value else st k

/-- An invocation of the chaincode: the operation and its arguments. -/
inductive Op
  | CreateDID (did name credentials : Bytes)
  | UpdateCredentials (did newCredentials : Bytes)
  | VerifyDID (did : Bytes)
  | RevokeDID (did : Bytes)
  | GetDID (did : Bytes)
  deriving DecidableEq

/-- The transaction context after the invocation `op`. -/
def Op.run (ctx : Stub) : Op → Stub
  | Op.CreateDID did name credentials => (DIDChaincode.CreateDID ctx did name credentials).2
  | Op.UpdateCredentials did newCredentials =>
    (DIDChaincode.UpdateCredentials ctx did newCredentials).2
  | Op.VerifyDID did => (DIDChaincode.VerifyDID ctx did).2
  | Op.RevokeDID did => (DIDChaincode.RevokeDID ctx did).2
  | Op.GetDID did => (DIDChaincode.GetDID ctx did).2

/-- The transaction context after the invocations `ops`, run in order. -/
def runAll (ctx : Stub) (ops : List Op) : Stub := ops.foldl Op.run ctx

/-- The key an invocation works on. -/
def Op.key : Op → Bytes
  | Op.CreateDID did _ _ => did
  | Op.UpdateCredentials did _ => did
  | Op.VerifyDID did => did
  | Op.RevokeDID did => did
  | Op.GetDID did => did

/-- What `Marshal` followed by `Unmarshal` makes of a Go string ("coerced to
valid UTF-8"): every byte that is not part of a well-formed encoding is
replaced by the encoding of U+FFFD, everything else is kept. -/
def utf8.coerceLoop : Nat → Bytes → Bytes
  | 0, _ => []
  | _ + 1, [] => []
  | n + 1, b :: rest =>
    let d := utf8.DecodeRune (b :: rest)
    if d = (utf8.RuneError, 1) then
      [0xEF, 0xBF, 0xBD] ++ utf8.coerceLoop n rest
    else (b :: rest).take d.2 ++ utf8.coerceLoop n ((b :: rest).drop d.2)

/-- The string `s` coerced to valid UTF-8. -/
def utf8.coerce (s : Bytes) : Bytes := utf8.coerceLoop s.length s

/-- Loop of `utf8.Valid`, written with `DecodeRune`: no position that the
loop reaches decodes to `(RuneError, 1)`.  The first argument bounds the
number of iterations. -/
def utf8.validLoop : Nat → Bytes → Bool
  | _, [] => true
  | 0, _ :: _ => false
  | n + 1, b :: rest =>
    let d := utf8.DecodeRune (b :: rest)
    d ≠ (utf8.RuneError, 1) && utf8.validLoop n ((b :: rest).drop d.2)

/-- Function `utf8.Valid` (`utf8.ValidString`): `s` consists entirely of
well-formed UTF-8 encodings. -/
def utf8.Valid (s : Bytes) : Bool := utf8.validLoop s.length s

/-- A record with its three strings coerced to valid UTF-8. -/
def coerceDID (r : DID) : DID :=
  { DID := utf8.coerce r.DID, Name := utf8.coerce r.Name,
    Credentials := utf8.coerce r.Credentials, Verified := r.Verified }

/-- The three strings of a record are valid UTF-8. -/
def validDID (r : DID) : Bool :=
  utf8.Valid r.DID && utf8.Valid r.Name && utf8.Valid r.Credentials

/-- The world state after a successful `DelState`. -/
def delAt (st : Bytes → Option Bytes) (key : Bytes) : Bytes → Option Bytes :=
  fun k => if k = key then none else st k

/-- A host whose ledger cannot be read: every `GetState` returns the error
`msg`. -/
def Stub.unreadable (msg : String) : Stub :=
  { state := emptyState, getErr := fun _ => some msg, putErr := fun _ _ => none,
    delErr := fun _ => none, calls := [] }

/-- A host that rejects every write and delete with the error `msg`, on the
given world state. -/
def Stub.unwritable (state : Bytes → Option Bytes) (msg : String) : Stub :=
  { state := state, getErr := fun _ => none, putErr := fun _ _ => some msg,
    delErr := fun _ => some msg, calls := [] }

/-- The world states that the chaincode can produce: the empty one, and the
state after any invocation (any operation, any arguments, any behaviour of the
host) made in a context whose world state can be produced. -/
inductive Reachable : (Bytes → Option Bytes) → Prop
  | empty : Reachable emptyState
  | step (ctx : Stub) (op : Op) : Reachable ctx.state → Reachable (op.run ctx).state

/-- Whether the member `m` of a JSON object is stored into field `f`: its key
is the name of `f`, exactly or after case folding. -/
def json.isField (f : json.Field) (m : Bytes × json.Value) : Bool :=
  match json.unquote m.1 with
  | some key => json.lookupField key == some f
  | none => false

/-- Whether a JSON object has a member for field `f`. -/
def json.hasField (f : json.Field) (ms : List (Bytes × json.Value)) : Bool :=
  ms.any (json.isField f)

/-- Whether the decoder stores the member `m` of a JSON object into a `DID`
without error: its key unquotes and names no field, or its value is `null`,
or a string literal that unquotes for `did`, `name`, `credentials`, or a
boolean for `verified`. -/
def json.memberOK (m : Bytes × json.Value) : Bool :=
  match json.unquote m.1 with
  | none => false
  | some key =>
    match json.lookupField key with
    | none => true
    | some f =>
      match m.2, f with
      | json.Value.null, _ => true
      | json.Value.string l, json.Field.DID => (json.unquote l).isSome
      | json.Value.string l, json.Field.Name => (json.unquote l).isSome
      | json.Value.string l, json.Field.Credentials => (json.unquote l).isSome
      | json.Value.bool _, json.Field.Verified => true
      | _, _ => false

/-- Whether the member `m` of a JSON object names a field of `DID` (exactly or
after case folding) and has a value that is neither `null` nor of the JSON
type of that field: a string for `did`, `name`, `credentials`, a boolean for
`verified`. -/
def json.wrongType (m : Bytes × json.Value) : Bool :=
  match json.unquote m.1 with
  | none => false
  | some key =>
    match json.lookupField key with
    | none => false
    | some f =>
      match m.2, f with
      | json.Value.null, _ => false
      | json.Value.string _, json.Field.DID => false
      | json.Value.string _, json.Field.Name => false
      | json.Value.string _, json.Field.Credentials => false
      | json.Value.bool _, json.Field.Verified => false
      | _, _ => true

/-- The states of one key in the state machine of the specification. -/
inductive Life
  | absent
  | unverified
  | verified
  deriving DecidableEq

/-- The abstract state of key `d`: absent when there is no value (or an empty
one), otherwise given by the `verified` field of the decoded value; `none`
for a value that does not decode. -/
def lifeOf (st : Bytes → Option Bytes) (d : Bytes) : Option Life :=
  if ((st d).getD []).length = 0 then some Life.absent
  else
    match json.Unmarshal ((st d).getD []) zeroDID with
    | .ok r => some (if r.Verified then Life.verified else Life.unverified)
    | .error _ => none

/-- The state machine of the specification (section 4.2), one key: the state
after an operation on the key, or `none` for a pair of operation and state
that the diagram does not have.  Create leads from absent to unverified,
Verify from unverified or verified to verified, UpdateCredentials is a
self-loop on unverified and on verified, Revoke leads from unverified or
verified to absent, and Get leaves unverified and verified as they are.  On an
absent key only Create has a transition: the specification has the other four
return NotFound. -/
def specLifecycle : Op → Life → Option Life
  | Op.CreateDID _ _ _, Life.absent => some Life.unverified
  | Op.VerifyDID _, Life.unverified => some Life.verified
  | Op.VerifyDID _, Life.verified => some Life.verified
  | Op.UpdateCredentials _ _, Life.unverified => some Life.unverified
  | Op.UpdateCredentials _ _, Life.verified => some Life.verified
  | Op.RevokeDID _, Life.unverified => some Life.absent
  | Op.RevokeDID _, Life.verified => some Life.absent
  | Op.GetDID _, Life.unverified => some Life.unverified
  | Op.GetDID _, Life.verified => some Life.verified
  | _, _ => none

/-- Whether the invocation `op` returns without an error. -/
def Op.succeeds (ctx : Stub) : Op → Bool
  | Op.CreateDID did name credentials =>
    match (DIDChaincode.CreateDID ctx did name credentials).1 with
    | .ok _ => true
    | .error _ => false
  | Op.UpdateCredentials did newCredentials =>
    match (DIDChaincode.UpdateCredentials ctx did newCredentials).1 with
    | .ok _ => true
    | .error _ => false
  | Op.VerifyDID did =>
    match (DIDChaincode.VerifyDID ctx did).1 with
    | .ok _ => true
    | .error _ => false
  | Op.RevokeDID did =>
    match (DIDChaincode.RevokeDID ctx did).1 with
    | .ok _ => true
    | .error _ => false
  | Op.GetDID did =>
    match (DIDChaincode.GetDID ctx did).1 with
    | .ok _ => true
    | .error _ => false

/-! ## Notions used in the proofs -/

/-- One iteration of the encoder loop and its reading: `chunk` is what the
encoder writes, `out` what `unquoteBytes` makes of it, and the scanner accepts
`chunk` inside a string literal. -/
def Chunk (chunk out : Bytes) : Prop :=
  chunk ≠ [] ∧
  (∀ m X, json.unquoteBytes (m + 1) (chunk ++ X) = (json.unquoteBytes m X).map (fun r => out ++ r)) ∧
  (∀ X, json.scanString (chunk ++ X) = (json.scanString X).map (fun p => (chunk ++ p.1, p.2)))

/-- A byte that stands for itself inside a string literal, for the scanner. -/
def Plain (b : Byte) : Bool := 0x20 ≤ b.val && b.val != 0x22 && b.val != 0x5C

/-- A well-formed encoding of one rune: it decodes as a whole, whatever
follows. -/
def RuneUnit (out : Bytes) : Prop :=
  out ≠ [] ∧ ∀ u, ∃ r, utf8.DecodeRune (out ++ u) = (r, out.length) ∧
    (r, out.length) ≠ (utf8.RuneError, 1)

/-- Every value of the world state is the encoding of a record whose `did`
and the key are the same after coercion to valid UTF-8. -/
def Encoded (st : Bytes → Option Bytes) : Prop :=
  ∀ k v, st k = some v → ∃ r : DID, v = json.encodeDID r ∧ utf8.coerce r.DID = utf8.coerce k

/-! ## Lemmas on `unicode/utf8` -/

theorem byte_val (b : Byte) : byte b.val = b := by
  apply Fin.ext
  simp only [byte]
  omega

theorem first_cases (b : Nat) :
    (b < 0x80 ∧ utf8.first b = 0xF0) ∨
    ((0x80 ≤ b ∧ b < 0xC2 ∨ 0xF5 ≤ b) ∧ utf8.first b = 0xF1) ∨
    (0xC2 ≤ b ∧ b < 0xE0 ∧ utf8.first b = 0x02) ∨
    (b = 0xE0 ∧ utf8.first b = 0x13) ∨
    ((0xE1 ≤ b ∧ b < 0xED ∨ b = 0xEE ∨ b = 0xEF) ∧ utf8.first b = 0x03) ∨
    (b = 0xED ∧ utf8.first b = 0x23) ∨
    (b = 0xF0 ∧ utf8.first b = 0x34) ∨
    (0xF1 ≤ b ∧ b < 0xF4 ∧ utf8.first b = 0x04) ∨
    (b = 0xF4 ∧ utf8.first b = 0x44) := by
  unfold utf8.first
  split_ifs with h1 h2 h3 h4 h5 h6 h7 h8 h9 h10
  · exact Or.inl ⟨h1, rfl⟩
  · exact Or.inr (Or.inl ⟨Or.inl ⟨by omega, h2⟩, rfl⟩)
  · exact Or.inr (Or.inr (Or.inl ⟨by omega, h3, rfl⟩))
  · exact Or.inr (Or.inr (Or.inr (Or.inl ⟨h4, rfl⟩)))
  · exact Or.inr (Or.inr (Or.inr (Or.inr (Or.inl ⟨Or.inl ⟨by omega, h5⟩, rfl⟩))))
  · exact Or.inr (Or.inr (Or.inr (Or.inr (Or.inr (Or.inl ⟨h6, rfl⟩)))))
  · exact Or.inr (Or.inr (Or.inr (Or.inr (Or.inl ⟨by omega, rfl⟩))))
  · exact Or.inr (Or.inr (Or.inr (Or.inr (Or.inr (Or.inr (Or.inl ⟨h8, rfl⟩))))))
  · exact Or.inr (Or.inr (Or.inr (Or.inr (Or.inr (Or.inr (Or.inr (Or.inl ⟨by omega, h9, rfl⟩)))))))
  · exact Or.inr (Or.inr (Or.inr (Or.inr (Or.inr (Or.inr (Or.inr (Or.inr ⟨h10, rfl⟩)))))))
  · exact Or.inr (Or.inl ⟨Or.inr (by omega), rfl⟩)

theorem byte_eq (n : Nat) (b : Byte) (h : n = b.val) : byte n = b := by
  subst h
  exact byte_val b

/-- The three outcomes of `DecodeRune` on a non-empty input: an invalid byte,
an ASCII byte, or a well-formed multi-byte encoding `w` of a rune `r`, which
decodes the same way whatever follows it and which `AppendRune` reproduces. -/
theorem decode_cases (s0 : Byte) (t : Bytes) :
    utf8.DecodeRune (s0 :: t) = (utf8.RuneError, 1) ∨
    (s0.val < 0x80 ∧ utf8.DecodeRune (s0 :: t) = (s0.val, 1)) ∨
    ∃ (w t1 : Bytes) (r : Nat), s0 :: t = w ++ t1 ∧ 2 ≤ w.length ∧
      (∀ b ∈ w, 0x80 ≤ b.val) ∧ 0x80 ≤ r ∧
      (∀ u, utf8.DecodeRune (w ++ u) = (r, w.length)) ∧ utf8.AppendRune r = w := by
  have h0 := s0.isLt
  rcases first_cases s0.val with ⟨hb, hf⟩ | ⟨hb, hf⟩ | ⟨hb, hb2, hf⟩ | ⟨hb, hf⟩ | ⟨hb, hf⟩ |
    ⟨hb, hf⟩ | ⟨hb, hf⟩ | ⟨hb, hb2, hf⟩ | ⟨hb, hf⟩
  · right; left
    exact ⟨hb, by simp [utf8.DecodeRune, hf]⟩
  · left
    simp [utf8.DecodeRune, hf]
  · rcases t with _ | ⟨s1, t⟩
    · left; simp [utf8.DecodeRune, hf]
    · have h1 := s1.isLt
      by_cases c1 : s1.val < 0x80 ∨ 0xBF < s1.val
      · left; simp [utf8.DecodeRune, hf, utf8.acceptRanges, c1]
      · right; right
        refine ⟨[s0, s1], t, (s0.val % 32) * 64 + s1.val % 64, rfl, by simp, ?_, by omega, ?_, ?_⟩
        · intro b hb; simp at hb; rcases hb with rfl | rfl <;> omega
        · intro u; simp [utf8.DecodeRune, hf, utf8.acceptRanges, c1]
        · simp only [utf8.AppendRune]
          rw [if_neg (by omega), if_pos (by omega)]
          rw [byte_eq _ s0 (by omega), byte_eq _ s1 (by omega)]
  · rcases t with _ | ⟨s1, _ | ⟨s2, t⟩⟩
    · left; simp [utf8.DecodeRune, hf]
    · by_cases c1 : s1.val < 0xA0 ∨ 0xBF < s1.val
      · left; simp [utf8.DecodeRune, hf, utf8.acceptRanges, c1]
      · left; simp [utf8.DecodeRune, hf, utf8.acceptRanges, c1]
    · have h1 := s1.isLt
      have h2 := s2.isLt
      by_cases c1 : s1.val < 0xA0 ∨ 0xBF < s1.val
      · left; simp [utf8.DecodeRune, hf, utf8.acceptRanges, c1]
      by_cases c2 : s2.val < 0x80 ∨ 0xBF < s2.val
      · left; simp [utf8.DecodeRune, hf, utf8.acceptRanges, c1, c2]
      right; right
      refine ⟨[s0, s1, s2], t, (s0.val % 16) * 4096 + (s1.val % 64) * 64 + s2.val % 64,
        rfl, by simp, ?_, by omega, ?_, ?_⟩
      · intro b hb; simp at hb; rcases hb with rfl | rfl | rfl <;> omega
      · intro u; simp [utf8.DecodeRune, hf, utf8.acceptRanges, c1, c2]
      · simp only [utf8.AppendRune, utf8.MaxRune, utf8.RuneError]
        rw [if_neg (by omega), if_neg (by omega), if_pos (by omega), if_neg (by omega)]
        rw [byte_eq _ s0 (by omega), byte_eq _ s1 (by omega), byte_eq _ s2 (by omega)]
  · rcases t with _ | ⟨s1, _ | ⟨s2, t⟩⟩
    · left; simp [utf8.DecodeRune, hf]
    · by_cases c1 : s1.val < 0x80 ∨ 0xBF < s1.val
      · left; simp [utf8.DecodeRune, hf, utf8.acceptRanges, c1]
      · left; simp [utf8.DecodeRune, hf, utf8.acceptRanges, c1]
    · have h1 := s1.isLt
      have h2 := s2.isLt
      by_cases c1 : s1.val < 0x80 ∨ 0xBF < s1.val
      · left; simp [utf8.DecodeRune, hf, utf8.acceptRanges, c1]
      by_cases c2 : s2.val < 0x80 ∨ 0xBF < s2.val
      · left; simp [utf8.DecodeRune, hf, utf8.acceptRanges, c1, c2]
      right; right
      refine ⟨[s0, s1, s2], t, (s0.val % 16) * 4096 + (s1.val % 64) * 64 + s2.val % 64,
        rfl, by simp, ?_, by omega, ?_, ?_⟩
      · intro b hb; simp at hb; rcases hb with rfl | rfl | rfl <;> omega
      · intro u; simp [utf8.DecodeRune, hf, utf8.acceptRanges, c1, c2]
      · simp only [utf8.AppendRune, utf8.MaxRune, utf8.RuneError]
        rw [if_neg (by omega), if_neg (by omega), if_pos (by omega), if_neg (by omega)]
        rw [byte_eq _ s0 (by omega), byte_eq _ s1 (by omega), byte_eq _ s2 (by omega)]
  · rcases t with _ | ⟨s1, _ | ⟨s2, t⟩⟩
    · left; simp [utf8.DecodeRune, hf]
    · by_cases c1 : s1.val < 0x80 ∨ 0x9F < s1.val
      · left; simp [utf8.DecodeRune, hf, utf8.acceptRanges, c1]
      · left; simp [utf8.DecodeRune, hf, utf8.acceptRanges, c1]
    · have h1 := s1.isLt
      have h2 := s2.isLt
      by_cases c1 : s1.val < 0x80 ∨ 0x9F < s1.val
      · left; simp [utf8.DecodeRune, hf, utf8.acceptRanges, c1]
      by_cases c2 : s2.val < 0x80 ∨ 0xBF < s2.val
      · left; simp [utf8.DecodeRune, hf, utf8.acceptRanges, c1, c2]
      right; right
      refine ⟨[s0, s1, s2], t, (s0.val % 16) * 4096 + (s1.val % 64) * 64 + s2.val % 64,
        rfl, by simp, ?_, by omega, ?_, ?_⟩
      · intro b hb; simp at hb; rcases hb with rfl | rfl | rfl <;> omega
      · intro u; simp [utf8.DecodeRune, hf, utf8.acceptRanges, c1, c2]
      · simp only [utf8.AppendRune, utf8.MaxRune, utf8.RuneError]
        rw [if_neg (by omega), if_neg (by omega), if_pos (by omega), if_neg (by omega)]
        rw [byte_eq _ s0 (by omega), byte_eq _ s1 (by omega), byte_eq _ s2 (by omega)]
  · rcases t with _ | ⟨s1, _ | ⟨s2, _ | ⟨s3, t⟩⟩⟩
    · left; simp [utf8.DecodeRune, hf]
    · by_cases c1 : s1.val < 0x90 ∨ 0xBF < s1.val
      · left; simp [utf8.DecodeRune, hf, utf8.acceptRanges, c1]
      · left; simp [utf8.DecodeRune, hf, utf8.acceptRanges, c1]
    · by_cases c1 : s1.val < 0x90 ∨ 0xBF < s1.val
      · left; simp [utf8.DecodeRune, hf, utf8.acceptRanges, c1]
      by_cases c2 : s2.val < 0x80 ∨ 0xBF < s2.val
      · left; simp [utf8.DecodeRune, hf, utf8.acceptRanges, c1, c2]
      · left; simp [utf8.DecodeRune, hf, utf8.acceptRanges, c1, c2]
    · have h1 := s1.isLt
      have h2 := s2.isLt
      have h3 := s3.isLt
      by_cases c1 : s1.val < 0x90 ∨ 0xBF < s1.val
      · left; simp [utf8.DecodeRune, hf, utf8.acceptRanges, c1]
      by_cases c2 : s2.val < 0x80 ∨ 0xBF < s2.val
      · left; simp [utf8.DecodeRune, hf, utf8.acceptRanges, c1, c2]
      by_cases c3 : s3.val < 0x80 ∨ 0xBF < s3.val
      · left; simp [utf8.DecodeRune, hf, utf8.acceptRanges, c1, c2, c3]
      right; right
      refine ⟨[s0, s1, s2, s3], t,
        (s0.val % 8) * 262144 + (s1.val % 64) * 4096 + (s2.val % 64) * 64 + s3.val % 64,
        rfl, by simp, ?_, by omega, ?_, ?_⟩
      · intro b hb; simp at hb; rcases hb with rfl | rfl | rfl | rfl <;> omega
      · intro u; simp [utf8.DecodeRune, hf, utf8.acceptRanges, c1, c2, c3]
      · simp only [utf8.AppendRune, utf8.MaxRune, utf8.RuneError]
        rw [if_neg (by omega), if_neg (by omega), if_neg (by omega)]
        rw [byte_eq _ s0 (by omega), byte_eq _ s1 (by omega), byte_eq _ s2 (by omega),
          byte_eq _ s3 (by omega)]
  · rcases t with _ | ⟨s1, _ | ⟨s2, _ | ⟨s3, t⟩⟩⟩
    · left; simp [utf8.DecodeRune, hf]
    · by_cases c1 : s1.val < 0x80 ∨ 0xBF < s1.val
      · left; simp [utf8.DecodeRune, hf, utf8.acceptRanges, c1]
      · left; simp [utf8.DecodeRune, hf, utf8.acceptRanges, c1]
    · by_cases c1 : s1.val < 0x80 ∨ 0xBF < s1.val
      · left; simp [utf8.DecodeRune, hf, utf8.acceptRanges, c1]
      by_cases c2 : s2.val < 0x80 ∨ 0xBF < s2.val
      · left; simp [utf8.DecodeRune, hf, utf8.acceptRanges, c1, c2]
      · left; simp [utf8.DecodeRune, hf, utf8.acceptRanges, c1, c2]
    · have h1 := s1.isLt
      have h2 := s2.isLt
      have h3 := s3.isLt
      by_cases c1 : s1.val < 0x80 ∨ 0xBF < s1.val
      · left; simp [utf8.DecodeRune, hf, utf8.acceptRanges, c1]
      by_cases c2 : s2.val < 0x80 ∨ 0xBF < s2.val
      · left; simp [utf8.DecodeRune, hf, utf8.acceptRanges, c1, c2]
      by_cases c3 : s3.val < 0x80 ∨ 0xBF < s3.val
      · left; simp [utf8.DecodeRune, hf, utf8.acceptRanges, c1, c2, c3]
      right; right
      refine ⟨[s0, s1, s2, s3], t,
        (s0.val % 8) * 262144 + (s1.val % 64) * 4096 + (s2.val % 64) * 64 + s3.val % 64,
        rfl, by simp, ?_, by omega, ?_, ?_⟩
      · intro b hb; simp at hb; rcases hb with rfl | rfl | rfl | rfl <;> omega
      · intro u; simp [utf8.DecodeRune, hf, utf8.acceptRanges, c1, c2, c3]
      · simp only [utf8.AppendRune, utf8.MaxRune, utf8.RuneError]
        rw [if_neg (by omega), if_neg (by omega), if_neg (by omega)]
        rw [byte_eq _ s0 (by omega), byte_eq _ s1 (by omega), byte_eq _ s2 (by omega),
          byte_eq _ s3 (by omega)]
  · rcases t with _ | ⟨s1, _ | ⟨s2, _ | ⟨s3, t⟩⟩⟩
    · left; simp [utf8.DecodeRune, hf]
    · by_cases c1 : s1.val < 0x80 ∨ 0x8F < s1.val
      · left; simp [utf8.DecodeRune, hf, utf8.acceptRanges, c1]
      · left; simp [utf8.DecodeRune, hf, utf8.acceptRanges, c1]
    · by_cases c1 : s1.val < 0x80 ∨ 0x8F < s1.val
      · left; simp [utf8.DecodeRune, hf, utf8.acceptRanges, c1]
      by_cases c2 : s2.val < 0x80 ∨ 0xBF < s2.val
      · left; simp [utf8.DecodeRune, hf, utf8.acceptRanges, c1, c2]
      · left; simp [utf8.DecodeRune, hf, utf8.acceptRanges, c1, c2]
    · have h1 := s1.isLt
      have h2 := s2.isLt
      have h3 := s3.isLt
      by_cases c1 : s1.val < 0x80 ∨ 0x8F < s1.val
      · left; simp [utf8.DecodeRune, hf, utf8.acceptRanges, c1]
      by_cases c2 : s2.val < 0x80 ∨ 0xBF < s2.val
      · left; simp [utf8.DecodeRune, hf, utf8.acceptRanges, c1, c2]
      by_cases c3 : s3.val < 0x80 ∨ 0xBF < s3.val
      · left; simp [utf8.DecodeRune, hf, utf8.acceptRanges, c1, c2, c3]
      right; right
      refine ⟨[s0, s1, s2, s3], t,
        (s0.val % 8) * 262144 + (s1.val % 64) * 4096 + (s2.val % 64) * 64 + s3.val % 64,
        rfl, by simp, ?_, by omega, ?_, ?_⟩
      · intro b hb; simp at hb; rcases hb with rfl | rfl | rfl | rfl <;> omega
      · intro u; simp [utf8.DecodeRune, hf, utf8.acceptRanges, c1, c2, c3]
      · simp only [utf8.AppendRune, utf8.MaxRune, utf8.RuneError]
        rw [if_neg (by omega), if_neg (by omega), if_neg (by omega)]
        rw [byte_eq _ s0 (by omega), byte_eq _ s1 (by omega), byte_eq _ s2 (by omega),
          byte_eq _ s3 (by omega)]

theorem decode_take4 (b : Byte) (t : Bytes) :
    utf8.DecodeRune ((b :: t).take 4) = utf8.DecodeRune (b :: t) := by
  rcases t with _ | ⟨s1, _ | ⟨s2, _ | ⟨s3, t⟩⟩⟩ <;> rfl

/-! ## Lemmas on JSON strings -/

theorem chunk_of_step (c : Byte) (cs out : Bytes)
    (hstep : ∀ X, json.unquoteStep c (cs ++ X) = some (out, X))
    (hscan : ∀ X, json.scanString (c :: cs ++ X)
      = (json.scanString X).map (fun p => (c :: cs ++ p.1, p.2))) :
    Chunk (c :: cs) out := by
  refine ⟨by simp, ?_, hscan⟩
  intro m X
  rw [List.cons_append, json.unquoteBytes, hstep]

theorem chunk_safe (b : Byte) (h : json.htmlSafeSet b = true) : Chunk [b] [b] := by
  simp only [json.htmlSafeSet, Bool.and_eq_true, decide_eq_true_eq, bne_iff_ne, ne_eq] at h
  obtain ⟨⟨⟨⟨⟨⟨h1, h2⟩, h3⟩, h4⟩, h5⟩, h6⟩, h7⟩ := h
  apply chunk_of_step
  · intro X
    unfold json.unquoteStep
    rw [if_neg h7, if_neg (by omega), if_pos h2]
    rfl
  · intro X
    rw [json.scanString, json.scanString, List.cons_append, json.scanStringFrom]
    rw [if_neg h3, if_neg h7, if_neg (by omega)]
    rfl

theorem not_safe_cases (b : Byte) (h1 : b.val < 0x80) (h2 : json.htmlSafeSet b = false) :
    b.val < 0x20 ∨ b.val = 0x22 ∨ b.val = 0x26 ∨ b.val = 0x3C ∨ b.val = 0x3E ∨ b.val = 0x5C := by
  by_contra hc
  have : json.htmlSafeSet b = true := by
    simp only [json.htmlSafeSet, Bool.and_eq_true, decide_eq_true_eq, bne_iff_ne, ne_eq]
    omega
  rw [this] at h2
  exact Bool.noConfusion h2

theorem hexValue_hex (i : Nat) (h : i < 16) : json.hexValue (json.hex i) = some i := by
  interval_cases i <;> rfl

theorem isHex_hex (i : Nat) (h : i < 16) : json.isHex (json.hex i) = true := by
  interval_cases i <;> rfl

theorem unquoteStep_u (h1 h2 h3 h4 : Byte) (d1 d2 d3 d4 : Nat) (X : Bytes)
    (e1 : json.hexValue h1 = some d1) (e2 : json.hexValue h2 = some d2)
    (e3 : json.hexValue h3 = some d3) (e4 : json.hexValue h4 = some d4)
    (hs : json.IsSurrogate (((d1 * 16 + d2) * 16 + d3) * 16 + d4) = false) :
    json.unquoteStep 0x5C (0x75 :: h1 :: h2 :: h3 :: h4 :: X)
      = some (utf8.AppendRune (((d1 * 16 + d2) * 16 + d3) * 16 + d4), X) := by
  simp +decide [json.unquoteStep, json.getu4, e1, e2, e3, e4, hs]

theorem scanString_u (h1 h2 h3 h4 : Byte) (X : Bytes)
    (e1 : json.isHex h1 = true) (e2 : json.isHex h2 = true)
    (e3 : json.isHex h3 = true) (e4 : json.isHex h4 = true) :
    json.scanString (0x5C :: 0x75 :: h1 :: h2 :: h3 :: h4 :: X)
      = (json.scanString X).map (fun p => (0x5C :: 0x75 :: h1 :: h2 :: h3 :: h4 :: p.1, p.2)) := by
  simp +decide [json.scanString, json.scanStringFrom, e1, e2, e3, e4]
  cases json.scanStringFrom json.StringState.InString X <;> rfl

theorem chunk_u (b : Byte) (hb : b.val < 0x80) :
    Chunk [0x5C, 0x75, 0x30, 0x30, json.hex (b.val / 16), json.hex (b.val % 16)] [b] := by
  have hv : utf8.AppendRune ((((0 * 16 + 0) * 16 + b.val / 16) * 16) + b.val % 16) = [b] := by
    have : (((0 * 16 + 0) * 16 + b.val / 16) * 16) + b.val % 16 = b.val := by omega
    rw [this, utf8.AppendRune, if_pos (by omega), byte_val]
  apply chunk_of_step
  · intro X
    have := unquoteStep_u 0x30 0x30 (json.hex (b.val / 16)) (json.hex (b.val % 16)) 0 0
      (b.val / 16) (b.val % 16) X rfl rfl (hexValue_hex _ (by omega)) (hexValue_hex _ (by omega))
      (by simp only [json.IsSurrogate, Bool.and_eq_false_imp, decide_eq_true_eq, decide_eq_false_iff_not]; omega)
    rw [hv] at this
    exact this
  · intro X
    exact scanString_u 0x30 0x30 _ _ X rfl rfl (isHex_hex _ (by omega)) (isHex_hex _ (by omega))

theorem chunk_escape (b : Byte) (h1 : b.val < 0x80) (h2 : json.htmlSafeSet b = false) :
    Chunk (json.escapeASCII b) [b] := by
  have hc := not_safe_cases b h1 h2
  unfold json.escapeASCII
  split_ifs with c1 c2 c3 c4 c5 c6
  · apply chunk_of_step
    · intro X
      rcases c1 with c1 | c1 <;> simp +decide [json.unquoteStep, c1]
    · intro X
      rcases c1 with c1 | c1
      all_goals
        simp +decide [json.scanString, json.scanStringFrom, c1]
        cases json.scanStringFrom json.StringState.InString X <;> rfl
  · obtain rfl : b = 0x08 := Fin.ext c2
    apply chunk_of_step
    · intro X; simp +decide [json.unquoteStep]
    · intro X
      simp +decide [json.scanString, json.scanStringFrom]
      cases json.scanStringFrom json.StringState.InString X <;> rfl
  · obtain rfl : b = 0x0C := Fin.ext c3
    apply chunk_of_step
    · intro X; simp +decide [json.unquoteStep]
    · intro X
      simp +decide [json.scanString, json.scanStringFrom]
      cases json.scanStringFrom json.StringState.InString X <;> rfl
  · obtain rfl : b = 0x0A := Fin.ext c4
    apply chunk_of_step
    · intro X; simp +decide [json.unquoteStep]
    · intro X
      simp +decide [json.scanString, json.scanStringFrom]
      cases json.scanStringFrom json.StringState.InString X <;> rfl
  · obtain rfl : b = 0x0D := Fin.ext c5
    apply chunk_of_step
    · intro X; simp +decide [json.unquoteStep]
    · intro X
      simp +decide [json.scanString, json.scanStringFrom]
      cases json.scanStringFrom json.StringState.InString X <;> rfl
  · obtain rfl : b = 0x09 := Fin.ext c6
    apply chunk_of_step
    · intro X; simp +decide [json.unquoteStep]
    · intro X
      simp +decide [json.scanString, json.scanStringFrom]
      cases json.scanStringFrom json.StringState.InString X <;> rfl
  · exact chunk_u b h1

theorem chunk_fffd : Chunk (lit "\\ufffd") [0xEF, 0xBF, 0xBD] := by
  apply chunk_of_step
  · intro X
    exact unquoteStep_u 0x66 0x66 0x66 0x64 15 15 15 13 X rfl rfl rfl rfl rfl
  · intro X
    exact scanString_u 0x66 0x66 0x66 0x64 X rfl rfl rfl rfl

theorem chunk_2028 (r : Nat) (hr : r = 0x2028 ∨ r = 0x2029) :
    Chunk (lit "\\u202" ++ [json.hex (r % 16)]) (utf8.AppendRune r) := by
  rcases hr with rfl | rfl
  · apply chunk_of_step
    · intro X
      exact unquoteStep_u 0x32 0x30 0x32 0x38 2 0 2 8 X rfl rfl rfl rfl rfl
    · intro X
      exact scanString_u 0x32 0x30 0x32 0x38 X rfl rfl rfl rfl
  · apply chunk_of_step
    · intro X
      exact unquoteStep_u 0x32 0x30 0x32 0x39 2 0 2 9 X rfl rfl rfl rfl rfl
    · intro X
      exact scanString_u 0x32 0x30 0x32 0x39 X rfl rfl rfl rfl

theorem scanStringFrom_raw (w X : Bytes) (hw : ∀ b ∈ w, 0x80 ≤ b.val) :
    json.scanStringFrom json.StringState.InString (w ++ X)
      = (json.scanStringFrom json.StringState.InString X).map (fun p => (w ++ p.1, p.2)) := by
  induction w with
  | nil => simp
  | cons c w ih =>
    have hc : 0x80 ≤ c.val := hw c (by simp)
    rw [List.cons_append, json.scanStringFrom, if_neg (by omega), if_neg (by omega),
      if_neg (by omega), ih (fun b hb => hw b (by simp [hb]))]
    cases json.scanStringFrom json.StringState.InString X <;> rfl

theorem chunk_raw (w : Bytes) (r : Nat) (hlen : 2 ≤ w.length) (hw : ∀ b ∈ w, 0x80 ≤ b.val)
    (hdec : ∀ u, utf8.DecodeRune (w ++ u) = (r, w.length)) (henc : utf8.AppendRune r = w) :
    Chunk w w := by
  rcases w with _ | ⟨c, cs⟩
  · simp at hlen
  have hc : 0x80 ≤ c.val := hw c (by simp)
  apply chunk_of_step
  · intro X
    unfold json.unquoteStep
    rw [if_neg (by omega), if_neg (by omega), if_neg (by omega)]
    have := hdec X
    rw [List.cons_append] at this
    simp only [this, henc]
    simp
  · intro X
    exact scanStringFrom_raw (c :: cs) X hw

theorem decode_ascii (b : Byte) (t : Bytes) (h : b.val < 0x80) :
    utf8.DecodeRune (b :: t) = (b.val, 1) := by
  simp [utf8.DecodeRune, utf8.first, h]

/-- One iteration of the encoder loop, next to the same iteration of
`coerceLoop`. -/
theorem loop_step (n : Nat) (b : Byte) (rest : Bytes) :
    ∃ chunk out rest1, Chunk chunk out ∧ rest1.length ≤ rest.length ∧
      json.appendStringLoop (n + 1) (b :: rest) = chunk ++ json.appendStringLoop n rest1 ∧
      utf8.coerceLoop (n + 1) (b :: rest) = out ++ utf8.coerceLoop n rest1 := by
  have hb := b.isLt
  by_cases h80 : b.val < 0x80
  · have hd := decode_ascii b rest h80
    have hco : utf8.coerceLoop (n + 1) (b :: rest) = [b] ++ utf8.coerceLoop n rest := by
      rw [utf8.coerceLoop]
      simp only [hd]
      rw [if_neg (by simp [utf8.RuneError]; omega)]
      simp
    cases hs : json.htmlSafeSet b
    · refine ⟨json.escapeASCII b, [b], rest, chunk_escape b h80 hs, le_refl _, ?_, hco⟩
      rw [json.appendStringLoop, if_pos h80, hs]
      simp
    · refine ⟨[b], [b], rest, chunk_safe b hs, le_refl _, ?_, hco⟩
      rw [json.appendStringLoop, if_pos h80, hs]
      simp
  · rcases decode_cases b rest with hd | ⟨hlt, _⟩ | ⟨w, t1, r, hsplit, hlen, hw, hr, hdec, henc⟩
    · refine ⟨lit "\\ufffd", [0xEF, 0xBF, 0xBD], rest, chunk_fffd, le_refl _, ?_, ?_⟩
      · rw [json.appendStringLoop, if_neg h80]
        simp only [decode_take4, hd]
        simp
      · rw [utf8.coerceLoop]
        simp only [hd]
        simp
    · exact absurd hlt h80
    · have hd : utf8.DecodeRune (b :: rest) = (r, w.length) := by rw [hsplit]; exact hdec t1
      have hl : t1.length ≤ rest.length := by
        have := congrArg List.length hsplit
        simp at this
        omega
      have hne : ¬ (r = utf8.RuneError ∧ w.length = 1) := by omega
      have hne2 : ¬ ((r, w.length) = (utf8.RuneError, 1)) := by
        intro h; simp at h; omega
      have htake : List.take w.length (b :: rest) = w := by rw [hsplit]; simp
      have hdrop : List.drop w.length (b :: rest) = t1 := by rw [hsplit]; simp
      have hco : utf8.coerceLoop (n + 1) (b :: rest) = w ++ utf8.coerceLoop n t1 := by
        rw [utf8.coerceLoop]
        simp only [hd]
        rw [if_neg hne2, htake, hdrop]
      by_cases h28 : r = 0x2028 ∨ r = 0x2029
      · refine ⟨lit "\\u202" ++ [json.hex (r % 16)], w, t1, ?_, hl, ?_, hco⟩
        · have := chunk_2028 r h28
          rwa [henc] at this
        · rw [json.appendStringLoop, if_neg h80]
          simp only [decode_take4, hd]
          rw [if_neg hne, if_pos h28, hdrop]
          simp
      · refine ⟨w, w, t1, chunk_raw w r hlen hw hdec henc, hl, ?_, hco⟩
        rw [json.appendStringLoop, if_neg h80]
        simp only [decode_take4, hd]
        rw [if_neg hne, if_neg h28, htake, hdrop]

theorem unquote_loop (n : Nat) : ∀ (s : Bytes) (m : Nat),
    (json.appendStringLoop n s).length ≤ m →
    json.unquoteBytes m (json.appendStringLoop n s) = some (utf8.coerceLoop n s) := by
  induction n with
  | zero => intro s m _; simp [json.appendStringLoop, utf8.coerceLoop, json.unquoteBytes]
  | succ n ih =>
    intro s m hm
    rcases s with _ | ⟨b, rest⟩
    · simp [json.appendStringLoop, utf8.coerceLoop, json.unquoteBytes]
    · obtain ⟨chunk, out, rest1, ⟨hne, hun, _⟩, _, h1, h2⟩ := loop_step n b rest
      rw [h1] at hm ⊢
      rw [h2]
      have hcl : 0 < chunk.length := List.length_pos.mpr hne
      rw [List.length_append] at hm
      obtain ⟨m1, rfl⟩ : ∃ m1, m = m1 + 1 := ⟨m - 1, by omega⟩
      rw [hun, ih rest1 m1 (by omega)]
      rfl

theorem scan_loop (n : Nat) : ∀ (s X : Bytes),
    json.scanString (json.appendStringLoop n s ++ 0x22 :: X)
      = some (json.appendStringLoop n s, X) := by
  have base : ∀ X : Bytes, json.scanString ([] ++ 0x22 :: X) = some ([], X) := by
    intro X; rfl
  induction n with
  | zero => intro s X; simpa [json.appendStringLoop] using base X
  | succ n ih =>
    intro s X
    rcases s with _ | ⟨b, rest⟩
    · simpa [json.appendStringLoop] using base X
    · obtain ⟨chunk, out, rest1, ⟨_, _, hsc⟩, _, h1, _⟩ := loop_step n b rest
      rw [h1, List.append_assoc, hsc, ih rest1 X]
      rfl

/-- Reading back a string written by `appendString`: the scanner finds the
closing quote that the encoder wrote, and unquoting gives the string coerced
to valid UTF-8. -/
theorem scan_appendString (s X : Bytes) :
    json.scanString (json.appendStringLoop s.length s ++ 0x22 :: X)
      = some (json.appendStringLoop s.length s, X) :=
  scan_loop _ s X

theorem unquote_appendString (s : Bytes) :
    json.unquote (json.appendStringLoop s.length s) = some (utf8.coerce s) :=
  unquote_loop _ s _ (le_refl _)


theorem scan_plain (w X : Bytes) (hw : ∀ b ∈ w, Plain b = true) :
    json.scanString (w ++ 0x22 :: X) = some (w, X) := by
  unfold json.scanString
  induction w with
  | nil => rfl
  | cons c w ih =>
    have hp := hw c (by simp)
    simp only [Plain, Bool.and_eq_true, decide_eq_true_eq, bne_iff_ne, ne_eq] at hp
    obtain ⟨⟨h1, h2⟩, h3⟩ := hp
    rw [List.cons_append, json.scanStringFrom, if_neg h2, if_neg h3, if_neg (by omega),
      ih (fun b hb => hw b (by simp [hb]))]
    rfl

theorem skipSpace_cons (c : Byte) (t : Bytes) (h : json.isSpace c = false) :
    json.skipSpace (c :: t) = c :: t := by
  rw [json.skipSpace, h]
  rfl

theorem plain_keys :
    (∀ b ∈ lit "did", Plain b = true) ∧ (∀ b ∈ lit "name", Plain b = true) ∧
    (∀ b ∈ lit "credentials", Plain b = true) ∧ (∀ b ∈ lit "verified", Plain b = true) :=
  ⟨List.all_eq_true.mp rfl, List.all_eq_true.mp rfl, List.all_eq_true.mp rfl,
    List.all_eq_true.mp rfl⟩

/-- A member `"key":"string",` of an object, as the encoder writes it. -/
theorem parseMembers_string (n depth : Nat) (key : Bytes) (hk : ∀ b ∈ key, Plain b = true)
    (m : Nat) (s X : Bytes) :
    json.parseMembers (n + 2) depth
        (0x22 :: (key ++ 0x22 :: 0x3A :: 0x22 ::
          (json.appendStringLoop m s ++ 0x22 :: 0x2C :: 0x22 :: X)))
      = (json.parseMembers (n + 1) depth (0x22 :: X)).map
          (fun p => ((key, json.Value.string (json.appendStringLoop m s)) :: p.1, p.2)) := by
  rw [json.parseMembers]
  rw [if_pos (by decide), scan_plain _ _ hk]
  simp only []
  rw [skipSpace_cons _ _ (by decide)]
  simp only []
  rw [if_pos (by decide), skipSpace_cons _ _ (by decide), json.parseValue]
  rw [if_neg (by decide), if_neg (by decide), if_pos (by decide), scan_loop]
  simp only [Option.map_some']
  rw [skipSpace_cons _ _ (by decide)]
  simp only []
  rw [if_pos (by decide), skipSpace_cons _ _ (by decide)]

/-- The member `"verified":true}` or `"verified":false}` that ends the object. -/
theorem parseMembers_verified (n depth : Nat) (v : Bool) :
    json.parseMembers (n + 2) depth
        (0x22 :: (lit "verified" ++ 0x22 :: 0x3A ::
          ((if v then lit "true" else lit "false") ++ [0x7D])))
      = some ([(lit "verified", json.Value.bool v)], []) := by
  rw [json.parseMembers]
  rw [if_pos (by decide), scan_plain _ _ plain_keys.2.2.2]
  simp only []
  rw [skipSpace_cons _ _ (by decide)]
  simp only []
  rw [if_pos (by decide)]
  cases v <;> rfl

/-- The bytes of `encodeDID` with the appends associated to the right. -/
theorem encodeDID_eq (r : DID) :
    json.encodeDID r =
      0x7B :: 0x22 :: (lit "did" ++ 0x22 :: 0x3A :: 0x22 ::
        (json.appendStringLoop r.DID.length r.DID ++ 0x22 :: 0x2C :: 0x22 ::
      (lit "name" ++ 0x22 :: 0x3A :: 0x22 ::
        (json.appendStringLoop r.Name.length r.Name ++ 0x22 :: 0x2C :: 0x22 ::
      (lit "credentials" ++ 0x22 :: 0x3A :: 0x22 ::
        (json.appendStringLoop r.Credentials.length r.Credentials ++ 0x22 :: 0x2C :: 0x22 ::
      (lit "verified" ++ 0x22 :: 0x3A ::
        ((if r.Verified then lit "true" else lit "false") ++ [0x7D])))))))) := by
  have e1 : lit "\x7b\"did\":" = 0x7B :: 0x22 :: (lit "did" ++ [0x22, 0x3A]) := rfl
  have e2 : lit ",\"name\":" = 0x2C :: 0x22 :: (lit "name" ++ [0x22, 0x3A]) := rfl
  have e3 : lit ",\"credentials\":" = 0x2C :: 0x22 :: (lit "credentials" ++ [0x22, 0x3A]) := rfl
  have e4 : lit ",\"verified\":" = 0x2C :: 0x22 :: (lit "verified" ++ [0x22, 0x3A]) := rfl
  have e5 : lit "\x7d" = [0x7D] := rfl
  rw [json.encodeDID, e1, e2, e3, e4, e5]
  simp only [json.appendString, List.append_assoc, List.cons_append, List.nil_append]

theorem length_encodeDID (r : DID) : 50 ≤ (json.encodeDID r).length := by
  rw [encodeDID_eq]
  cases r.Verified <;> simp [lit] <;> omega

/-- The value that the decoder reads from the bytes of `encodeDID`. -/
theorem parse_encodeDID (r : DID) :
    json.parse (json.encodeDID r) = some (json.Value.object
      [(lit "did", json.Value.string (json.appendStringLoop r.DID.length r.DID)),
       (lit "name", json.Value.string (json.appendStringLoop r.Name.length r.Name)),
       (lit "credentials",
          json.Value.string (json.appendStringLoop r.Credentials.length r.Credentials)),
       (lit "verified", json.Value.bool r.Verified)]) := by
  have hlen := length_encodeDID r
  obtain ⟨n, hn⟩ : ∃ n, (json.encodeDID r).length + 1 = n + 6 :=
    ⟨(json.encodeDID r).length - 5, by omega⟩
  rw [json.parse, hn, encodeDID_eq, skipSpace_cons _ _ (by decide), json.parseValue]
  rw [if_pos (by decide), if_pos (by decide), skipSpace_cons _ _ (by decide)]
  simp only []
  rw [if_neg (by decide)]
  rw [parseMembers_string (n + 3) _ _ plain_keys.1, parseMembers_string (n + 2) _ _ plain_keys.2.1,
    parseMembers_string (n + 1) _ _ plain_keys.2.2.1, parseMembers_verified]
  rfl

/-- Decoding what the encoder wrote for `r` gives `r` with its strings coerced
to valid UTF-8, whatever the target held before. -/
theorem Unmarshal_encodeDID (r v : DID) :
    json.Unmarshal (json.encodeDID r) v = .ok (coerceDID r) := by
  have k1 : json.unquote (lit "did") = some (lit "did") := rfl
  have k2 : json.unquote (lit "name") = some (lit "name") := rfl
  have k3 : json.unquote (lit "credentials") = some (lit "credentials") := rfl
  have k4 : json.unquote (lit "verified") = some (lit "verified") := rfl
  have f1 : json.lookupField (lit "did") = some json.Field.DID := rfl
  have f2 : json.lookupField (lit "name") = some json.Field.Name := rfl
  have f3 : json.lookupField (lit "credentials") = some json.Field.Credentials := rfl
  have f4 : json.lookupField (lit "verified") = some json.Field.Verified := rfl
  rw [json.Unmarshal, parse_encodeDID]
  simp only [json.decodeObject, json.storeField, k1, k2, k3, k4, f1, f2, f3, f4,
    unquote_appendString]
  rfl

/-! ## Lemmas on coercion to valid UTF-8 -/

theorem coerceLoop_of_valid (n : Nat) : ∀ s : Bytes, utf8.validLoop n s = true →
    utf8.coerceLoop n s = s := by
  induction n with
  | zero =>
    intro s h
    rcases s with _ | ⟨b, rest⟩
    · rfl
    · simp [utf8.validLoop] at h
  | succ n ih =>
    intro s h
    rcases s with _ | ⟨b, rest⟩
    · rfl
    · rw [utf8.validLoop] at h
      simp only [Bool.and_eq_true, decide_eq_true_eq] at h
      rw [utf8.coerceLoop]
      rw [if_neg h.1, ih _ h.2, List.take_append_drop]

theorem validLoop_unit (out : Bytes) (h : RuneUnit out) (m : Nat) (Y : Bytes) :
    utf8.validLoop (m + 1) (out ++ Y) = utf8.validLoop m Y := by
  obtain ⟨hne, hd⟩ := h
  rcases out with _ | ⟨c, cs⟩
  · exact absurd rfl hne
  obtain ⟨r, h1, h2⟩ := hd Y
  rw [List.cons_append] at h1 ⊢
  rw [utf8.validLoop]
  simp only [h1]
  rw [decide_eq_true h2, Bool.true_and]
  simp

theorem coerce_step (n : Nat) (b : Byte) (rest : Bytes) :
    ∃ out rest1, RuneUnit out ∧
      utf8.coerceLoop (n + 1) (b :: rest) = out ++ utf8.coerceLoop n rest1 := by
  rcases decode_cases b rest with hd | ⟨hlt, hd⟩ | ⟨w, t1, r, hsplit, hlen, hw, hr, hdec, henc⟩
  · refine ⟨[0xEF, 0xBF, 0xBD], rest, ⟨by simp, fun u => ⟨0xFFFD, rfl, by decide⟩⟩, ?_⟩
    rw [utf8.coerceLoop]
    simp only [hd]
    simp
  · have hb := b.isLt
    refine ⟨[b], rest, ⟨by simp, fun u => ⟨b.val, ?_, ?_⟩⟩, ?_⟩
    · simp [utf8.DecodeRune, utf8.first, hlt]
    · simp [utf8.RuneError]; omega
    · rw [utf8.coerceLoop]
      simp only [hd]
      rw [if_neg (by simp [utf8.RuneError]; omega)]
      simp
  · have hd : utf8.DecodeRune (b :: rest) = (r, w.length) := by rw [hsplit]; exact hdec t1
    have hne2 : ¬ ((r, w.length) = (utf8.RuneError, 1)) := by
      intro h; simp at h; omega
    refine ⟨w, t1, ⟨?_, fun u => ⟨r, hdec u, hne2⟩⟩, ?_⟩
    · intro h; rw [h] at hlen; simp at hlen
    · rw [utf8.coerceLoop]
      simp only [hd]
      rw [if_neg hne2, hsplit]
      simp

theorem validLoop_coerceLoop (n : Nat) : ∀ (s : Bytes) (m : Nat),
    (utf8.coerceLoop n s).length ≤ m → utf8.validLoop m (utf8.coerceLoop n s) = true := by
  induction n with
  | zero => intro s m _; simp [utf8.coerceLoop, utf8.validLoop]
  | succ n ih =>
    intro s m hm
    rcases s with _ | ⟨b, rest⟩
    · simp [utf8.coerceLoop, utf8.validLoop]
    · obtain ⟨out, rest1, hu, h1⟩ := coerce_step n b rest
      rw [h1] at hm ⊢
      have hcl : 0 < out.length := List.length_pos.mpr hu.1
      rw [List.length_append] at hm
      obtain ⟨m1, rfl⟩ : ∃ m1, m = m1 + 1 := ⟨m - 1, by omega⟩
      rw [validLoop_unit out hu, ih rest1 m1 (by omega)]

theorem valid_coerce (s : Bytes) : utf8.Valid (utf8.coerce s) = true :=
  validLoop_coerceLoop _ s _ (le_refl _)

theorem coerce_of_valid (s : Bytes) (h : utf8.Valid s = true) : utf8.coerce s = s :=
  coerceLoop_of_valid _ s h

theorem coerce_coerce (s : Bytes) : utf8.coerce (utf8.coerce s) = utf8.coerce s :=
  coerce_of_valid _ (valid_coerce s)

/-! ## Lemmas on the operations -/

theorem encodeDID_ne_nil (r : DID) : json.encodeDID r ≠ [] := by
  intro h
  have := length_encodeDID r
  rw [h] at this
  simp at this

theorem encodeDID_length_pos (r : DID) : (json.encodeDID r).length > 0 := by
  have := length_encodeDID r
  omega

/-- Method `GetState` on a host that reads the key without error. -/
theorem GetState_ok (ctx : Stub) (key : Bytes) (hget : ctx.getErr key = none) :
    ctx.GetState key
      = (.ok ((ctx.state key).getD []), { ctx with calls := ctx.calls ++ [Call.GetState key] }) := by
  simp [Stub.GetState, hget]

theorem CreateDID_absent (ctx : Stub) (did name credentials : Bytes)
    (habs : ((ctx.state did).getD []).length = 0) (hget : ctx.getErr did = none) :
    CreateDID ctx did name credentials
      = Stub.PutState { ctx with calls := ctx.calls ++ [Call.GetState did] } did
          (json.encodeDID ⟨did, name, credentials, false⟩) := by
  simp [CreateDID, GetState_ok ctx did hget, habs, json.Marshal]

theorem CreateDID_present (ctx : Stub) (did name credentials : Bytes)
    (hpres : ((ctx.state did).getD []).length > 0) (hget : ctx.getErr did = none) :
    CreateDID ctx did name credentials
      = (.error (Error.Errorf "DID already exists"),
          { ctx with calls := ctx.calls ++ [Call.GetState did] }) := by
  simp [CreateDID, GetState_ok ctx did hget, hpres]

theorem GetDID_present (ctx : Stub) (did v : Bytes) (r : DID)
    (hst : ctx.state did = some v) (hv : v.length ≠ 0)
    (hdec : json.Unmarshal v zeroDID = .ok r) (hget : ctx.getErr did = none) :
    GetDID ctx did = (.ok r, { ctx with calls := ctx.calls ++ [Call.GetState did] }) := by
  simp [GetDID, GetState_ok ctx did hget, hst, hv, hdec]

theorem GetState_state (ctx : Stub) (key : Bytes) : (ctx.GetState key).2.state = ctx.state := by
  unfold Stub.GetState
  split <;> rfl

theorem GetState_faults (ctx : Stub) (key : Bytes) :
    (ctx.GetState key).2.getErr = ctx.getErr ∧ (ctx.GetState key).2.putErr = ctx.putErr ∧
    (ctx.GetState key).2.delErr = ctx.delErr := by
  unfold Stub.GetState
  split <;> exact ⟨rfl, rfl, rfl⟩

theorem PutState_state_ne (ctx : Stub) (key value k : Bytes) (h : k ≠ key) :
    (ctx.PutState key value).2.state k = ctx.state k := by
  unfold Stub.PutState
  split
  · rfl
  · simp [h]

theorem DelState_state_ne (ctx : Stub) (key k : Bytes) (h : k ≠ key) :
    (ctx.DelState key).2.state k = ctx.state k := by
  unfold Stub.DelState
  split
  · rfl
  · simp [h]

/-- The shape of a run of `CreateDID`: the read, then possibly one `PutState`
on the same key. -/
theorem CreateDID_shape (ctx : Stub) (did name credentials : Bytes) :
    (CreateDID ctx did name credentials).2 = (ctx.GetState did).2 ∨
    ∃ v, CreateDID ctx did name credentials = (ctx.GetState did).2.PutState did v := by
  unfold CreateDID
  rcases h : ctx.GetState did with ⟨_ | existingDID, ctx1⟩
  · left; rfl
  · simp only [json.Marshal]
    split
    · left; rfl
    · right; exact ⟨_, rfl⟩

theorem UpdateCredentials_shape (ctx : Stub) (did newCredentials : Bytes) :
    (UpdateCredentials ctx did newCredentials).2 = (ctx.GetState did).2 ∨
    ∃ v, UpdateCredentials ctx did newCredentials = (ctx.GetState did).2.PutState did v := by
  unfold UpdateCredentials
  rcases h : ctx.GetState did with ⟨_ | didJSON, ctx1⟩
  · left; rfl
  · simp only [json.Marshal]
    split
    · left; rfl
    · split
      · left; rfl
      · right; exact ⟨_, rfl⟩

theorem VerifyDID_shape (ctx : Stub) (did : Bytes) :
    (VerifyDID ctx did).2 = (ctx.GetState did).2 ∨
    ∃ v, VerifyDID ctx did = (ctx.GetState did).2.PutState did v := by
  unfold VerifyDID
  rcases h : ctx.GetState did with ⟨_ | didJSON, ctx1⟩
  · left; rfl
  · simp only [json.Marshal]
    split
    · left; rfl
    · split
      · left; rfl
      · right; exact ⟨_, rfl⟩

theorem RevokeDID_shape (ctx : Stub) (did : Bytes) :
    (RevokeDID ctx did).2 = (ctx.GetState did).2 ∨
    RevokeDID ctx did = (ctx.GetState did).2.DelState did := by
  unfold RevokeDID
  rcases h : ctx.GetState did with ⟨_ | existingDID, ctx1⟩
  · left; rfl
  · simp only []
    split
    · left; rfl
    · right; rfl

theorem GetDID_shape (ctx : Stub) (did : Bytes) :
    (GetDID ctx did).2 = (ctx.GetState did).2 := by
  unfold GetDID
  rcases h : ctx.GetState did with ⟨_ | didJSON, ctx1⟩
  · rfl
  · simp only []
    split
    · rfl
    · split <;> rfl

/-- No operation on key `d` changes the world state at another key. -/
theorem state_other_key (ctx : Stub) (d d1 : Bytes) (h : d ≠ d1)
    (name credentials newCredentials : Bytes) :
    (CreateDID ctx d name credentials).2.state d1 = ctx.state d1 ∧
    (UpdateCredentials ctx d newCredentials).2.state d1 = ctx.state d1 ∧
    (VerifyDID ctx d).2.state d1 = ctx.state d1 ∧
    (RevokeDID ctx d).2.state d1 = ctx.state d1 ∧
    (GetDID ctx d).2.state d1 = ctx.state d1 := by
  have hne : d1 ≠ d := fun e => h e.symm
  refine ⟨?_, ?_, ?_, ?_, ?_⟩
  · rcases CreateDID_shape ctx d name credentials with e | ⟨v, e⟩
    · rw [e, GetState_state]
    · rw [e, PutState_state_ne _ _ _ _ hne, GetState_state]
  · rcases UpdateCredentials_shape ctx d newCredentials with e | ⟨v, e⟩
    · rw [e, GetState_state]
    · rw [e, PutState_state_ne _ _ _ _ hne, GetState_state]
  · rcases VerifyDID_shape ctx d with e | ⟨v, e⟩
    · rw [e, GetState_state]
    · rw [e, PutState_state_ne _ _ _ _ hne, GetState_state]
  · rcases RevokeDID_shape ctx d with e | e
    · rw [e, GetState_state]
    · rw [e, DelState_state_ne _ _ _ hne, GetState_state]
  · rw [GetDID_shape, GetState_state]

theorem PutState_faults (ctx : Stub) (key value : Bytes) :
    (ctx.PutState key value).2.getErr = ctx.getErr ∧
    (ctx.PutState key value).2.putErr = ctx.putErr ∧
    (ctx.PutState key value).2.delErr = ctx.delErr := by
  unfold Stub.PutState
  split <;> exact ⟨rfl, rfl, rfl⟩

theorem DelState_faults (ctx : Stub) (key : Bytes) :
    (ctx.DelState key).2.getErr = ctx.getErr ∧ (ctx.DelState key).2.putErr = ctx.putErr ∧
    (ctx.DelState key).2.delErr = ctx.delErr := by
  unfold Stub.DelState
  split <;> exact ⟨rfl, rfl, rfl⟩

theorem PutState_ok (ctx : Stub) (key value : Bytes) (h : ctx.putErr key value = none) :
    (ctx.PutState key value).1 = .ok () ∧
    (ctx.PutState key value).2.state = putAt ctx.state key value := by
  unfold Stub.PutState
  rw [h]
  exact ⟨rfl, rfl⟩

theorem PutState_fail (ctx : Stub) (key value : Bytes) (e : String)
    (h : ctx.putErr key value = some e) :
    (ctx.PutState key value).1 = .error (Error.stub e) ∧
    (ctx.PutState key value).2.state = ctx.state := by
  simp [Stub.PutState, h]

theorem DelState_ok (ctx : Stub) (key : Bytes) (h : ctx.delErr key = none) :
    (ctx.DelState key).1 = .ok () ∧
    (ctx.DelState key).2.state = fun k => if k = key then none else ctx.state k := by
  simp [Stub.DelState, h]

/-- The value `GetDID` returns, when the host reads the key without error: it
depends on the world state at the key only. -/
theorem GetDID_fst (ctx : Stub) (did : Bytes) (hget : ctx.getErr did = none) :
    (GetDID ctx did).1 =
      if ((ctx.state did).getD []).length = 0 then .error (Error.Errorf "DID does not exist")
      else match json.Unmarshal ((ctx.state did).getD []) zeroDID with
        | .error e => .error (Error.json e)
        | .ok r => .ok r := by
  rw [GetDID, GetState_ok ctx did hget]
  simp only []
  split
  · rfl
  · split <;> simp [*]

/-- Function `GetDID` on a key that holds the encoding of `r`. -/
theorem GetDID_encoded (ctx : Stub) (did : Bytes) (r : DID) (hget : ctx.getErr did = none)
    (hst : ctx.state did = some (json.encodeDID r)) :
    (GetDID ctx did).1 = .ok (coerceDID r) := by
  rw [GetDID_fst ctx did hget, hst]
  simp only [Option.getD_some]
  rw [if_neg (by have := encodeDID_length_pos r; omega), Unmarshal_encodeDID]

/-- Function `CreateDID` on a key that is absent or empty, on a host that
reads and writes without error. -/
theorem CreateDID_ok (ctx : Stub) (did name credentials : Bytes)
    (habs : ctx.state did = none ∨ ctx.state did = some [])
    (hget : ctx.getErr did = none)
    (hput : ctx.putErr did (json.encodeDID ⟨did, name, credentials, false⟩) = none) :
    (CreateDID ctx did name credentials).1 = .ok () ∧
    (CreateDID ctx did name credentials).2.state
      = putAt ctx.state did (json.encodeDID ⟨did, name, credentials, false⟩) ∧
    (CreateDID ctx did name credentials).2.getErr = ctx.getErr ∧
    (CreateDID ctx did name credentials).2.putErr = ctx.putErr ∧
    (CreateDID ctx did name credentials).2.delErr = ctx.delErr := by
  have h0 : ((ctx.state did).getD []).length = 0 := by
    rcases habs with h | h <;> simp [h]
  rw [CreateDID_absent ctx did name credentials h0 hget]
  have hp := PutState_ok { ctx with calls := ctx.calls ++ [Call.GetState did] } did _ hput
  exact ⟨hp.1, hp.2, PutState_faults _ _ _⟩

theorem putAt_same (st : Bytes → Option Bytes) (k v : Bytes) : putAt st k v k = some v := by
  simp [putAt]

theorem validDID_coerce (r : DID) (h : validDID r = true) : coerceDID r = r := by
  simp only [validDID, Bool.and_eq_true] at h
  obtain ⟨⟨h1, h2⟩, h3⟩ := h
  simp [coerceDID, coerce_of_valid _ h1, coerce_of_valid _ h2, coerce_of_valid _ h3]

/-- Function `UpdateCredentials` on a key whose value decodes to `r`, on a host that
reads and writes without error. -/
theorem UpdateCredentials_ok (ctx : Stub) (did newCredentials v : Bytes) (r : DID)
    (hst : ctx.state did = some v) (hv : v.length ≠ 0)
    (hdec : json.Unmarshal v zeroDID = .ok r)
    (hget : ctx.getErr did = none)
    (hput : ctx.putErr did (json.encodeDID { r with Credentials := newCredentials }) = none) :
    (UpdateCredentials ctx did newCredentials).1 = .ok () ∧
    (UpdateCredentials ctx did newCredentials).2.state
      = putAt ctx.state did (json.encodeDID { r with Credentials := newCredentials }) ∧
    (UpdateCredentials ctx did newCredentials).2.getErr = ctx.getErr ∧
    (UpdateCredentials ctx did newCredentials).2.putErr = ctx.putErr ∧
    (UpdateCredentials ctx did newCredentials).2.delErr = ctx.delErr := by
  have e : UpdateCredentials ctx did newCredentials
      = Stub.PutState { ctx with calls := ctx.calls ++ [Call.GetState did] } did
          (json.encodeDID { r with Credentials := newCredentials }) := by
    simp [UpdateCredentials, GetState_ok ctx did hget, hst, hv, hdec, json.Marshal]
  rw [e]
  have hp := PutState_ok { ctx with calls := ctx.calls ++ [Call.GetState did] } did _ hput
  exact ⟨hp.1, hp.2, PutState_faults _ _ _⟩

/-- Function `VerifyDID` on a key whose value decodes to `r`, on a host that reads and
writes without error. -/
theorem VerifyDID_ok (ctx : Stub) (did v : Bytes) (r : DID)
    (hst : ctx.state did = some v) (hv : v.length ≠ 0)
    (hdec : json.Unmarshal v zeroDID = .ok r)
    (hget : ctx.getErr did = none)
    (hput : ctx.putErr did (json.encodeDID { r with Verified := true }) = none) :
    (VerifyDID ctx did).1 = .ok () ∧
    (VerifyDID ctx did).2.state
      = putAt ctx.state did (json.encodeDID { r with Verified := true }) ∧
    (VerifyDID ctx did).2.getErr = ctx.getErr ∧
    (VerifyDID ctx did).2.putErr = ctx.putErr ∧
    (VerifyDID ctx did).2.delErr = ctx.delErr := by
  have e : VerifyDID ctx did
      = Stub.PutState { ctx with calls := ctx.calls ++ [Call.GetState did] } did
          (json.encodeDID { r with Verified := true }) := by
    simp [VerifyDID, GetState_ok ctx did hget, hst, hv, hdec, json.Marshal]
  rw [e]
  have hp := PutState_ok { ctx with calls := ctx.calls ++ [Call.GetState did] } did _ hput
  exact ⟨hp.1, hp.2, PutState_faults _ _ _⟩

/-- Function `RevokeDID` on a key that holds a non-empty value, on a host that reads and
deletes without error. -/
theorem RevokeDID_ok (ctx : Stub) (did v : Bytes)
    (hst : ctx.state did = some v) (hv : v.length ≠ 0)
    (hget : ctx.getErr did = none) (hdel : ctx.delErr did = none) :
    (RevokeDID ctx did).1 = .ok () ∧
    (RevokeDID ctx did).2.state = (fun k => if k = did then none else ctx.state k) ∧
    (RevokeDID ctx did).2.getErr = ctx.getErr ∧
    (RevokeDID ctx did).2.putErr = ctx.putErr ∧
    (RevokeDID ctx did).2.delErr = ctx.delErr := by
  have e : RevokeDID ctx did
      = Stub.DelState { ctx with calls := ctx.calls ++ [Call.GetState did] } did := by
    simp [RevokeDID, GetState_ok ctx did hget, hst, hv]
  rw [e]
  have hp := DelState_ok { ctx with calls := ctx.calls ++ [Call.GetState did] } did hdel
  exact ⟨hp.1, hp.2, DelState_faults _ _⟩

/-- The four operations that require the record, on a key that is absent or
holds an empty value. -/
theorem absent_NotFound (ctx : Stub) (did : Bytes)
    (habs : ((ctx.state did).getD []).length = 0) (hget : ctx.getErr did = none) :
    (∀ c, UpdateCredentials ctx did c
      = (.error (Error.Errorf "DID does not exist"),
          { ctx with calls := ctx.calls ++ [Call.GetState did] })) ∧
    VerifyDID ctx did
      = (.error (Error.Errorf "DID does not exist"),
          { ctx with calls := ctx.calls ++ [Call.GetState did] }) ∧
    RevokeDID ctx did
      = (.error (Error.Errorf "DID does not exist"),
          { ctx with calls := ctx.calls ++ [Call.GetState did] }) ∧
    GetDID ctx did
      = (.error (Error.Errorf "DID does not exist"),
          { ctx with calls := ctx.calls ++ [Call.GetState did] }) := by
  refine ⟨fun c => ?_, ?_, ?_, ?_⟩
  · simp [UpdateCredentials, GetState_ok ctx did hget, habs]
  · simp [VerifyDID, GetState_ok ctx did hget, habs]
  · simp [RevokeDID, GetState_ok ctx did hget, habs]
  · simp [GetDID, GetState_ok ctx did hget, habs]

theorem CreateDID_success_inv (ctx : Stub) (did name credentials : Bytes)
    (h : (CreateDID ctx did name credentials).1 = .ok ()) :
    ctx.getErr did = none ∧
    (CreateDID ctx did name credentials).2.state
      = putAt ctx.state did (json.encodeDID ⟨did, name, credentials, false⟩) := by
  cases hg : ctx.getErr did with
  | some e =>
    simp [CreateDID, Stub.GetState, hg] at h
  | none =>
    refine ⟨rfl, ?_⟩
    by_cases h0 : ((ctx.state did).getD []).length = 0
    · rw [CreateDID_absent ctx did name credentials h0 hg] at h ⊢
      cases hp : ctx.putErr did (json.encodeDID ⟨did, name, credentials, false⟩) with
      | some e =>
        have := (PutState_fail { ctx with calls := ctx.calls ++ [Call.GetState did] } did _ e hp).1
        rw [this] at h
        exact Except.noConfusion h
      | none =>
        exact (PutState_ok { ctx with calls := ctx.calls ++ [Call.GetState did] } did _ hp).2
    · rw [CreateDID_present ctx did name credentials (by omega) hg] at h
      exact Except.noConfusion h

theorem coerceDID_coerceDID (r : DID) : coerceDID (coerceDID r) = coerceDID r := by
  simp [coerceDID, coerce_coerce]

theorem run_faults (ctx : Stub) (op : Op) :
    (op.run ctx).getErr = ctx.getErr ∧ (op.run ctx).putErr = ctx.putErr ∧
    (op.run ctx).delErr = ctx.delErr := by
  have hg := GetState_faults ctx
  cases op with
  | CreateDID did name credentials =>
    rcases CreateDID_shape ctx did name credentials with e | ⟨v, e⟩
    · simp only [Op.run, e]; exact hg did
    · simp only [Op.run, e]
      obtain ⟨a, b, c⟩ := PutState_faults (ctx.GetState did).2 did v
      rw [a, b, c]; exact hg did
  | UpdateCredentials did newCredentials =>
    rcases UpdateCredentials_shape ctx did newCredentials with e | ⟨v, e⟩
    · simp only [Op.run, e]; exact hg did
    · simp only [Op.run, e]
      obtain ⟨a, b, c⟩ := PutState_faults (ctx.GetState did).2 did v
      rw [a, b, c]; exact hg did
  | VerifyDID did =>
    rcases VerifyDID_shape ctx did with e | ⟨v, e⟩
    · simp only [Op.run, e]; exact hg did
    · simp only [Op.run, e]
      obtain ⟨a, b, c⟩ := PutState_faults (ctx.GetState did).2 did v
      rw [a, b, c]; exact hg did
  | RevokeDID did =>
    rcases RevokeDID_shape ctx did with e | e
    · simp only [Op.run, e]; exact hg did
    · simp only [Op.run, e]
      obtain ⟨a, b, c⟩ := DelState_faults (ctx.GetState did).2 did
      rw [a, b, c]; exact hg did
  | GetDID did =>
    simp only [Op.run, GetDID_shape]; exact hg did

theorem run_state_ne (ctx : Stub) (op : Op) (d : Bytes) (h : op.key ≠ d) :
    (op.run ctx).state d = ctx.state d := by
  cases op with
  | CreateDID did name credentials =>
    exact (state_other_key ctx did d h name credentials []).1
  | UpdateCredentials did newCredentials =>
    exact (state_other_key ctx did d h [] [] newCredentials).2.1
  | VerifyDID did => exact (state_other_key ctx did d h [] [] []).2.2.1
  | RevokeDID did => exact (state_other_key ctx did d h [] [] []).2.2.2.1
  | GetDID did => exact (state_other_key ctx did d h [] [] []).2.2.2.2

theorem GetDID_ok_inv (ctx : Stub) (d : Bytes) (r : DID) (h : (GetDID ctx d).1 = .ok r) :
    ctx.getErr d = none ∧ ((ctx.state d).getD []).length ≠ 0 ∧
    json.Unmarshal ((ctx.state d).getD []) zeroDID = .ok r := by
  cases hg : ctx.getErr d with
  | some e => simp [GetDID, Stub.GetState, hg] at h
  | none =>
    rw [GetDID_fst ctx d hg] at h
    by_cases h0 : ((ctx.state d).getD []).length = 0
    · rw [if_pos h0] at h
      exact Except.noConfusion h
    · rw [if_neg h0] at h
      refine ⟨rfl, h0, ?_⟩
      cases hu : json.Unmarshal ((ctx.state d).getD []) zeroDID with
      | error e => rw [hu] at h; exact Except.noConfusion h
      | ok r1 =>
        rw [hu] at h
        injection h with h
        rw [h]

theorem GetDID_congr (ctx ctx1 : Stub) (d : Bytes) (hs : ctx1.state d = ctx.state d)
    (hg : ctx1.getErr = ctx.getErr) (hget : ctx.getErr d = none) :
    (GetDID ctx1 d).1 = (GetDID ctx d).1 := by
  rw [GetDID_fst ctx d hget, GetDID_fst ctx1 d (by rw [hg]; exact hget), hs]

theorem getD_some_of_length (o : Option Bytes) (h : (o.getD []).length ≠ 0) :
    o = some (o.getD []) := by
  cases o with
  | none => simp at h
  | some v => rfl

/-- One invocation other than `RevokeDID d` keeps a verified record at `d`
verified. -/
theorem verified_step (ctx : Stub) (d : Bytes) (r : DID) (op : Op)
    (h : (GetDID ctx d).1 = .ok r) (hv : r.Verified = true) (hop : op ≠ Op.RevokeDID d) :
    ∃ r1, (GetDID (op.run ctx) d).1 = .ok r1 ∧ r1.Verified = true := by
  obtain ⟨hget, hlen, hdec⟩ := GetDID_ok_inv ctx d r h
  have hst := getD_some_of_length _ hlen
  have same : ∀ ctx1 : Stub, ctx1.state d = ctx.state d → ctx1.getErr = ctx.getErr →
      ∃ r1, (GetDID ctx1 d).1 = .ok r1 ∧ r1.Verified = true := by
    intro ctx1 hs hg
    exact ⟨r, by rw [GetDID_congr ctx ctx1 d hs hg hget, h], hv⟩
  by_cases hk : op.key = d
  · cases op with
    | CreateDID did name credentials =>
      obtain rfl : did = d := hk
      apply same _ _ (run_faults ctx _).1
      simp only [Op.run]
      rw [CreateDID_present ctx did name credentials (by omega) hget]
    | UpdateCredentials did newCredentials =>
      obtain rfl : did = d := hk
      cases hp : ctx.putErr did (json.encodeDID { r with Credentials := newCredentials }) with
      | none =>
        obtain ⟨_, k2, k3, _, _⟩ := UpdateCredentials_ok ctx did newCredentials _ r hst hlen hdec
          hget hp
        refine ⟨coerceDID { r with Credentials := newCredentials }, ?_, hv⟩
        exact GetDID_encoded (UpdateCredentials ctx did newCredentials).2 did _
          (by rw [k3]; exact hget) (by rw [k2]; exact putAt_same _ _ _)
      | some e =>
        apply same _ _ (run_faults ctx _).1
        have e1 : UpdateCredentials ctx did newCredentials
            = Stub.PutState { ctx with calls := ctx.calls ++ [Call.GetState did] } did
                (json.encodeDID { r with Credentials := newCredentials }) := by
          rw [UpdateCredentials, GetState_ok ctx did hget]
          simp [hlen, hdec, json.Marshal]
        simp only [Op.run]
        rw [e1, (PutState_fail { ctx with calls := ctx.calls ++ [Call.GetState did] } did _ e hp).2]
    | VerifyDID did =>
      obtain rfl : did = d := hk
      cases hp : ctx.putErr did (json.encodeDID { r with Verified := true }) with
      | none =>
        obtain ⟨_, k2, k3, _, _⟩ := VerifyDID_ok ctx did _ r hst hlen hdec hget hp
        refine ⟨coerceDID { r with Verified := true }, ?_, rfl⟩
        exact GetDID_encoded (VerifyDID ctx did).2 did _
          (by rw [k3]; exact hget) (by rw [k2]; exact putAt_same _ _ _)
      | some e =>
        apply same _ _ (run_faults ctx _).1
        have e1 : VerifyDID ctx did
            = Stub.PutState { ctx with calls := ctx.calls ++ [Call.GetState did] } did
                (json.encodeDID { r with Verified := true }) := by
          rw [VerifyDID, GetState_ok ctx did hget]
          simp [hlen, hdec, json.Marshal]
        simp only [Op.run]
        rw [e1, (PutState_fail { ctx with calls := ctx.calls ++ [Call.GetState did] } did _ e hp).2]
    | RevokeDID did =>
      obtain rfl : did = d := hk
      exact absurd rfl hop
    | GetDID did =>
      apply same _ _ (run_faults ctx _).1
      simp only [Op.run]
      rw [GetDID_shape, GetState_state]
  · exact same _ (run_state_ne ctx op d hk) (run_faults ctx op).1

/-! ## Lemmas for the error paths, the call log and the reachable states -/

/-- The two outcomes of `PutState`. -/
theorem PutState_cases (ctx : Stub) (key value : Bytes) :
    (ctx.putErr key value = none ∧
      ctx.PutState key value = (.ok (),
        { ctx with calls := ctx.calls ++ [Call.PutState key value],
                   state := putAt ctx.state key value })) ∨
    (∃ e, ctx.putErr key value = some e ∧
      ctx.PutState key value = (.error (Error.stub e),
        { ctx with calls := ctx.calls ++ [Call.PutState key value] })) := by
  cases h : ctx.putErr key value with
  | none => left; exact ⟨rfl, by unfold Stub.PutState; rw [h]; rfl⟩
  | some e => right; exact ⟨e, rfl, by simp [Stub.PutState, h]⟩

/-- The two outcomes of `DelState`. -/
theorem DelState_cases (ctx : Stub) (key : Bytes) :
    (ctx.delErr key = none ∧
      ctx.DelState key = (.ok (),
        { ctx with calls := ctx.calls ++ [Call.DelState key],
                   state := delAt ctx.state key })) ∨
    (∃ e, ctx.delErr key = some e ∧
      ctx.DelState key = (.error (Error.stub e),
        { ctx with calls := ctx.calls ++ [Call.DelState key] })) := by
  cases h : ctx.delErr key with
  | none => left; exact ⟨rfl, by unfold Stub.DelState; rw [h]; rfl⟩
  | some e => right; exact ⟨e, rfl, by simp [Stub.DelState, h]⟩

theorem GetState_fail (ctx : Stub) (key : Bytes) (e : String) (h : ctx.getErr key = some e) :
    ctx.GetState key = (.error e, { ctx with calls := ctx.calls ++ [Call.GetState key] }) := by
  simp [Stub.GetState, h]

/-- The outcomes of `CreateDID`, by the branch taken. -/
theorem CreateDID_cases (ctx : Stub) (did name credentials : Bytes) :
    (∃ e, ctx.getErr did = some e ∧
      CreateDID ctx did name credentials
        = (.error (Error.Errorf ("failed to read from world state: " ++ e)),
            { ctx with calls := ctx.calls ++ [Call.GetState did] })) ∨
    (ctx.getErr did = none ∧ ((ctx.state did).getD []).length > 0 ∧
      CreateDID ctx did name credentials
        = (.error (Error.Errorf "DID already exists"),
            { ctx with calls := ctx.calls ++ [Call.GetState did] })) ∨
    (ctx.getErr did = none ∧ ((ctx.state did).getD []).length = 0 ∧
      CreateDID ctx did name credentials
        = Stub.PutState { ctx with calls := ctx.calls ++ [Call.GetState did] } did
            (json.encodeDID ⟨did, name, credentials, false⟩)) := by
  cases hg : ctx.getErr did with
  | some e =>
    left
    exact ⟨e, rfl, by simp [CreateDID, GetState_fail ctx did e hg]⟩
  | none =>
    right
    by_cases h0 : ((ctx.state did).getD []).length = 0
    · right; exact ⟨rfl, h0, CreateDID_absent ctx did name credentials h0 hg⟩
    · left; exact ⟨rfl, by omega, CreateDID_present ctx did name credentials (by omega) hg⟩

/-- The outcomes of `UpdateCredentials`, by the branch taken. -/
theorem UpdateCredentials_cases (ctx : Stub) (did newCredentials : Bytes) :
    (∃ e, ctx.getErr did = some e ∧
      UpdateCredentials ctx did newCredentials
        = (.error (Error.Errorf ("failed to read DID: " ++ e)),
            { ctx with calls := ctx.calls ++ [Call.GetState did] })) ∨
    (ctx.getErr did = none ∧ ((ctx.state did).getD []).length = 0 ∧
      UpdateCredentials ctx did newCredentials
        = (.error (Error.Errorf "DID does not exist"),
            { ctx with calls := ctx.calls ++ [Call.GetState did] })) ∨
    (ctx.getErr did = none ∧ ((ctx.state did).getD []).length ≠ 0 ∧
      ∃ e, json.Unmarshal ((ctx.state did).getD []) zeroDID = .error e ∧
      UpdateCredentials ctx did newCredentials
        = (.error (Error.json e), { ctx with calls := ctx.calls ++ [Call.GetState did] })) ∨
    (ctx.getErr did = none ∧ ((ctx.state did).getD []).length ≠ 0 ∧
      ∃ r, json.Unmarshal ((ctx.state did).getD []) zeroDID = .ok r ∧
      UpdateCredentials ctx did newCredentials
        = Stub.PutState { ctx with calls := ctx.calls ++ [Call.GetState did] } did
            (json.encodeDID { r with Credentials := newCredentials })) := by
  cases hg : ctx.getErr did with
  | some e =>
    left
    exact ⟨e, rfl, by simp [UpdateCredentials, GetState_fail ctx did e hg]⟩
  | none =>
    right
    by_cases h0 : ((ctx.state did).getD []).length = 0
    · left; exact ⟨rfl, h0, (absent_NotFound ctx did h0 hg).1 newCredentials⟩
    · right
      cases hu : json.Unmarshal ((ctx.state did).getD []) zeroDID with
      | error e =>
        left
        refine ⟨rfl, h0, e, rfl, ?_⟩
        rw [UpdateCredentials, GetState_ok ctx did hg]
        simp [h0, hu]
      | ok r =>
        right
        refine ⟨rfl, h0, r, rfl, ?_⟩
        rw [UpdateCredentials, GetState_ok ctx did hg]
        simp [h0, hu, json.Marshal]

/-- The outcomes of `VerifyDID`, by the branch taken. -/
theorem VerifyDID_cases (ctx : Stub) (did : Bytes) :
    (∃ e, ctx.getErr did = some e ∧
      VerifyDID ctx did
        = (.error (Error.Errorf ("failed to read DID: " ++ e)),
            { ctx with calls := ctx.calls ++ [Call.GetState did] })) ∨
    (ctx.getErr did = none ∧ ((ctx.state did).getD []).length = 0 ∧
      VerifyDID ctx did
        = (.error (Error.Errorf "DID does not exist"),
            { ctx with calls := ctx.calls ++ [Call.GetState did] })) ∨
    (ctx.getErr did = none ∧ ((ctx.state did).getD []).length ≠ 0 ∧
      ∃ e, json.Unmarshal ((ctx.state did).getD []) zeroDID = .error e ∧
      VerifyDID ctx did
        = (.error (Error.json e), { ctx with calls := ctx.calls ++ [Call.GetState did] })) ∨
    (ctx.getErr did = none ∧ ((ctx.state did).getD []).length ≠ 0 ∧
      ∃ r, json.Unmarshal ((ctx.state did).getD []) zeroDID = .ok r ∧
      VerifyDID ctx did
        = Stub.PutState { ctx with calls := ctx.calls ++ [Call.GetState did] } did
            (json.encodeDID { r with Verified := true })) := by
  cases hg : ctx.getErr did with
  | some e =>
    left
    exact ⟨e, rfl, by simp [VerifyDID, GetState_fail ctx did e hg]⟩
  | none =>
    right
    by_cases h0 : ((ctx.state did).getD []).length = 0
    · left; exact ⟨rfl, h0, (absent_NotFound ctx did h0 hg).2.1⟩
    · right
      cases hu : json.Unmarshal ((ctx.state did).getD []) zeroDID with
      | error e =>
        left
        refine ⟨rfl, h0, e, rfl, ?_⟩
        rw [VerifyDID, GetState_ok ctx did hg]
        simp [h0, hu]
      | ok r =>
        right
        refine ⟨rfl, h0, r, rfl, ?_⟩
        rw [VerifyDID, GetState_ok ctx did hg]
        simp [h0, hu, json.Marshal]

/-- The outcomes of `RevokeDID`, by the branch taken. -/
theorem RevokeDID_cases (ctx : Stub) (did : Bytes) :
    (∃ e, ctx.getErr did = some e ∧
      RevokeDID ctx did
        = (.error (Error.Errorf ("failed to read DID: " ++ e)),
            { ctx with calls := ctx.calls ++ [Call.GetState did] })) ∨
    (ctx.getErr did = none ∧ ((ctx.state did).getD []).length = 0 ∧
      RevokeDID ctx did
        = (.error (Error.Errorf "DID does not exist"),
            { ctx with calls := ctx.calls ++ [Call.GetState did] })) ∨
    (ctx.getErr did = none ∧ ((ctx.state did).getD []).length ≠ 0 ∧
      RevokeDID ctx did
        = Stub.DelState { ctx with calls := ctx.calls ++ [Call.GetState did] } did) := by
  cases hg : ctx.getErr did with
  | some e =>
    left
    exact ⟨e, rfl, by simp [RevokeDID, GetState_fail ctx did e hg]⟩
  | none =>
    right
    by_cases h0 : ((ctx.state did).getD []).length = 0
    · left; exact ⟨rfl, h0, (absent_NotFound ctx did h0 hg).2.2.1⟩
    · right
      refine ⟨rfl, h0, ?_⟩
      rw [RevokeDID, GetState_ok ctx did hg]
      simp [h0]

/-- The outcomes of `GetDID`, by the branch taken. -/
theorem GetDID_cases (ctx : Stub) (did : Bytes) :
    (∃ e, ctx.getErr did = some e ∧
      GetDID ctx did
        = (.error (Error.Errorf ("failed to read DID: " ++ e)),
            { ctx with calls := ctx.calls ++ [Call.GetState did] })) ∨
    (ctx.getErr did = none ∧ ((ctx.state did).getD []).length = 0 ∧
      GetDID ctx did
        = (.error (Error.Errorf "DID does not exist"),
            { ctx with calls := ctx.calls ++ [Call.GetState did] })) ∨
    (ctx.getErr did = none ∧ ((ctx.state did).getD []).length ≠ 0 ∧
      ∃ e, json.Unmarshal ((ctx.state did).getD []) zeroDID = .error e ∧
      GetDID ctx did
        = (.error (Error.json e), { ctx with calls := ctx.calls ++ [Call.GetState did] })) ∨
    (ctx.getErr did = none ∧ ((ctx.state did).getD []).length ≠ 0 ∧
      ∃ r, json.Unmarshal ((ctx.state did).getD []) zeroDID = .ok r ∧
      GetDID ctx did = (.ok r, { ctx with calls := ctx.calls ++ [Call.GetState did] })) := by
  cases hg : ctx.getErr did with
  | some e =>
    left
    exact ⟨e, rfl, by simp [GetDID, GetState_fail ctx did e hg]⟩
  | none =>
    right
    by_cases h0 : ((ctx.state did).getD []).length = 0
    · left; exact ⟨rfl, h0, (absent_NotFound ctx did h0 hg).2.2.2⟩
    · right
      cases hu : json.Unmarshal ((ctx.state did).getD []) zeroDID with
      | error e =>
        left
        refine ⟨rfl, h0, e, rfl, ?_⟩
        rw [GetDID, GetState_ok ctx did hg]
        simp [h0, hu]
      | ok r =>
        right
        refine ⟨rfl, h0, r, rfl, ?_⟩
        rw [GetDID, GetState_ok ctx did hg]
        simp [h0, hu]

theorem PutState_error_state (ctx : Stub) (key value : Bytes) (e : Error)
    (h : (ctx.PutState key value).1 = .error e) : (ctx.PutState key value).2.state = ctx.state := by
  rcases PutState_cases ctx key value with ⟨_, h1⟩ | ⟨e1, _, h1⟩
  · rw [h1] at h; exact Except.noConfusion h
  · rw [h1]

theorem DelState_error_state (ctx : Stub) (key : Bytes) (e : Error)
    (h : (ctx.DelState key).1 = .error e) : (ctx.DelState key).2.state = ctx.state := by
  rcases DelState_cases ctx key with ⟨_, h1⟩ | ⟨e1, _, h1⟩
  · rw [h1] at h; exact Except.noConfusion h
  · rw [h1]

/-- An operation that returns an error leaves the world state as it was. -/
theorem error_state (ctx : Stub) (did name credentials newCredentials : Bytes) :
    (∀ e, (CreateDID ctx did name credentials).1 = .error e →
      (CreateDID ctx did name credentials).2.state = ctx.state) ∧
    (∀ e, (UpdateCredentials ctx did newCredentials).1 = .error e →
      (UpdateCredentials ctx did newCredentials).2.state = ctx.state) ∧
    (∀ e, (VerifyDID ctx did).1 = .error e → (VerifyDID ctx did).2.state = ctx.state) ∧
    (∀ e, (RevokeDID ctx did).1 = .error e → (RevokeDID ctx did).2.state = ctx.state) ∧
    (∀ e, (GetDID ctx did).1 = .error e → (GetDID ctx did).2.state = ctx.state) := by
  refine ⟨fun e h => ?_, fun e h => ?_, fun e h => ?_, fun e h => ?_, fun e h => ?_⟩
  · rcases CreateDID_cases ctx did name credentials with ⟨_, _, h1⟩ | ⟨_, _, h1⟩ | ⟨_, _, h1⟩
    · rw [h1]
    · rw [h1]
    · rw [h1] at h ⊢
      exact PutState_error_state _ _ _ e h
  · rcases UpdateCredentials_cases ctx did newCredentials with
      ⟨_, _, h1⟩ | ⟨_, _, h1⟩ | ⟨_, _, _, _, h1⟩ | ⟨_, _, _, _, h1⟩
    · rw [h1]
    · rw [h1]
    · rw [h1]
    · rw [h1] at h ⊢
      exact PutState_error_state _ _ _ e h
  · rcases VerifyDID_cases ctx did with
      ⟨_, _, h1⟩ | ⟨_, _, h1⟩ | ⟨_, _, _, _, h1⟩ | ⟨_, _, _, _, h1⟩
    · rw [h1]
    · rw [h1]
    · rw [h1]
    · rw [h1] at h ⊢
      exact PutState_error_state _ _ _ e h
  · rcases RevokeDID_cases ctx did with ⟨_, _, h1⟩ | ⟨_, _, h1⟩ | ⟨_, _, h1⟩
    · rw [h1]
    · rw [h1]
    · rw [h1] at h ⊢
      exact DelState_error_state _ _ e h
  · rw [GetDID_shape, GetState_state]

/-- The context after `GetDID`: one `GetState` more in the log, nothing else. -/
theorem GetDID_snd (ctx : Stub) (did : Bytes) :
    (GetDID ctx did).2 = { ctx with calls := ctx.calls ++ [Call.GetState did] } := by
  rcases GetDID_cases ctx did with
    ⟨_, _, h1⟩ | ⟨_, _, h1⟩ | ⟨_, _, _, _, h1⟩ | ⟨_, _, _, _, h1⟩ <;> rw [h1]

/-- The calls an operation issues: the read, then at most one write (or, for
`RevokeDID`, at most one delete) on the same key. -/
theorem calls_shape (ctx : Stub) (did name credentials newCredentials : Bytes) :
    ((CreateDID ctx did name credentials).2.calls = ctx.calls ++ [Call.GetState did] ∨
      ∃ v, (CreateDID ctx did name credentials).2.calls
        = ctx.calls ++ [Call.GetState did, Call.PutState did v]) ∧
    ((UpdateCredentials ctx did newCredentials).2.calls = ctx.calls ++ [Call.GetState did] ∨
      ∃ v, (UpdateCredentials ctx did newCredentials).2.calls
        = ctx.calls ++ [Call.GetState did, Call.PutState did v]) ∧
    ((VerifyDID ctx did).2.calls = ctx.calls ++ [Call.GetState did] ∨
      ∃ v, (VerifyDID ctx did).2.calls
        = ctx.calls ++ [Call.GetState did, Call.PutState did v]) ∧
    ((RevokeDID ctx did).2.calls = ctx.calls ++ [Call.GetState did] ∨
      (RevokeDID ctx did).2.calls = ctx.calls ++ [Call.GetState did, Call.DelState did]) ∧
    (GetDID ctx did).2.calls = ctx.calls ++ [Call.GetState did] := by
  have put : ∀ v, (Stub.PutState { ctx with calls := ctx.calls ++ [Call.GetState did] } did v).2.calls
      = ctx.calls ++ [Call.GetState did, Call.PutState did v] := by
    intro v
    rcases PutState_cases { ctx with calls := ctx.calls ++ [Call.GetState did] } did v with
      ⟨_, h1⟩ | ⟨_, _, h1⟩ <;> rw [h1] <;> simp
  have del : (Stub.DelState { ctx with calls := ctx.calls ++ [Call.GetState did] } did).2.calls
      = ctx.calls ++ [Call.GetState did, Call.DelState did] := by
    rcases DelState_cases { ctx with calls := ctx.calls ++ [Call.GetState did] } did with
      ⟨_, h1⟩ | ⟨_, _, h1⟩ <;> rw [h1] <;> simp
  refine ⟨?_, ?_, ?_, ?_, ?_⟩
  · rcases CreateDID_cases ctx did name credentials with ⟨_, _, h1⟩ | ⟨_, _, h1⟩ | ⟨_, _, h1⟩
    · left; rw [h1]
    · left; rw [h1]
    · right; exact ⟨_, by rw [h1]; exact put _⟩
  · rcases UpdateCredentials_cases ctx did newCredentials with
      ⟨_, _, h1⟩ | ⟨_, _, h1⟩ | ⟨_, _, _, _, h1⟩ | ⟨_, _, _, _, h1⟩
    · left; rw [h1]
    · left; rw [h1]
    · left; rw [h1]
    · right; exact ⟨_, by rw [h1]; exact put _⟩
  · rcases VerifyDID_cases ctx did with
      ⟨_, _, h1⟩ | ⟨_, _, h1⟩ | ⟨_, _, _, _, h1⟩ | ⟨_, _, _, _, h1⟩
    · left; rw [h1]
    · left; rw [h1]
    · left; rw [h1]
    · right; exact ⟨_, by rw [h1]; exact put _⟩
  · rcases RevokeDID_cases ctx did with ⟨_, _, h1⟩ | ⟨_, _, h1⟩ | ⟨_, _, h1⟩
    · left; rw [h1]
    · left; rw [h1]
    · right; rw [h1]; exact del
  · rw [GetDID_snd]

/-- A `PutState` after the read that returns no error was accepted by the host
and has set the value. -/
theorem put_success (ctx : Stub) (did v : Bytes)
    (h : (Stub.PutState { ctx with calls := ctx.calls ++ [Call.GetState did] } did v).1 = .ok ()) :
    ctx.putErr did v = none ∧
    (Stub.PutState { ctx with calls := ctx.calls ++ [Call.GetState did] } did v).2.state
      = putAt ctx.state did v ∧
    (Stub.PutState { ctx with calls := ctx.calls ++ [Call.GetState did] } did v).2.calls
      = ctx.calls ++ [Call.GetState did, Call.PutState did v] := by
  rcases PutState_cases { ctx with calls := ctx.calls ++ [Call.GetState did] } did v with
    ⟨h0, h1⟩ | ⟨e, _, h1⟩
  · rw [h1]; exact ⟨h0, rfl, by simp⟩
  · rw [h1] at h; exact Except.noConfusion h

/-- A successful `UpdateCredentials` has read the key, decoded its value to
some record `r` and written `r` with the new credentials. -/
theorem UpdateCredentials_success_inv (ctx : Stub) (did newCredentials : Bytes)
    (h : (UpdateCredentials ctx did newCredentials).1 = .ok ()) :
    ctx.getErr did = none ∧ ((ctx.state did).getD []).length ≠ 0 ∧
    ∃ r, json.Unmarshal ((ctx.state did).getD []) zeroDID = .ok r ∧
      ctx.putErr did (json.encodeDID { r with Credentials := newCredentials }) = none ∧
      (UpdateCredentials ctx did newCredentials).2.state
        = putAt ctx.state did (json.encodeDID { r with Credentials := newCredentials }) ∧
      (UpdateCredentials ctx did newCredentials).2.calls
        = ctx.calls ++ [Call.GetState did,
            Call.PutState did (json.encodeDID { r with Credentials := newCredentials })] := by
  rcases UpdateCredentials_cases ctx did newCredentials with
    ⟨_, _, h1⟩ | ⟨_, _, h1⟩ | ⟨_, _, _, _, h1⟩ | ⟨hg, h0, r, hu, h1⟩
  · rw [h1] at h; exact Except.noConfusion h
  · rw [h1] at h; exact Except.noConfusion h
  · rw [h1] at h; exact Except.noConfusion h
  · rw [h1] at h ⊢
    exact ⟨hg, h0, r, hu, put_success ctx did _ h⟩

/-- A successful `VerifyDID` has read the key, decoded its value to some record
`r` and written `r` with `Verified = true`. -/
theorem VerifyDID_success_inv (ctx : Stub) (did : Bytes)
    (h : (VerifyDID ctx did).1 = .ok ()) :
    ctx.getErr did = none ∧ ((ctx.state did).getD []).length ≠ 0 ∧
    ∃ r, json.Unmarshal ((ctx.state did).getD []) zeroDID = .ok r ∧
      ctx.putErr did (json.encodeDID { r with Verified := true }) = none ∧
      (VerifyDID ctx did).2.state
        = putAt ctx.state did (json.encodeDID { r with Verified := true }) ∧
      (VerifyDID ctx did).2.calls
        = ctx.calls ++ [Call.GetState did,
            Call.PutState did (json.encodeDID { r with Verified := true })] := by
  rcases VerifyDID_cases ctx did with
    ⟨_, _, h1⟩ | ⟨_, _, h1⟩ | ⟨_, _, _, _, h1⟩ | ⟨hg, h0, r, hu, h1⟩
  · rw [h1] at h; exact Except.noConfusion h
  · rw [h1] at h; exact Except.noConfusion h
  · rw [h1] at h; exact Except.noConfusion h
  · rw [h1] at h ⊢
    exact ⟨hg, h0, r, hu, put_success ctx did _ h⟩

/-- What the existence checks do on a key that holds a non-empty value and
that the host reads without error: `CreateDID` refuses, and none of the other
operations reports that the record does not exist. -/
theorem existing_key (ctx : Stub) (d : Bytes) (hget : ctx.getErr d = none)
    (hlen : ((ctx.state d).getD []).length > 0) :
    (∀ n c, (CreateDID ctx d n c).1 = .error (Error.Errorf "DID already exists")) ∧
    (∀ c, (UpdateCredentials ctx d c).1 ≠ .error (Error.Errorf "DID does not exist")) ∧
    (VerifyDID ctx d).1 ≠ .error (Error.Errorf "DID does not exist") ∧
    (RevokeDID ctx d).1 ≠ .error (Error.Errorf "DID does not exist") ∧
    (GetDID ctx d).1 ≠ .error (Error.Errorf "DID does not exist") := by
  have put : ∀ v, (Stub.PutState { ctx with calls := ctx.calls ++ [Call.GetState d] } d v).1
      ≠ .error (Error.Errorf "DID does not exist") := by
    intro v
    rcases PutState_cases { ctx with calls := ctx.calls ++ [Call.GetState d] } d v with
      ⟨_, h1⟩ | ⟨_, _, h1⟩ <;> rw [h1] <;> simp
  refine ⟨fun n c => ?_, fun c => ?_, ?_, ?_, ?_⟩
  · rw [CreateDID_present ctx d n c hlen hget]
  · rcases UpdateCredentials_cases ctx d c with
      ⟨e, he, _⟩ | ⟨_, h0, _⟩ | ⟨_, _, _, _, h1⟩ | ⟨_, _, _, _, h1⟩
    · rw [hget] at he; exact Option.noConfusion he
    · omega
    · rw [h1]; simp
    · rw [h1]; exact put _
  · rcases VerifyDID_cases ctx d with
      ⟨e, he, _⟩ | ⟨_, h0, _⟩ | ⟨_, _, _, _, h1⟩ | ⟨_, _, _, _, h1⟩
    · rw [hget] at he; exact Option.noConfusion he
    · omega
    · rw [h1]; simp
    · rw [h1]; exact put _
  · rcases RevokeDID_cases ctx d with ⟨e, he, _⟩ | ⟨_, h0, _⟩ | ⟨_, _, h1⟩
    · rw [hget] at he; exact Option.noConfusion he
    · omega
    · rw [h1]
      rcases DelState_cases { ctx with calls := ctx.calls ++ [Call.GetState d] } d with
        ⟨_, h2⟩ | ⟨_, _, h2⟩ <;> rw [h2] <;> simp
  · rcases GetDID_cases ctx d with
      ⟨e, he, _⟩ | ⟨_, h0, _⟩ | ⟨_, _, _, _, h1⟩ | ⟨_, _, _, _, h1⟩
    · rw [hget] at he; exact Option.noConfusion he
    · omega
    · rw [h1]; simp
    · rw [h1]; simp

theorem put_calls (ctx : Stub) (did v : Bytes) :
    (Stub.PutState { ctx with calls := ctx.calls ++ [Call.GetState did] } did v).2.calls
      = ctx.calls ++ [Call.GetState did, Call.PutState did v] := by
  rcases PutState_cases { ctx with calls := ctx.calls ++ [Call.GetState did] } did v with
    ⟨_, h1⟩ | ⟨_, _, h1⟩ <;> rw [h1] <;> simp

/-- A successful `CreateDID` has read the key, found no value and written the
new record, and the host accepted the write. -/
theorem CreateDID_success_calls (ctx : Stub) (did name credentials : Bytes)
    (h : (CreateDID ctx did name credentials).1 = .ok ()) :
    ctx.putErr did (json.encodeDID ⟨did, name, credentials, false⟩) = none ∧
    (CreateDID ctx did name credentials).2.calls
      = ctx.calls ++ [Call.GetState did,
          Call.PutState did (json.encodeDID ⟨did, name, credentials, false⟩)] := by
  rcases CreateDID_cases ctx did name credentials with ⟨_, _, h1⟩ | ⟨_, _, h1⟩ | ⟨_, _, h1⟩
  · rw [h1] at h; exact Except.noConfusion h
  · rw [h1] at h; exact Except.noConfusion h
  · rw [h1] at h ⊢
    exact ⟨(put_success ctx did _ h).1, (put_success ctx did _ h).2.2⟩

/-- A successful `RevokeDID` has read the key, found a value and deleted the
key, and the host accepted the delete. -/
theorem RevokeDID_success_inv (ctx : Stub) (did : Bytes)
    (h : (RevokeDID ctx did).1 = .ok ()) :
    ctx.getErr did = none ∧ ((ctx.state did).getD []).length ≠ 0 ∧ ctx.delErr did = none ∧
    (RevokeDID ctx did).2.state = delAt ctx.state did ∧
    (RevokeDID ctx did).2.calls = ctx.calls ++ [Call.GetState did, Call.DelState did] := by
  rcases RevokeDID_cases ctx did with ⟨_, _, h1⟩ | ⟨_, _, h1⟩ | ⟨hg, h0, h1⟩
  · rw [h1] at h; exact Except.noConfusion h
  · rw [h1] at h; exact Except.noConfusion h
  · rw [h1] at h ⊢
    rcases DelState_cases { ctx with calls := ctx.calls ++ [Call.GetState did] } did with
      ⟨hd, h2⟩ | ⟨e, _, h2⟩
    · rw [h2]; exact ⟨hg, h0, hd, rfl, by simp⟩
    · rw [h2] at h; exact Except.noConfusion h

theorem encoded_putAt (st : Bytes → Option Bytes) (k : Bytes) (r : DID) (h : Encoded st)
    (hr : utf8.coerce r.DID = utf8.coerce k) : Encoded (putAt st k (json.encodeDID r)) := by
  intro k1 v hv
  simp only [putAt] at hv
  split at hv
  · injection hv with hv
    subst hv
    rename_i hk
    subst hk
    exact ⟨r, rfl, hr⟩
  · exact h k1 v hv

theorem encoded_delAt (st : Bytes → Option Bytes) (k : Bytes) (h : Encoded st) :
    Encoded (delAt st k) := by
  intro k1 v hv
  simp only [delAt] at hv
  split at hv
  · exact Option.noConfusion hv
  · exact h k1 v hv

/-- The decoded record in a world state of encodings. -/
theorem encoded_decode (st : Bytes → Option Bytes) (h : Encoded st) (k : Bytes) (r : DID)
    (h0 : ((st k).getD []).length ≠ 0)
    (hu : json.Unmarshal ((st k).getD []) zeroDID = .ok r) :
    r.DID = utf8.coerce k ∧ utf8.coerce r.DID = utf8.coerce k := by
  have hs := getD_some_of_length _ h0
  obtain ⟨r0, hv, hk⟩ := h k _ hs
  rw [hv, Unmarshal_encodeDID] at hu
  injection hu with hu
  subst hu
  simp only [coerceDID]
  rw [coerce_coerce]
  exact ⟨hk, hk⟩

/-- One invocation keeps the world state a state of encodings. -/
theorem encoded_step (ctx : Stub) (op : Op) (h : Encoded ctx.state) :
    Encoded (op.run ctx).state := by
  have put : ∀ (did : Bytes) (r : DID), utf8.coerce r.DID = utf8.coerce did →
      Encoded (Stub.PutState { ctx with calls := ctx.calls ++ [Call.GetState did] } did
        (json.encodeDID r)).2.state := by
    intro did r hr
    rcases PutState_cases { ctx with calls := ctx.calls ++ [Call.GetState did] } did
      (json.encodeDID r) with ⟨_, h1⟩ | ⟨_, _, h1⟩
    · rw [h1]; exact encoded_putAt ctx.state did r h hr
    · rw [h1]; exact h
  cases op with
  | CreateDID did name credentials =>
    simp only [Op.run]
    rcases CreateDID_cases ctx did name credentials with ⟨_, _, h1⟩ | ⟨_, _, h1⟩ | ⟨_, _, h1⟩
    · rw [h1]; exact h
    · rw [h1]; exact h
    · rw [h1]; exact put did _ rfl
  | UpdateCredentials did newCredentials =>
    simp only [Op.run]
    rcases UpdateCredentials_cases ctx did newCredentials with
      ⟨_, _, h1⟩ | ⟨_, _, h1⟩ | ⟨_, _, _, _, h1⟩ | ⟨_, h0, r, hu, h1⟩
    · rw [h1]; exact h
    · rw [h1]; exact h
    · rw [h1]; exact h
    · rw [h1]; exact put did _ (encoded_decode ctx.state h did r h0 hu).2
  | VerifyDID did =>
    simp only [Op.run]
    rcases VerifyDID_cases ctx did with
      ⟨_, _, h1⟩ | ⟨_, _, h1⟩ | ⟨_, _, _, _, h1⟩ | ⟨_, h0, r, hu, h1⟩
    · rw [h1]; exact h
    · rw [h1]; exact h
    · rw [h1]; exact h
    · rw [h1]; exact put did _ (encoded_decode ctx.state h did r h0 hu).2
  | RevokeDID did =>
    simp only [Op.run]
    rcases RevokeDID_cases ctx did with ⟨_, _, h1⟩ | ⟨_, _, h1⟩ | ⟨_, _, h1⟩
    · rw [h1]; exact h
    · rw [h1]; exact h
    · rw [h1]
      rcases DelState_cases { ctx with calls := ctx.calls ++ [Call.GetState did] } did with
        ⟨_, h2⟩ | ⟨_, _, h2⟩
      · rw [h2]; exact encoded_delAt ctx.state did h
      · rw [h2]; exact h
  | GetDID did =>
    simp only [Op.run]
    rw [GetDID_snd]; exact h

theorem reachable_encoded (st : Bytes → Option Bytes) (h : Reachable st) : Encoded st := by
  induction h with
  | empty => intro k v hv; exact Option.noConfusion hv
  | step ctx op _ ih => exact encoded_step ctx op ih

/-- Storing a member that fits: the store succeeds and changes the field of
the member only. -/
theorem storeField_ok (key : Bytes) (f : json.Field) (k : Bytes) (val : json.Value) (v : DID)
    (hk : json.unquote k = some key) (hf : json.lookupField key = some f)
    (hm : json.memberOK (k, val) = true) :
    ∃ v1, json.storeField f val v = .ok v1 ∧
      (f ≠ json.Field.DID → v1.DID = v.DID) ∧ (f ≠ json.Field.Name → v1.Name = v.Name) ∧
      (f ≠ json.Field.Credentials → v1.Credentials = v.Credentials) ∧
      (f ≠ json.Field.Verified → v1.Verified = v.Verified) := by
  simp only [json.memberOK, hk, hf] at hm
  cases val with
  | null =>
    refine ⟨v, ?_, fun _ => rfl, fun _ => rfl, fun _ => rfl, fun _ => rfl⟩
    cases f <;> rfl
  | bool b =>
    cases f with
    | Verified =>
      exact ⟨{ v with Verified := b }, rfl, fun _ => rfl, fun _ => rfl, fun _ => rfl,
        fun h => absurd rfl h⟩
    | DID => exact Bool.noConfusion hm
    | Name => exact Bool.noConfusion hm
    | Credentials => exact Bool.noConfusion hm
  | number => cases f <;> exact Bool.noConfusion hm
  | array => cases f <;> exact Bool.noConfusion hm
  | object ms => cases f <;> exact Bool.noConfusion hm
  | string l =>
    cases f with
    | Verified => exact Bool.noConfusion hm
    | DID =>
      obtain ⟨s, hs⟩ := Option.isSome_iff_exists.mp hm
      refine ⟨{ v with DID := s }, ?_, fun h => absurd rfl h, fun _ => rfl, fun _ => rfl,
        fun _ => rfl⟩
      simp only [json.storeField, hs]
    | Name =>
      obtain ⟨s, hs⟩ := Option.isSome_iff_exists.mp hm
      refine ⟨{ v with Name := s }, ?_, fun _ => rfl, fun h => absurd rfl h, fun _ => rfl,
        fun _ => rfl⟩
      simp only [json.storeField, hs]
    | Credentials =>
      obtain ⟨s, hs⟩ := Option.isSome_iff_exists.mp hm
      refine ⟨{ v with Credentials := s }, ?_, fun _ => rfl, fun _ => rfl,
        fun h => absurd rfl h, fun _ => rfl⟩
      simp only [json.storeField, hs]

/-- An object all of whose members fit decodes, and a field for which it has
no member keeps the value it had. -/
theorem decodeObject_ok (ms : List (Bytes × json.Value)) :
    ∀ v : DID, (∀ m ∈ ms, json.memberOK m = true) →
    ∃ r, json.decodeObject ms v = .ok r ∧
      (json.hasField json.Field.DID ms = false → r.DID = v.DID) ∧
      (json.hasField json.Field.Name ms = false → r.Name = v.Name) ∧
      (json.hasField json.Field.Credentials ms = false → r.Credentials = v.Credentials) ∧
      (json.hasField json.Field.Verified ms = false → r.Verified = v.Verified) := by
  induction ms with
  | nil => intro v _; exact ⟨v, rfl, fun _ => rfl, fun _ => rfl, fun _ => rfl, fun _ => rfl⟩
  | cons m ms ih =>
    intro v hall
    obtain ⟨k, val⟩ := m
    have hm : json.memberOK (k, val) = true := hall _ (by simp)
    have htl : ∀ m ∈ ms, json.memberOK m = true := fun m hmem => hall m (by simp [hmem])
    cases hk : json.unquote k with
    | none => simp [json.memberOK, hk] at hm
    | some key =>
      have hany : ∀ f, json.hasField f ((k, val) :: ms) = false →
          json.lookupField key ≠ some f ∧ json.hasField f ms = false := by
        intro f hf
        simp only [json.hasField, List.any_cons, Bool.or_eq_false_iff, json.isField, hk] at hf
        exact ⟨fun h => by rw [h] at hf; simp at hf, hf.2⟩
      cases hf : json.lookupField key with
      | none =>
        obtain ⟨r, h1, h2, h3, h4, h5⟩ := ih v htl
        refine ⟨r, ?_, fun h => h2 (hany _ h).2, fun h => h3 (hany _ h).2,
          fun h => h4 (hany _ h).2, fun h => h5 (hany _ h).2⟩
        rw [json.decodeObject]
        simp only [hk, hf]
        exact h1
      | some f =>
        obtain ⟨v1, e1, g1, g2, g3, g4⟩ := storeField_ok key f k val v hk hf hm
        obtain ⟨r, h1, h2, h3, h4, h5⟩ := ih v1 htl
        have hne : ∀ f1, json.hasField f1 ((k, val) :: ms) = false → f ≠ f1 := by
          intro f1 h e
          exact (hany f1 h).1 (by rw [hf, e])
        refine ⟨r, ?_, fun h => ?_, fun h => ?_, fun h => ?_, fun h => ?_⟩
        · rw [json.decodeObject]
          simp only [hk, hf, e1]
          exact h1
        · rw [h2 (hany _ h).2, g1 (hne _ h)]
        · rw [h3 (hany _ h).2, g2 (hne _ h)]
        · rw [h4 (hany _ h).2, g3 (hne _ h)]
        · rw [h5 (hany _ h).2, g4 (hne _ h)]

theorem parse_ne_nil (data : Bytes) (v : json.Value) (h : json.parse data = some v) :
    data.length ≠ 0 := by
  intro h0
  have : data = [] := List.length_eq_zero.mp h0
  subst this
  simp [json.parse, json.skipSpace, json.parseValue] at h

theorem hex_gt (i : Nat) (h : i < 16) : 0x20 < (json.hex i).val := by
  interval_cases i <;> decide

theorem escapeASCII_bytes (b : Byte) (hb : b.val < 0x80) :
    ∀ c ∈ json.escapeASCII b, 0x20 < c.val := by
  intro c hc
  unfold json.escapeASCII at hc
  have h1 := hex_gt (b.val / 16) (by omega)
  have h2 := hex_gt (b.val % 16) (by omega)
  split_ifs at hc with c1
  · simp only [List.mem_cons, List.mem_singleton, List.not_mem_nil, or_false] at hc
    rcases hc with rfl | rfl
    · decide
    · omega
  all_goals
    simp only [List.mem_cons, List.mem_singleton, List.not_mem_nil, or_false] at hc
    rcases hc with rfl | rfl | rfl | rfl | rfl | rfl <;>
      first
        | exact (by decide)
        | exact h1
        | exact h2

/-- One iteration of the encoder loop writes no white space other than a
space that it copies from the input. -/
theorem loop_step_bytes (n : Nat) (b : Byte) (rest : Bytes) :
    ∃ chunk rest1,
      json.appendStringLoop (n + 1) (b :: rest) = chunk ++ json.appendStringLoop n rest1 ∧
      (∀ c ∈ chunk, 0x20 < c.val ∨ (c.val = 0x20 ∧ c = b)) ∧ (∀ x ∈ rest1, x ∈ rest) := by
  by_cases h80 : b.val < 0x80
  · cases hs : json.htmlSafeSet b
    · refine ⟨json.escapeASCII b, rest, ?_, fun c hc => Or.inl (escapeASCII_bytes b h80 c hc),
        fun x hx => hx⟩
      rw [json.appendStringLoop, if_pos h80, hs]
      simp
    · refine ⟨[b], rest, ?_, fun c hc => ?_, fun x hx => hx⟩
      swap
      · rw [List.mem_singleton] at hc
        subst hc
        simp only [json.htmlSafeSet, Bool.and_eq_true, decide_eq_true_eq] at hs
        have := hs.1.1.1.1.1.1
        by_cases h : 0x20 < c.val
        · exact Or.inl h
        · exact Or.inr ⟨by omega, rfl⟩
      rw [json.appendStringLoop, if_pos h80, hs]
      simp
  · rcases decode_cases b rest with hd | ⟨hlt, _⟩ | ⟨w, t1, r, hsplit, hlen, hw, hr, hdec, henc⟩
    · refine ⟨lit "\\ufffd", rest, ?_, ?_, fun x hx => hx⟩
      · rw [json.appendStringLoop, if_neg h80]
        simp only [decode_take4, hd]
        simp
      · intro c hc
        left
        have : (lit "\\ufffd").all (fun c => decide (0x20 < c.val)) = true := rfl
        exact of_decide_eq_true (List.all_eq_true.mp this c hc)
    · exact absurd hlt h80
    · have hd : utf8.DecodeRune (b :: rest) = (r, w.length) := by rw [hsplit]; exact hdec t1
      have hne : ¬ (r = utf8.RuneError ∧ w.length = 1) := by omega
      have htake : List.take w.length (b :: rest) = w := by rw [hsplit]; simp
      have hdrop : List.drop w.length (b :: rest) = t1 := by rw [hsplit]; simp
      have hmem : ∀ x ∈ t1, x ∈ rest := by
        intro x hx
        rcases w with _ | ⟨c, cs⟩
        · simp at hlen
        · rw [List.cons_append] at hsplit
          injection hsplit with _ h2
          rw [h2]
          exact List.mem_append_right _ hx
      by_cases h28 : r = 0x2028 ∨ r = 0x2029
      · refine ⟨lit "\\u202" ++ [json.hex (r % 16)], t1, ?_, ?_, hmem⟩
        · rw [json.appendStringLoop, if_neg h80]
          simp only [decode_take4, hd]
          rw [if_neg hne, if_pos h28, hdrop]
          simp
        · intro c hc
          left
          rcases List.mem_append.mp hc with hc | hc
          · have : (lit "\\u202").all (fun c => decide (0x20 < c.val)) = true := rfl
            exact of_decide_eq_true (List.all_eq_true.mp this c hc)
          · rw [List.mem_singleton] at hc
            rw [hc]
            exact hex_gt _ (by omega)
      · refine ⟨w, t1, ?_, fun c hc => Or.inl (by have := hw c hc; omega), hmem⟩
        rw [json.appendStringLoop, if_neg h80]
        simp only [decode_take4, hd]
        rw [if_neg hne, if_neg h28, htake, hdrop]

/-- The bytes between the quotes of an encoded string: none is a control
character, and a space is a space of the string itself. -/
theorem appendStringLoop_bytes (n : Nat) : ∀ (s : Bytes) (c : Byte),
    c ∈ json.appendStringLoop n s → 0x20 < c.val ∨ (c.val = 0x20 ∧ c ∈ s) := by
  induction n with
  | zero => intro s c hc; simp [json.appendStringLoop] at hc
  | succ n ih =>
    intro s c hc
    rcases s with _ | ⟨b, rest⟩
    · simp [json.appendStringLoop] at hc
    · obtain ⟨chunk, rest1, h1, h2, h3⟩ := loop_step_bytes n b rest
      rw [h1] at hc
      rcases List.mem_append.mp hc with hc | hc
      · rcases h2 c hc with h | h
        · exact Or.inl h
        · exact Or.inr ⟨h.1, by rw [h.2]; exact List.mem_cons_self _ _⟩
      · rcases ih rest1 c hc with h | ⟨h, hm⟩
        · exact Or.inl h
        · exact Or.inr ⟨h, List.mem_cons_of_mem _ (h3 c hm)⟩

theorem isSpace_of_gt (c : Byte) (h : 0x20 < c.val) : json.isSpace c = false := by
  simp only [json.isSpace, Bool.and_eq_false_imp, decide_eq_true_eq]
  intro h1
  omega

theorem isSpace_val (c : Byte) (h : json.isSpace c = true) : c.val ≤ 0x20 := by
  simp only [json.isSpace, Bool.and_eq_true, decide_eq_true_eq] at h
  exact h.1

/-- White space in a quoted string of the encoder is a space of the string. -/
theorem appendString_space (s : Bytes) (c : Byte) (hc : c ∈ json.appendString s)
    (hsp : json.isSpace c = true) : c.val = 0x20 ∧ c ∈ s := by
  have hle := isSpace_val c hsp
  simp only [json.appendString, List.mem_cons, List.mem_append, List.mem_singleton,
    List.not_mem_nil, or_false] at hc
  rcases hc with (rfl | hc) | rfl
  · exact absurd hsp (by decide)
  · rcases appendStringLoop_bytes _ s c hc with h | h
    · omega
    · exact h
  · exact absurd hsp (by decide)

theorem literal_not_space (l : Bytes) (hl : l.all (fun c => decide (0x20 < c.val)) = true)
    (c : Byte) (hc : c ∈ l) : json.isSpace c = false :=
  isSpace_of_gt c (of_decide_eq_true (List.all_eq_true.mp hl c hc))

/-- The only white space in the encoding of a record are the spaces of its
strings. -/
theorem encodeDID_space (r : DID) (c : Byte) (hc : c ∈ json.encodeDID r)
    (hsp : json.isSpace c = true) :
    c.val = 0x20 ∧ (c ∈ r.DID ∨ c ∈ r.Name ∨ c ∈ r.Credentials) := by
  simp only [json.encodeDID, List.mem_append] at hc
  have no : ∀ l : Bytes, c ∈ l → l.all (fun c => decide (0x20 < c.val)) = true → False := by
    intro l hm hl
    have := literal_not_space l hl c hm
    rw [hsp] at this
    exact Bool.noConfusion this
  rcases hc with (((((((h | h) | h) | h) | h) | h) | h) | h) | h
  · exact (no _ h rfl).elim
  · exact ⟨(appendString_space _ c h hsp).1, Or.inl (appendString_space _ c h hsp).2⟩
  · exact (no _ h rfl).elim
  · exact ⟨(appendString_space _ c h hsp).1, Or.inr (Or.inl (appendString_space _ c h hsp).2)⟩
  · exact (no _ h rfl).elim
  · exact ⟨(appendString_space _ c h hsp).1, Or.inr (Or.inr (appendString_space _ c h hsp).2)⟩
  · exact (no _ h rfl).elim
  · cases hv : r.Verified <;> rw [hv] at h
    · exact (no (lit "false") h rfl).elim
    · exact (no (lit "true") h rfl).elim
  · exact (no _ h rfl).elim

theorem lifeOf_congr (st st1 : Bytes → Option Bytes) (d : Bytes) (h : st1 d = st d) :
    lifeOf st1 d = lifeOf st d := by
  simp only [lifeOf, h]

theorem lifeOf_encoded (st : Bytes → Option Bytes) (d : Bytes) (r : DID)
    (h : st d = some (json.encodeDID r)) :
    lifeOf st d = some (if r.Verified then Life.verified else Life.unverified) := by
  simp only [lifeOf, h, Option.getD_some]
  rw [if_neg (by have := encodeDID_length_pos r; omega), Unmarshal_encodeDID]
  rfl

theorem lifeOf_absent (st : Bytes → Option Bytes) (d : Bytes)
    (h : ((st d).getD []).length = 0) : lifeOf st d = some Life.absent := by
  simp only [lifeOf, h, if_true]

theorem lifeOf_putAt (st : Bytes → Option Bytes) (d : Bytes) (r : DID) :
    lifeOf (putAt st d (json.encodeDID r)) d
      = some (if r.Verified then Life.verified else Life.unverified) :=
  lifeOf_encoded _ d r (by simp [putAt])

theorem lifeOf_ne (ctx : Stub) (op : Op) (d : Bytes) (h : d ≠ op.key) :
    lifeOf (op.run ctx).state d = lifeOf ctx.state d :=
  lifeOf_congr _ _ d (run_state_ne ctx op d (fun e => h e.symm))

/-- The abstract state of a key of a store whose values are encodings. -/
theorem lifeOf_cases (st : Bytes → Option Bytes) (h : Encoded st) (d : Bytes) :
    (st d = none ∧ lifeOf st d = some Life.absent) ∨
    (∃ r : DID, st d = some (json.encodeDID r) ∧
      lifeOf st d = some (if r.Verified then Life.verified else Life.unverified)) := by
  cases hs : st d with
  | none => left; exact ⟨rfl, lifeOf_absent st d (by simp [hs])⟩
  | some v =>
    right
    obtain ⟨r, rfl, _⟩ := h d v hs
    exact ⟨r, rfl, lifeOf_encoded st d r hs⟩

theorem lifecycle_refines (ctx : Stub) (op : Op) (hr : Reachable ctx.state)
    (hget : ctx.getErr op.key = none) (hput : ∀ v, ctx.putErr op.key v = none)
    (hdel : ctx.delErr op.key = none) :
    ∃ s, lifeOf ctx.state op.key = some s ∧
      (match specLifecycle op s with
       | some s1 => Op.succeeds ctx op = true ∧ lifeOf (op.run ctx).state op.key = some s1
       | none => Op.succeeds ctx op = false ∧ lifeOf (op.run ctx).state op.key = some s) := by
  have henc := reachable_encoded ctx.state hr
  rcases lifeOf_cases ctx.state henc op.key with ⟨hst, hl⟩ | ⟨r, hst, hl⟩
  · refine ⟨Life.absent, hl, ?_⟩
    have h0 : ((ctx.state op.key).getD []).length = 0 := by simp [hst]
    cases op with
    | CreateDID did name credentials =>
      obtain ⟨h1, h2, _⟩ := CreateDID_ok ctx did name credentials (Or.inl hst) hget (hput _)
      have h3 := lifeOf_putAt ctx.state did ⟨did, name, credentials, false⟩
      simp only [Op.key] at hl
      simp [specLifecycle, Op.succeeds, Op.run, Op.key, h1, h2, h3]
    | UpdateCredentials did c =>
      have h := (absent_NotFound ctx did h0 hget).1 c
      simp only [Op.key] at hl
      simp [specLifecycle, Op.succeeds, Op.run, Op.key, h, hl]
    | VerifyDID did =>
      have h := (absent_NotFound ctx did h0 hget).2.1
      simp only [Op.key] at hl
      simp [specLifecycle, Op.succeeds, Op.run, Op.key, h, hl]
    | RevokeDID did =>
      have h := (absent_NotFound ctx did h0 hget).2.2.1
      simp only [Op.key] at hl
      simp [specLifecycle, Op.succeeds, Op.run, Op.key, h, hl]
    | GetDID did =>
      have h := (absent_NotFound ctx did h0 hget).2.2.2
      simp only [Op.key] at hl
      simp [specLifecycle, Op.succeeds, Op.run, Op.key, h, hl]
  · refine ⟨_, hl, ?_⟩
    have hv : (json.encodeDID r).length ≠ 0 := by have := encodeDID_length_pos r; omega
    have hdec : json.Unmarshal (json.encodeDID r) zeroDID = .ok (coerceDID r) :=
      Unmarshal_encodeDID r zeroDID
    have hpos : ((ctx.state op.key).getD []).length > 0 := by
      rw [hst]; exact encodeDID_length_pos r
    cases op with
    | CreateDID did name credentials =>
      have h := CreateDID_present ctx did name credentials hpos hget
      simp only [Op.key] at hl
      cases hver : r.Verified <;> simp only [hver] at hl <;>
        simp [specLifecycle, Op.succeeds, Op.run, Op.key, h, hver, hl]
    | UpdateCredentials did c =>
      obtain ⟨h1, h2, _⟩ := UpdateCredentials_ok ctx did c _ _ hst hv hdec hget (hput _)
      have h3 := lifeOf_putAt ctx.state did { coerceDID r with Credentials := c }
      cases hver : r.Verified <;> simp only [coerceDID, hver] at h3 <;>
        simp [specLifecycle, Op.succeeds, Op.run, Op.key, h1, h2, hver, coerceDID, h3]
    | VerifyDID did =>
      obtain ⟨h1, h2, _⟩ := VerifyDID_ok ctx did _ _ hst hv hdec hget (hput _)
      have h3 := lifeOf_putAt ctx.state did { coerceDID r with Verified := true }
      cases hver : r.Verified <;>
        simp [specLifecycle, Op.succeeds, Op.run, Op.key, h1, h2, hver, h3]
    | RevokeDID did =>
      obtain ⟨h1, h2, _⟩ := RevokeDID_ok ctx did _ hst hv hget hdel
      have h3 : lifeOf (fun k => if k = did then none else ctx.state k) did
          = some Life.absent := lifeOf_absent _ _ (by simp)
      cases hver : r.Verified <;>
        simp [specLifecycle, Op.succeeds, Op.run, Op.key, h1, h2, hver, h3]
    | GetDID did =>
      have h := GetDID_present ctx did _ _ hst hv hdec hget
      simp only [Op.key] at hl
      cases hver : r.Verified <;> simp only [hver] at hl <;>
        simp [specLifecycle, Op.succeeds, Op.run, Op.key, h, hver, hl]

theorem succeeds_false (ctx : Stub) (op : Op) (h : Op.succeeds ctx op = false) :
    (op.run ctx).state = ctx.state := by
  cases op with
  | CreateDID did name credentials =>
    cases hr : (CreateDID ctx did name credentials).1 with
    | ok u => simp [Op.succeeds, hr] at h
    | error e => exact (error_state ctx did name credentials []).1 e hr
  | UpdateCredentials did c =>
    cases hr : (UpdateCredentials ctx did c).1 with
    | ok u => simp [Op.succeeds, hr] at h
    | error e => exact (error_state ctx did [] [] c).2.1 e hr
  | VerifyDID did =>
    cases hr : (VerifyDID ctx did).1 with
    | ok u => simp [Op.succeeds, hr] at h
    | error e => exact (error_state ctx did [] [] []).2.2.1 e hr
  | RevokeDID did =>
    cases hr : (RevokeDID ctx did).1 with
    | ok u => simp [Op.succeeds, hr] at h
    | error e => exact (error_state ctx did [] [] []).2.2.2.1 e hr
  | GetDID did =>
    cases hr : (GetDID ctx did).1 with
    | ok u => simp [Op.succeeds, hr] at h
    | error e => exact (error_state ctx did [] [] []).2.2.2.2 e hr

theorem lifeOf_decoded (st : Bytes → Option Bytes) (d : Bytes) (r : DID)
    (h0 : ((st d).getD []).length ≠ 0)
    (hu : json.Unmarshal ((st d).getD []) zeroDID = .ok r) :
    lifeOf st d = some (if r.Verified then Life.verified else Life.unverified) := by
  simp only [lifeOf, if_neg h0, hu]

theorem succeeds_true (ctx : Stub) (op : Op) (hr : Reachable ctx.state)
    (h : Op.succeeds ctx op = true) :
    ∃ s s1, lifeOf ctx.state op.key = some s ∧ specLifecycle op s = some s1 ∧
      lifeOf (op.run ctx).state op.key = some s1 := by
  have henc := reachable_encoded ctx.state hr
  cases op with
  | CreateDID did name credentials =>
    have hok : (CreateDID ctx did name credentials).1 = .ok () := by
      cases hr : (CreateDID ctx did name credentials).1 with
      | ok u => rfl
      | error e => simp [Op.succeeds, hr] at h
    rcases CreateDID_cases ctx did name credentials with
      ⟨_, _, h1⟩ | ⟨_, _, h1⟩ | ⟨_, h0, _⟩
    · rw [h1] at hok; exact Except.noConfusion hok
    · rw [h1] at hok; exact Except.noConfusion hok
    · refine ⟨Life.absent, Life.unverified, lifeOf_absent _ _ h0, rfl, ?_⟩
      simp only [Op.run, Op.key, (CreateDID_success_inv ctx did name credentials hok).2]
      exact lifeOf_putAt _ _ _
  | UpdateCredentials did c =>
    have hok : (UpdateCredentials ctx did c).1 = .ok () := by
      cases hr : (UpdateCredentials ctx did c).1 with
      | ok u => rfl
      | error e => simp [Op.succeeds, hr] at h
    obtain ⟨_, h0, r, hu, _, hs, _⟩ := UpdateCredentials_success_inv ctx did c hok
    refine ⟨_, (if r.Verified then Life.verified else Life.unverified),
      lifeOf_decoded _ did r h0 hu, ?_, ?_⟩
    · cases r.Verified <;> rfl
    · simp only [Op.run, Op.key, hs]
      exact lifeOf_putAt _ _ _
  | VerifyDID did =>
    have hok : (VerifyDID ctx did).1 = .ok () := by
      cases hr : (VerifyDID ctx did).1 with
      | ok u => rfl
      | error e => simp [Op.succeeds, hr] at h
    obtain ⟨_, h0, r, hu, _, hs, _⟩ := VerifyDID_success_inv ctx did hok
    refine ⟨_, Life.verified, lifeOf_decoded _ did r h0 hu, ?_, ?_⟩
    · cases r.Verified <;> rfl
    · simp only [Op.run, Op.key, hs]
      exact lifeOf_putAt _ _ _
  | RevokeDID did =>
    have hok : (RevokeDID ctx did).1 = .ok () := by
      cases hr : (RevokeDID ctx did).1 with
      | ok u => rfl
      | error e => simp [Op.succeeds, hr] at h
    obtain ⟨_, h0, _, hs, _⟩ := RevokeDID_success_inv ctx did hok
    rcases lifeOf_cases ctx.state henc did with ⟨hst, _⟩ | ⟨r, _, hl⟩
    · simp [hst] at h0
    · refine ⟨_, Life.absent, hl, ?_, ?_⟩
      · cases r.Verified <;> rfl
      · simp only [Op.run, Op.key, hs]
        exact lifeOf_absent _ _ (by simp [delAt])
  | GetDID did =>
    cases hr : (GetDID ctx did).1 with
    | error e => simp [Op.succeeds, hr] at h
    | ok r =>
      obtain ⟨_, h0, hu⟩ := GetDID_ok_inv ctx did r hr
      refine ⟨_, (if r.Verified then Life.verified else Life.unverified),
        lifeOf_decoded _ did r h0 hu, ?_, ?_⟩
      · cases r.Verified <;> rfl
      · simp only [Op.run, Op.key, GetDID_snd]
        exact lifeOf_decoded _ did r h0 hu

/-! ## Lemmas on what the scanner accepts and the decoder stores -/

theorem map_cons_some {o : Option (Bytes × Bytes)} {c : Byte} {l r : Bytes}
    (h : o.map (fun p => (c :: p.1, p.2)) = some (l, r)) :
    ∃ l1, l = c :: l1 ∧ o = some (l1, r) := by
  cases o with
  | none => simp at h
  | some p =>
    simp only [Option.map_some', Option.some.injEq, Prod.mk.injEq] at h
    obtain ⟨h1, h2⟩ := h
    exact ⟨p.1, h1.symm, by rw [← h2]⟩

/-- One step of the scanner inside a string literal, read backwards: the byte
read, the state it leads to, and the rest of the scan. -/
theorem scan_step (st : json.StringState) (c : Byte) (t l r : Bytes)
    (h : json.scanStringFrom st (c :: t) = some (l, r)) :
    (st = json.StringState.InString ∧ c.val = 0x22 ∧ l = [] ∧ r = t) ∨
    ∃ st1 l1, l = c :: l1 ∧ json.scanStringFrom st1 t = some (l1, r) ∧
      ((st = json.StringState.InString ∧ c.val = 0x5C ∧ st1 = json.StringState.InStringEsc) ∨
       (st = json.StringState.InString ∧ c.val ≠ 0x22 ∧ c.val ≠ 0x5C ∧ 0x20 ≤ c.val ∧
          st1 = json.StringState.InString) ∨
       (st = json.StringState.InStringEsc ∧
          (c.val = 0x62 ∨ c.val = 0x66 ∨ c.val = 0x6E ∨ c.val = 0x72 ∨ c.val = 0x74
            ∨ c.val = 0x5C ∨ c.val = 0x2F ∨ c.val = 0x22) ∧ st1 = json.StringState.InString) ∨
       (st = json.StringState.InStringEsc ∧ c.val = 0x75 ∧ st1 = json.StringState.InStringEscU) ∨
       (st = json.StringState.InStringEscU ∧ json.isHex c = true ∧
          st1 = json.StringState.InStringEscU1) ∨
       (st = json.StringState.InStringEscU1 ∧ json.isHex c = true ∧
          st1 = json.StringState.InStringEscU12) ∨
       (st = json.StringState.InStringEscU12 ∧ json.isHex c = true ∧
          st1 = json.StringState.InStringEscU123) ∨
       (st = json.StringState.InStringEscU123 ∧ json.isHex c = true ∧
          st1 = json.StringState.InString)) := by
  cases st with
  | InString =>
    rw [json.scanStringFrom] at h
    by_cases h1 : c.val = 0x22
    · rw [if_pos h1] at h
      simp only [Option.some.injEq, Prod.mk.injEq] at h
      exact Or.inl ⟨rfl, h1, h.1.symm, h.2.symm⟩
    · rw [if_neg h1] at h
      by_cases h2 : c.val = 0x5C
      · rw [if_pos h2] at h
        obtain ⟨l1, e1, e2⟩ := map_cons_some h
        exact Or.inr ⟨_, l1, e1, e2, Or.inl ⟨rfl, h2, rfl⟩⟩
      · rw [if_neg h2] at h
        by_cases h3 : c.val < 0x20
        · rw [if_pos h3] at h; exact Option.noConfusion h
        · rw [if_neg h3] at h
          obtain ⟨l1, e1, e2⟩ := map_cons_some h
          exact Or.inr ⟨_, l1, e1, e2, Or.inr (Or.inl ⟨rfl, h1, h2, by omega, rfl⟩)⟩
  | InStringEsc =>
    rw [json.scanStringFrom] at h
    split at h
    · rename_i h1
      obtain ⟨l1, e1, e2⟩ := map_cons_some h
      exact Or.inr ⟨_, l1, e1, e2, Or.inr (Or.inr (Or.inl ⟨rfl, h1, rfl⟩))⟩
    · split at h
      · rename_i h1 h2
        obtain ⟨l1, e1, e2⟩ := map_cons_some h
        exact Or.inr ⟨_, l1, e1, e2, Or.inr (Or.inr (Or.inr (Or.inl ⟨rfl, h2, rfl⟩)))⟩
      · exact Option.noConfusion h
  | InStringEscU =>
    rw [json.scanStringFrom] at h
    split at h
    · rename_i h1
      obtain ⟨l1, e1, e2⟩ := map_cons_some h
      exact Or.inr ⟨_, l1, e1, e2, Or.inr (Or.inr (Or.inr (Or.inr (Or.inl ⟨rfl, h1, rfl⟩))))⟩
    · exact Option.noConfusion h
  | InStringEscU1 =>
    rw [json.scanStringFrom] at h
    split at h
    · rename_i h1
      obtain ⟨l1, e1, e2⟩ := map_cons_some h
      exact Or.inr ⟨_, l1, e1, e2,
        Or.inr (Or.inr (Or.inr (Or.inr (Or.inr (Or.inl ⟨rfl, h1, rfl⟩)))))⟩
    · exact Option.noConfusion h
  | InStringEscU12 =>
    rw [json.scanStringFrom] at h
    split at h
    · rename_i h1
      obtain ⟨l1, e1, e2⟩ := map_cons_some h
      exact Or.inr ⟨_, l1, e1, e2,
        Or.inr (Or.inr (Or.inr (Or.inr (Or.inr (Or.inr (Or.inl ⟨rfl, h1, rfl⟩))))))⟩
    · exact Option.noConfusion h
  | InStringEscU123 =>
    rw [json.scanStringFrom] at h
    split at h
    · rename_i h1
      obtain ⟨l1, e1, e2⟩ := map_cons_some h
      exact Or.inr ⟨_, l1, e1, e2,
        Or.inr (Or.inr (Or.inr (Or.inr (Or.inr (Or.inr (Or.inr ⟨rfl, h1, rfl⟩))))))⟩
    · exact Option.noConfusion h

theorem scan_nil (st : json.StringState) : json.scanStringFrom st [] = none := by
  cases st <;> rfl

/-- What the scanner returns for a string literal is the input up to the
closing quote and the input after it. -/
theorem scan_prefix : ∀ (s : Bytes) (st : json.StringState) (l r : Bytes),
    json.scanStringFrom st s = some (l, r) → s = l ++ 0x22 :: r := by
  intro s
  induction s with
  | nil => intro st l r h; rw [scan_nil] at h; exact Option.noConfusion h
  | cons c t ih =>
    intro st l r h
    rcases scan_step st c t l r h with ⟨_, h1, h2, h3⟩ | ⟨st1, l1, e1, e2, _⟩
    · subst h2; subst h3
      have : c = 0x22 := Fin.ext h1
      rw [this]; rfl
    · subst e1
      rw [ih st1 l1 r e2]; rfl

theorem hexValue_of_isHex (c : Byte) (h : json.isHex c = true) : ∃ d, json.hexValue c = some d := by
  simp only [json.isHex, Bool.or_eq_true, Bool.and_eq_true, decide_eq_true_eq] at h
  unfold json.hexValue
  split
  · exact ⟨_, rfl⟩
  · split
    · exact ⟨_, rfl⟩
    · split
      · exact ⟨_, rfl⟩
      · omega

theorem getu4_some (s : Bytes) (x : Nat) (h : json.getu4 s = some x) :
    ∃ c0 c1 h1 h2 h3 h4 t, s = c0 :: c1 :: h1 :: h2 :: h3 :: h4 :: t ∧
      c0.val = 0x5C ∧ c1.val = 0x75 := by
  rcases s with _ | ⟨c0, _ | ⟨c1, _ | ⟨h1, _ | ⟨h2, _ | ⟨h3, _ | ⟨h4, t⟩⟩⟩⟩⟩⟩ <;>
    try (simp [json.getu4] at h)
  refine ⟨c0, c1, h1, h2, h3, h4, t, rfl, ?_⟩
  by_cases hc : c0.val = 0x5C ∧ c1.val = 0x75
  · exact hc
  · simp [json.getu4, hc] at h

theorem getu4_hex (c e h1 h2 h3 h4 : Byte) (t : Bytes) (hc : c.val = 0x5C) (he : e.val = 0x75)
    (k1 : json.isHex h1 = true) (k2 : json.isHex h2 = true) (k3 : json.isHex h3 = true)
    (k4 : json.isHex h4 = true) :
    ∃ x, json.getu4 (c :: e :: h1 :: h2 :: h3 :: h4 :: t) = some x := by
  obtain ⟨d1, e1⟩ := hexValue_of_isHex h1 k1
  obtain ⟨d2, e2⟩ := hexValue_of_isHex h2 k2
  obtain ⟨d3, e3⟩ := hexValue_of_isHex h3 k3
  obtain ⟨d4, e4⟩ := hexValue_of_isHex h4 k4
  exact ⟨((d1 * 16 + d2) * 16 + d3) * 16 + d4, by simp [json.getu4, hc, he, e1, e2, e3, e4]⟩

/-- The escape `\uXXXX` in `unquoteBytes`: it is undone, and the loop goes on
after it, or after the low surrogate that follows it. -/
theorem unquoteStep_escU (c e h1 h2 h3 h4 : Byte) (l6 : Bytes) (hc : c.val = 0x5C)
    (he : e.val = 0x75)
    (k1 : json.isHex h1 = true) (k2 : json.isHex h2 = true) (k3 : json.isHex h3 = true)
    (k4 : json.isHex h4 = true) :
    ∃ out rest, json.unquoteStep c (e :: h1 :: h2 :: h3 :: h4 :: l6) = some (out, rest) ∧
      (rest = l6 ∨ (rest = l6.drop 6 ∧ ∃ x, json.getu4 l6 = some x)) := by
  obtain ⟨x, hx⟩ := getu4_hex c e h1 h2 h3 h4 l6 hc he k1 k2 k3 k4
  rw [json.unquoteStep, if_pos hc]
  simp only []
  rw [if_neg (by omega), if_neg (by omega), if_neg (by omega), if_neg (by omega),
    if_neg (by omega), if_neg (by omega), if_pos he, hx]
  simp only [List.drop_succ_cons, List.drop_zero]
  by_cases hs : json.IsSurrogate x = true
  · rw [if_pos hs]
    by_cases hd : json.utf16DecodeRune x (json.getu4 l6) ≠ 0xFFFD
    · rw [if_pos hd]
      refine ⟨_, _, rfl, Or.inr ⟨rfl, ?_⟩⟩
      cases hg : json.getu4 l6 with
      | none => rw [hg] at hd; simp [json.utf16DecodeRune] at hd
      | some y => exact ⟨y, rfl⟩
    · rw [if_neg hd]
      exact ⟨_, _, rfl, Or.inl rfl⟩
  · rw [if_neg hs]
    exact ⟨_, _, rfl, Or.inl rfl⟩

theorem unquoteStep_simple (c e : Byte) (t : Bytes) (hc : c.val = 0x5C)
    (he : e.val = 0x62 ∨ e.val = 0x66 ∨ e.val = 0x6E ∨ e.val = 0x72 ∨ e.val = 0x74
            ∨ e.val = 0x5C ∨ e.val = 0x2F ∨ e.val = 0x22) :
    ∃ out, json.unquoteStep c (e :: t) = some (out, t) := by
  rw [json.unquoteStep, if_pos hc]
  simp only []
  by_cases h1 : e.val = 0x22 ∨ e.val = 0x5C ∨ e.val = 0x2F ∨ e.val = 0x27
  · rw [if_pos h1]; exact ⟨_, rfl⟩
  · rw [if_neg h1]
    by_cases h2 : e.val = 0x62
    · rw [if_pos h2]; exact ⟨_, rfl⟩
    · rw [if_neg h2]
      by_cases h3 : e.val = 0x66
      · rw [if_pos h3]; exact ⟨_, rfl⟩
      · rw [if_neg h3]
        by_cases h4 : e.val = 0x6E
        · rw [if_pos h4]; exact ⟨_, rfl⟩
        · rw [if_neg h4]
          by_cases h5 : e.val = 0x72
          · rw [if_pos h5]; exact ⟨_, rfl⟩
          · rw [if_neg h5]
            by_cases h6 : e.val = 0x74
            · rw [if_pos h6]; exact ⟨_, rfl⟩
            · omega

theorem scan_hex (st st1 : json.StringState) (s l r : Bytes)
    (hst : st = json.StringState.InStringEscU ∧ st1 = json.StringState.InStringEscU1 ∨
      st = json.StringState.InStringEscU1 ∧ st1 = json.StringState.InStringEscU12 ∨
      st = json.StringState.InStringEscU12 ∧ st1 = json.StringState.InStringEscU123 ∨
      st = json.StringState.InStringEscU123 ∧ st1 = json.StringState.InString)
    (h : json.scanStringFrom st s = some (l, r)) :
    ∃ c s1 l1, s = c :: s1 ∧ l = c :: l1 ∧ json.isHex c = true ∧
      json.scanStringFrom st1 s1 = some (l1, r) := by
  cases s with
  | nil => rw [scan_nil] at h; exact Option.noConfusion h
  | cons c s1 =>
    rcases scan_step st c s1 l r h with ⟨h0, _⟩ | ⟨st2, l1, e1, e2, hc⟩
    · rcases hst with ⟨a, _⟩ | ⟨a, _⟩ | ⟨a, _⟩ | ⟨a, _⟩ <;> rw [a] at h0 <;>
        exact json.StringState.noConfusion h0
    · refine ⟨c, s1, l1, rfl, e1, ?_⟩
      rcases hst with ⟨a, b⟩ | ⟨a, b⟩ | ⟨a, b⟩ | ⟨a, b⟩ <;> subst a <;> subst b <;>
        simp at hc <;> exact ⟨hc.1, hc.2 ▸ e2⟩

/-- The scanner after `\u`: four hexadecimal digits, then the string goes on. -/
theorem scan_hex4 (s l r : Bytes)
    (h : json.scanStringFrom json.StringState.InStringEscU s = some (l, r)) :
    ∃ h1 h2 h3 h4 s6 l6, s = h1 :: h2 :: h3 :: h4 :: s6 ∧ l = h1 :: h2 :: h3 :: h4 :: l6 ∧
      json.isHex h1 = true ∧ json.isHex h2 = true ∧ json.isHex h3 = true ∧
      json.isHex h4 = true ∧ json.scanStringFrom json.StringState.InString s6 = some (l6, r) := by
  obtain ⟨h1, s1, l1, rfl, rfl, k1, e1⟩ := scan_hex _ _ s l r (Or.inl ⟨rfl, rfl⟩) h
  obtain ⟨h2, s2, l2, rfl, rfl, k2, e2⟩ := scan_hex _ _ s1 l1 r (Or.inr (Or.inl ⟨rfl, rfl⟩)) e1
  obtain ⟨h3, s3, l3, rfl, rfl, k3, e3⟩ :=
    scan_hex _ _ s2 l2 r (Or.inr (Or.inr (Or.inl ⟨rfl, rfl⟩))) e2
  obtain ⟨h4, s4, l4, rfl, rfl, k4, e4⟩ :=
    scan_hex _ _ s3 l3 r (Or.inr (Or.inr (Or.inr ⟨rfl, rfl⟩))) e3
  exact ⟨h1, h2, h3, h4, s4, l4, rfl, rfl, k1, k2, k3, k4, e4⟩

/-- The scanner at a backslash: a one-letter escape or `\uXXXX`, then the
string goes on. -/
theorem scan_escape (c : Byte) (s l r : Bytes) (hc : c.val = 0x5C)
    (h : json.scanStringFrom json.StringState.InString (c :: s) = some (l, r)) :
    (∃ e s2 l2, s = e :: s2 ∧ l = c :: e :: l2 ∧
      (e.val = 0x62 ∨ e.val = 0x66 ∨ e.val = 0x6E ∨ e.val = 0x72 ∨ e.val = 0x74
        ∨ e.val = 0x5C ∨ e.val = 0x2F ∨ e.val = 0x22) ∧
      json.scanStringFrom json.StringState.InString s2 = some (l2, r)) ∨
    (∃ e h1 h2 h3 h4 s6 l6, s = e :: h1 :: h2 :: h3 :: h4 :: s6 ∧
      l = c :: e :: h1 :: h2 :: h3 :: h4 :: l6 ∧ e.val = 0x75 ∧
      json.isHex h1 = true ∧ json.isHex h2 = true ∧ json.isHex h3 = true ∧
      json.isHex h4 = true ∧ json.scanStringFrom json.StringState.InString s6 = some (l6, r)) := by
  rcases scan_step _ c s l r h with ⟨_, h0, _⟩ | ⟨st1, l1, e1, e2, hcase⟩
  · omega
  · have hst : st1 = json.StringState.InStringEsc := by
      rcases hcase with ⟨_, _, a⟩ | ⟨_, _, a, _⟩ | ⟨a, _⟩ | ⟨a, _⟩ | ⟨a, _⟩ | ⟨a, _⟩ | ⟨a, _⟩ |
        ⟨a, _⟩
      · exact a
      · exact absurd hc a
      all_goals exact json.StringState.noConfusion a
    subst hst
    cases s with
    | nil => rw [scan_nil] at e2; exact Option.noConfusion e2
    | cons e s2 =>
      rcases scan_step _ e s2 l1 r e2 with ⟨a, _⟩ | ⟨st2, l2, f1, f2, hcase2⟩
      · exact json.StringState.noConfusion a
      · rcases hcase2 with ⟨a, _⟩ | ⟨a, _⟩ | ⟨_, he, a⟩ | ⟨_, he, a⟩ | ⟨a, _⟩ | ⟨a, _⟩ | ⟨a, _⟩ |
          ⟨a, _⟩
        · exact json.StringState.noConfusion a
        · exact json.StringState.noConfusion a
        · subst a
          left
          exact ⟨e, s2, l2, rfl, by rw [e1, f1], he, f2⟩
        · subst a
          right
          obtain ⟨h1, h2, h3, h4, s6, l6, g1, g2, k1, k2, k3, k4, g3⟩ := scan_hex4 s2 l2 r f2
          exact ⟨e, h1, h2, h3, h4, s6, l6, by rw [g1], by rw [e1, f1, g2], he, k1, k2, k3, k4, g3⟩
        all_goals exact json.StringState.noConfusion a

/-- Bytes from `0x80` on are part of the string for the scanner. -/
theorem scan_high : ∀ (w y : Bytes), (∀ b ∈ w, 0x80 ≤ b.val) →
    json.scanStringFrom json.StringState.InString (w ++ y)
      = (json.scanStringFrom json.StringState.InString y).map (fun p => (w ++ p.1, p.2)) := by
  intro w
  induction w with
  | nil =>
    intro y _
    rw [List.nil_append]
    cases h : json.scanStringFrom json.StringState.InString y <;> rfl
  | cons b w ih =>
    intro y hw
    have hb := hw b (List.mem_cons_self _ _)
    rw [List.cons_append, json.scanStringFrom, if_neg (by omega), if_neg (by omega),
      if_neg (by omega), ih y (fun b1 h1 => hw b1 (List.mem_cons_of_mem _ h1))]
    cases h : json.scanStringFrom json.StringState.InString y <;> rfl

theorem unquoteBytes_step (n : Nat) (c : Byte) (t out rest o : Bytes)
    (h1 : json.unquoteStep c t = some (out, rest)) (h2 : json.unquoteBytes n rest = some o) :
    json.unquoteBytes (n + 1) (c :: t) = some (out ++ o) := by
  rw [json.unquoteBytes, h1]
  simp only [h2, Option.map_some']

theorem unquoteBytes_nil (n : Nat) : json.unquoteBytes n [] = some [] := by
  cases n <;> rfl

/-- A string literal that the scanner has accepted unquotes. -/
theorem unquoteBytes_scanned : ∀ (n : Nat) (s l r : Bytes), l.length ≤ n →
    json.scanStringFrom json.StringState.InString s = some (l, r) →
    ∃ out, json.unquoteBytes n l = some out := by
  intro n
  induction n using Nat.strong_induction_on with
  | _ n ih =>
    intro s l r hl h
    cases s with
    | nil => rw [scan_nil] at h; exact Option.noConfusion h
    | cons c x =>
      by_cases hc : c.val = 0x5C
      · rcases scan_escape c x l r hc h with
          ⟨e, s2, l2, _, rfl, he, h2⟩ |
          ⟨e, h1, h2, h3, h4, s6, l6, _, rfl, he, k1, k2, k3, k4, h6⟩
        · cases n with
          | zero => simp at hl
          | succ n =>
            obtain ⟨out, ho⟩ := unquoteStep_simple c e l2 hc he
            obtain ⟨o, hr⟩ := ih n (by omega) s2 l2 r (by simp at hl; omega) h2
            exact ⟨_, unquoteBytes_step n c _ out l2 o ho hr⟩
        · cases n with
          | zero => simp at hl
          | succ n =>
            obtain ⟨out, rest, ho, hrest⟩ := unquoteStep_escU c e h1 h2 h3 h4 l6 hc he k1 k2 k3 k4
            simp only [List.length_cons] at hl
            rcases hrest with rfl | ⟨rfl, y, hy⟩
            · obtain ⟨o, hr⟩ := ih n (by omega) s6 rest r (by omega) h6
              exact ⟨_, unquoteBytes_step n c _ out rest o ho hr⟩
            · obtain ⟨c0, c1, g1, g2, g3, g4, t, rfl, hc0, hc1⟩ := getu4_some l6 y hy
              have hs6 := scan_prefix s6 _ _ _ h6
              rw [hs6] at h6
              rcases scan_escape c0 _ _ r hc0 h6 with
                ⟨e1, s2, l2, a1, a2, ae, _⟩ |
                ⟨e1, j1, j2, j3, j4, s12, l12, a1, a2, _, _, _, _, _, a3⟩
              · injection a2 with _ a2
                injection a2 with a2 _
                subst a2
                omega
              · have hl12 : l12 = t := by
                  injection a2 with _ a2
                  injection a2 with _ a2
                  injection a2 with _ a2
                  injection a2 with _ a2
                  injection a2 with _ a2
                  injection a2 with _ a2
                  exact a2.symm
                subst hl12
                simp only [List.length_cons] at hl
                obtain ⟨o, hr⟩ := ih n (by omega) s12 l12 r (by omega) a3
                exact ⟨_, unquoteBytes_step n c _ out _ o ho (by simpa using hr)⟩
      · rcases scan_step _ c x l r h with ⟨_, _, rfl, _⟩ | ⟨st1, l1, rfl, e2, hcase⟩
        · exact ⟨[], unquoteBytes_nil n⟩
        · have hn : c.val ≠ 0x22 ∧ 0x20 ≤ c.val ∧ st1 = json.StringState.InString := by
            rcases hcase with ⟨_, a, _⟩ | ⟨_, a, _, b, d⟩ | ⟨a, _⟩ | ⟨a, _⟩ | ⟨a, _⟩ | ⟨a, _⟩ |
              ⟨a, _⟩ | ⟨a, _⟩
            · exact absurd a hc
            · exact ⟨a, b, d⟩
            all_goals exact json.StringState.noConfusion a
          obtain ⟨hq, h20, rfl⟩ := hn
          cases n with
          | zero => simp at hl
          | succ n =>
            simp only [List.length_cons] at hl
            have hstep0 : json.unquoteStep c l1
                = if c.val < 0x80 then some ([c], l1)
                  else some (utf8.AppendRune (utf8.DecodeRune (c :: l1)).1,
                    (c :: l1).drop (utf8.DecodeRune (c :: l1)).2) := by
              unfold json.unquoteStep
              rw [if_neg hc, if_neg (by omega)]
            by_cases h80 : c.val < 0x80
            · rw [if_pos h80] at hstep0
              obtain ⟨o, hr⟩ := ih n (by omega) x l1 r (by omega) e2
              exact ⟨_, unquoteBytes_step n c _ _ _ o hstep0 hr⟩
            · rw [if_neg h80] at hstep0
              rcases decode_cases c l1 with hd | ⟨hlt, _⟩ | ⟨w, t1, rr, hw, hw2, hwb, _, hdec, _⟩
              · rw [hd] at hstep0
                obtain ⟨o, hr⟩ := ih n (by omega) x l1 r (by omega) e2
                exact ⟨_, unquoteBytes_step n c _ _ _ o hstep0 (by simpa using hr)⟩
              · exact absurd hlt h80
              · have hsx := scan_prefix _ _ _ _ h
                rw [hw, hdec t1] at hstep0
                simp only [List.drop_left'] at hstep0
                have hsc : json.scanStringFrom json.StringState.InString (t1 ++ 0x22 :: r)
                    = some (t1, r) := by
                  rw [hsx, hw, List.append_assoc, scan_high w _ hwb] at h
                  cases hq1 : json.scanStringFrom json.StringState.InString (t1 ++ 0x22 :: r) with
                  | none => rw [hq1] at h; exact Option.noConfusion h
                  | some p =>
                    rw [hq1] at h
                    simp only [Option.map_some', Option.some.injEq, Prod.mk.injEq] at h
                    obtain ⟨p1, p2⟩ := h
                    have := List.append_cancel_left p1
                    rw [← this, ← p2]
                have hlen : t1.length ≤ n := by
                  have := congrArg List.length hw
                  simp only [List.length_cons, List.length_append] at this
                  omega
                obtain ⟨o, hr⟩ := ih n (by omega) _ t1 r hlen hsc
                exact ⟨_, unquoteBytes_step n c _ _ _ o hstep0 hr⟩

theorem unquote_scanned (s l r : Bytes) (h : json.scanString s = some (l, r)) :
    ∃ out, json.unquote l = some out :=
  unquoteBytes_scanned l.length s l r (Nat.le_refl _) h

/-- A string value that the scanner has read unquotes. -/
theorem parseValue_string (n depth : Nat) (s l r : Bytes)
    (h : json.parseValue n depth s = some (json.Value.string l, r)) :
    ∃ out, json.unquote l = some out := by
  cases n with
  | zero => rw [json.parseValue] at h; exact Option.noConfusion h
  | succ n =>
    cases s with
    | nil => rw [json.parseValue] at h; exact Option.noConfusion h
    | cons c t =>
      rw [json.parseValue] at h
      split at h
      · split at h
        · split at h
          · split at h
            · simp at h
            · simp [Option.map_eq_some'] at h
          · simp at h
        · simp at h
      · split at h
        · split at h
          · split at h
            · split at h
              · simp at h
              · simp [Option.map_eq_some'] at h
            · simp at h
          · simp at h
        · split at h
          · obtain ⟨p, hp, he⟩ := Option.map_eq_some'.mp h
            simp only [Prod.mk.injEq, json.Value.string.injEq] at he
            obtain ⟨out, ho⟩ := unquote_scanned t p.1 p.2 hp
            exact ⟨out, by rw [← he.1]; exact ho⟩
          · split at h
            · simp [Option.map_eq_some'] at h
            · split at h
              · simp [Option.map_eq_some'] at h
              · split at h
                · simp [Option.map_eq_some'] at h
                · simp [Option.map_eq_some'] at h

theorem member_unquote (key : Bytes) (v : json.Value) (t r1 : Bytes) (n depth : Nat)
    (s2 r2 : Bytes) (hk : json.scanString t = some (key, r1))
    (hv : json.parseValue n depth s2 = some (v, r2)) :
    (∃ k, json.unquote (key, v).1 = some k) ∧
      ∀ l, (key, v).2 = json.Value.string l → ∃ out, json.unquote l = some out := by
  refine ⟨unquote_scanned t key r1 hk, fun l hl => ?_⟩
  simp only at hl
  rw [hl] at hv
  exact parseValue_string n depth s2 l r2 hv

/-- The keys and the string values of the members that the scanner has read
unquote. -/
theorem parseMembers_unquote : ∀ (n depth : Nat) (s : Bytes) (ms : List (Bytes × json.Value))
    (r : Bytes), json.parseMembers n depth s = some (ms, r) →
    ∀ m ∈ ms, (∃ k, json.unquote m.1 = some k) ∧
      ∀ l, m.2 = json.Value.string l → ∃ out, json.unquote l = some out := by
  intro n
  induction n with
  | zero => intro depth s ms r h; rw [json.parseMembers] at h; exact Option.noConfusion h
  | succ n ih =>
    intro depth s ms r h
    cases s with
    | nil => rw [json.parseMembers] at h; exact Option.noConfusion h
    | cons c t =>
      rw [json.parseMembers] at h
      · split at h
        · split at h
          · rename_i key r1 hk
            split at h
            · split at h
              · split at h
                · rename_i v r2 hv
                  split at h
                  · split at h
                    · obtain ⟨p, hp, he⟩ := Option.map_eq_some'.mp h
                      simp only [Prod.mk.injEq] at he
                      intro m hm
                      rw [← he.1] at hm
                      rcases List.mem_cons.mp hm with rfl | hm
                      · exact member_unquote key v _ r1 n depth _ r2 hk hv
                      · exact ih depth _ p.1 p.2 hp m hm
                    · split at h
                      · simp only [Option.some.injEq, Prod.mk.injEq] at h
                        intro m hm
                        rw [← h.1] at hm
                        rcases List.mem_singleton.mp hm with rfl
                        exact member_unquote key v _ r1 n depth _ r2 hk hv
                      · exact Option.noConfusion h
                  · exact Option.noConfusion h
                · exact Option.noConfusion h
              · exact Option.noConfusion h
            · exact Option.noConfusion h
          · exact Option.noConfusion h
        · exact Option.noConfusion h

/-- The members of an object that `Unmarshal` has read: keys and string values
unquote. -/
theorem parse_object_unquote (data : Bytes) (ms : List (Bytes × json.Value))
    (h : json.parse data = some (json.Value.object ms)) :
    ∀ m ∈ ms, (∃ k, json.unquote m.1 = some k) ∧
      ∀ l, m.2 = json.Value.string l → ∃ out, json.unquote l = some out := by
  unfold json.parse at h
  split at h
  · rename_i v r hv
    split at h
    · simp only [Option.some.injEq] at h
      subst h
      cases hs : json.skipSpace data with
      | nil => rw [hs, json.parseValue] at hv; exact Option.noConfusion hv
      | cons c t =>
        rw [hs, json.parseValue] at hv
        split at hv
        · split at hv
          · split at hv
            · split at hv
              · simp only [Option.some.injEq, Prod.mk.injEq, json.Value.object.injEq] at hv
                intro m hm
                rw [← hv.1] at hm
                exact absurd hm (List.not_mem_nil m)
              · obtain ⟨p, hp, he⟩ := Option.map_eq_some'.mp hv
                simp only [Prod.mk.injEq, json.Value.object.injEq] at he
                rw [← he.1]
                exact parseMembers_unquote _ _ _ p.1 p.2 hp
            · exact Option.noConfusion hv
          · exact Option.noConfusion hv
        · split at hv
          · split at hv
            · split at hv
              · split at hv
                · simp at hv
                · simp [Option.map_eq_some'] at hv
              · simp at hv
            · simp at hv
          · split at hv
            · simp [Option.map_eq_some'] at hv
            · split at hv
              · simp [Option.map_eq_some'] at hv
              · split at hv
                · simp [Option.map_eq_some'] at hv
                · split at hv
                  · simp [Option.map_eq_some'] at hv
                  · simp [Option.map_eq_some'] at hv
    · exact Option.noConfusion h
  · exact Option.noConfusion h

/-- A member whose key and string value unquote fits when its value is not of
the wrong type. -/
theorem memberOK_of_scanned (m : Bytes × json.Value)
    (hk : ∃ k, json.unquote m.1 = some k)
    (hv : ∀ l, m.2 = json.Value.string l → ∃ out, json.unquote l = some out)
    (hw : json.wrongType m = false) : json.memberOK m = true := by
  obtain ⟨k, val⟩ := m
  obtain ⟨key, hkey⟩ := hk
  simp only at hkey hv
  simp only [json.wrongType, hkey] at hw
  simp only [json.memberOK, hkey]
  cases hf : json.lookupField key with
  | none => rfl
  | some f =>
    rw [hf] at hw
    simp only at hw ⊢
    cases val with
    | null => cases f <;> rfl
    | bool b => cases f <;> first | rfl | exact absurd hw (by simp)
    | number => cases f <;> exact absurd hw (by simp)
    | array => cases f <;> exact absurd hw (by simp)
    | object os => cases f <;> exact absurd hw (by simp)
    | string l =>
      obtain ⟨out, ho⟩ := hv l rfl
      cases f <;> first | (simp [ho]; done) | exact absurd hw (by simp)

/-- An object with a member of the wrong type does not decode. -/
theorem decodeObject_wrongType : ∀ (ms : List (Bytes × json.Value)) (v : DID),
    (∀ m ∈ ms, (∃ k, json.unquote m.1 = some k) ∧
      ∀ l, m.2 = json.Value.string l → ∃ out, json.unquote l = some out) →
    (∃ m ∈ ms, json.wrongType m = true) →
    json.decodeObject ms v = .error json.DecodeError.UnmarshalTypeError := by
  intro ms
  induction ms with
  | nil => intro v _ h; obtain ⟨m, hm, _⟩ := h; exact absurd hm (List.not_mem_nil m)
  | cons m0 ms ih =>
    intro v hs hw
    obtain ⟨k, val⟩ := m0
    obtain ⟨⟨key, hkey⟩, hval⟩ := hs (k, val) (List.mem_cons_self _ _)
    simp only at hkey hval
    have hs1 : ∀ m ∈ ms, (∃ k, json.unquote m.1 = some k) ∧
        ∀ l, m.2 = json.Value.string l → ∃ out, json.unquote l = some out :=
      fun m hm => hs m (List.mem_cons_of_mem _ hm)
    have tail : json.wrongType (k, val) = false → ∃ m ∈ ms, json.wrongType m = true := by
      intro h0
      obtain ⟨m, hm, hmw⟩ := hw
      rcases List.mem_cons.mp hm with rfl | hm
      · rw [h0] at hmw; exact Bool.noConfusion hmw
      · exact ⟨m, hm, hmw⟩
    rw [json.decodeObject, hkey]
    simp only []
    cases hf : json.lookupField key with
    | none =>
      simp only []
      exact ih v hs1 (tail (by simp [json.wrongType, hkey, hf]))
    | some f =>
      simp only []
      cases hsf : json.storeField f val v with
      | ok v1 =>
        simp only []
        refine ih v1 hs1 (tail ?_)
        simp only [json.wrongType, hkey, hf]
        cases val <;> cases f <;> first | rfl | simp [json.storeField] at hsf
      | error e =>
        simp only []
        cases val with
        | null => cases f <;> simp [json.storeField] at hsf
        | bool b => cases f <;> simp [json.storeField] at hsf <;> rw [hsf]
        | number => cases f <;> simp [json.storeField] at hsf <;> rw [hsf]
        | array => cases f <;> simp [json.storeField] at hsf <;> rw [hsf]
        | object os => cases f <;> simp [json.storeField] at hsf <;> rw [hsf]
        | string l =>
          obtain ⟨out, ho⟩ := hval l rfl
          cases f <;> simp [json.storeField, ho] at hsf
          rw [hsf]

/-- The cases of `Unmarshal` by the JSON value read: a syntax error when the
input is not one JSON value, no change for `null`, the members for an object,
and a type error for a boolean, a number, a string or an array. -/
theorem Unmarshal_cases (data : Bytes) (v : DID) :
    (json.parse data = none → json.Unmarshal data v = .error json.DecodeError.SyntaxError) ∧
    (json.parse data = some json.Value.null → json.Unmarshal data v = .ok v) ∧
    (∀ ms, json.parse data = some (json.Value.object ms) →
      json.Unmarshal data v = json.decodeObject ms v) ∧
    (∀ b, json.parse data = some (json.Value.bool b) →
      json.Unmarshal data v = .error json.DecodeError.UnmarshalTypeError) ∧
    (json.parse data = some json.Value.number →
      json.Unmarshal data v = .error json.DecodeError.UnmarshalTypeError) ∧
    (∀ l, json.parse data = some (json.Value.string l) →
      json.Unmarshal data v = .error json.DecodeError.UnmarshalTypeError) ∧
    (json.parse data = some json.Value.array →
      json.Unmarshal data v = .error json.DecodeError.UnmarshalTypeError) := by
  refine ⟨fun h => ?_, fun h => ?_, fun ms h => ?_, fun b h => ?_, fun h => ?_, fun l h => ?_,
    fun h => ?_⟩ <;> rw [json.Unmarshal, h]

/-- Remark on the encoder of Go 1.22, which writes the escape `\ufffd` for a
byte that is not valid UTF-8: for a record encoded with the name `FF`,
`VerifyDID` leaves the encoding of the decoded record (name U+FFFD, written as
the bytes `EF BF BD`), and these bytes differ from the encoding of the record
with the name `FF` and `verified = true`.  An encoder that writes the bytes of
U+FFFD for an invalid byte makes the two equal. -/
theorem VerifyDID_escape_rewritten :
    (VerifyDID (Stub.reliable (putAt emptyState (lit "d")
        (json.encodeDID ⟨lit "d", [0xFF], lit "c", false⟩))) (lit "d")).1 = .ok () ∧
    (VerifyDID (Stub.reliable (putAt emptyState (lit "d")
        (json.encodeDID ⟨lit "d", [0xFF], lit "c", false⟩))) (lit "d")).2.state (lit "d")
      = some (json.encodeDID ⟨lit "d", [0xEF, 0xBF, 0xBD], lit "c", true⟩) ∧
    (VerifyDID (Stub.reliable (putAt emptyState (lit "d")
        (json.encodeDID ⟨lit "d", [0xFF], lit "c", false⟩))) (lit "d")).2.state (lit "d")
      ≠ some (json.encodeDID ⟨lit "d", [0xFF], lit "c", true⟩) := by
  obtain ⟨h1, h2, _, _, _⟩ := VerifyDID_ok
    (Stub.reliable (putAt emptyState (lit "d") (json.encodeDID ⟨lit "d", [0xFF], lit "c", false⟩)))
    (lit "d") _ (coerceDID ⟨lit "d", [0xFF], lit "c", false⟩)
    (putAt_same emptyState (lit "d") _)
    (by have := encodeDID_length_pos ⟨lit "d", [0xFF], lit "c", false⟩; omega)
    (Unmarshal_encodeDID _ zeroDID) rfl rfl
  have hs : (VerifyDID (Stub.reliable (putAt emptyState (lit "d")
        (json.encodeDID ⟨lit "d", [0xFF], lit "c", false⟩))) (lit "d")).2.state (lit "d")
      = some (json.encodeDID ⟨lit "d", [0xEF, 0xBF, 0xBD], lit "c", true⟩) := by
    rw [h2, putAt_same]
    have hc : ({ coerceDID ⟨lit "d", [0xFF], lit "c", false⟩ with Verified := true } : DID)
        = ⟨lit "d", [0xEF, 0xBF, 0xBD], lit "c", true⟩ := by decide
    rw [hc]
  refine ⟨h1, hs, ?_⟩
  rw [hs]
  intro h
  injection h with h
  revert h
  decide

/-! ## The claims of the specification -/

/-- Claim C1, amended.  On a world state where key `did` is absent or holds an
empty value, with a host that returns no error for the read and the write,
`CreateDID(did, name, credentials)` succeeds, and a following `GetDID(did)`
returns the record `{did, name, credentials, verified = false}` with its three
strings coerced to valid UTF-8; it returns exactly that record when the three
strings are valid UTF-8. -/
theorem C1_create_then_get (ctx : Stub) (did name credentials : Bytes)
    (habs : ctx.state did = none ∨ ctx.state did = some [])
    (hget : ctx.getErr did = none)
    (hput : ctx.putErr did (json.encodeDID ⟨did, name, credentials, false⟩) = none) :
    (CreateDID ctx did name credentials).1 = .ok () ∧
    (GetDID (CreateDID ctx did name credentials).2 did).1
      = .ok (coerceDID ⟨did, name, credentials, false⟩) ∧
    (validDID ⟨did, name, credentials, false⟩ = true →
      (GetDID (CreateDID ctx did name credentials).2 did).1
        = .ok ⟨did, name, credentials, false⟩) := by
  obtain ⟨h1, h2, h3, _, _⟩ := CreateDID_ok ctx did name credentials habs hget hput
  have hg : (GetDID (CreateDID ctx did name credentials).2 did).1
      = .ok (coerceDID ⟨did, name, credentials, false⟩) :=
    GetDID_encoded _ did _ (by rw [h3]; exact hget) (by rw [h2]; exact putAt_same _ _ _)
  refine ⟨h1, hg, fun hv => ?_⟩
  rw [hg, validDID_coerce _ hv]

/-- The scenario of the specification as an instance of C1:
`Create("did:x:1", "Alice", "cred-A")` on the empty world state, then `Get`. -/
theorem C1_witness :
    (CreateDID (Stub.reliable emptyState) (lit "did:x:1") (lit "Alice") (lit "cred-A")).1 = .ok () ∧
    (GetDID (CreateDID (Stub.reliable emptyState) (lit "did:x:1") (lit "Alice") (lit "cred-A")).2
        (lit "did:x:1")).1
      = .ok ⟨lit "did:x:1", lit "Alice", lit "cred-A", false⟩ :=
  have h := C1_create_then_get (Stub.reliable emptyState) (lit "did:x:1") (lit "Alice")
    (lit "cred-A") (Or.inl rfl) rfl rfl
  ⟨h.1, h.2.2 (by decide)⟩

/-- Claim C1 as stated fails for a name that is not valid UTF-8: after
`CreateDID("d", "\xff", "c")` on the empty world state, `GetDID("d")` returns
the name U+FFFD (bytes `EF BF BD`), not the name that was given. -/
theorem C1_counterexample :
    (CreateDID (Stub.reliable emptyState) (lit "d") [0xFF] (lit "c")).1 = .ok () ∧
    (GetDID (CreateDID (Stub.reliable emptyState) (lit "d") [0xFF] (lit "c")).2 (lit "d")).1
      = .ok ⟨lit "d", [0xEF, 0xBF, 0xBD], lit "c", false⟩ ∧
    (GetDID (CreateDID (Stub.reliable emptyState) (lit "d") [0xFF] (lit "c")).2 (lit "d")).1
      ≠ .ok ⟨lit "d", [0xFF], lit "c", false⟩ := by
  obtain ⟨h1, h2, h3, _, _⟩ := CreateDID_ok (Stub.reliable emptyState) (lit "d") [0xFF] (lit "c")
    (Or.inl rfl) rfl rfl
  have hg := GetDID_encoded (CreateDID (Stub.reliable emptyState) (lit "d") [0xFF] (lit "c")).2
    (lit "d") _ (by rw [h3]; rfl) (by rw [h2]; exact putAt_same _ _ _)
  have hc : coerceDID ⟨lit "d", [0xFF], lit "c", false⟩
      = ⟨lit "d", [0xEF, 0xBF, 0xBD], lit "c", false⟩ := by decide
  rw [hc] at hg
  refine ⟨h1, hg, ?_⟩
  rw [hg]
  intro h
  injection h with h
  revert h
  decide

/-- Claim C2.  After `CreateDID(d, n1, c1)` has succeeded, a second
`CreateDID(d, n2, c2)` on the resulting context returns the error
"DID already exists", leaves the world state as it was, and key `d` still
holds the record written by the first call. -/
theorem C2_create_twice (ctx : Stub) (d n1 c1 n2 c2 : Bytes)
    (h : (CreateDID ctx d n1 c1).1 = .ok ()) :
    (CreateDID (CreateDID ctx d n1 c1).2 d n2 c2).1 = .error (Error.Errorf "DID already exists") ∧
    (CreateDID (CreateDID ctx d n1 c1).2 d n2 c2).2.state = (CreateDID ctx d n1 c1).2.state ∧
    (CreateDID (CreateDID ctx d n1 c1).2 d n2 c2).2.state d
      = some (json.encodeDID ⟨d, n1, c1, false⟩) := by
  obtain ⟨hg, hs⟩ := CreateDID_success_inv ctx d n1 c1 h
  have hst : (CreateDID ctx d n1 c1).2.state d = some (json.encodeDID ⟨d, n1, c1, false⟩) := by
    rw [hs]; exact putAt_same _ _ _
  have hg1 : (CreateDID ctx d n1 c1).2.getErr d = none := by
    rcases CreateDID_shape ctx d n1 c1 with e | ⟨v, e⟩
    · rw [e, (GetState_faults ctx d).1]; exact hg
    · rw [e, (PutState_faults _ _ _).1, (GetState_faults ctx d).1]; exact hg
  have hpos : (((CreateDID ctx d n1 c1).2.state d).getD []).length > 0 := by
    rw [hst]; exact encodeDID_length_pos _
  rw [CreateDID_present _ d n2 c2 hpos hg1]
  exact ⟨rfl, rfl, hst⟩

/-- The scenario of the specification as an instance of C2: after
`Create("did:x:1", "Alice", "cred-A")`, `Create("did:x:1", "Eve", "cred-C")`
returns "DID already exists". -/
theorem C2_witness :
    (CreateDID (Stub.reliable emptyState) (lit "did:x:1") (lit "Alice") (lit "cred-A")).1
        = .ok () ∧
    (CreateDID (CreateDID (Stub.reliable emptyState) (lit "did:x:1") (lit "Alice")
        (lit "cred-A")).2 (lit "did:x:1") (lit "Eve") (lit "cred-C")).1
      = .error (Error.Errorf "DID already exists") :=
  ⟨rfl, (C2_create_twice (Stub.reliable emptyState) (lit "did:x:1") (lit "Alice") (lit "cred-A")
    (lit "Eve") (lit "cred-C") rfl).1⟩

/-- Claim C3, amended.  On a world state where key `did` holds the encoding
of a record `r`, with a host that returns no error for the read and the write,
`UpdateCredentials(did, newCredentials)` succeeds and a following
`GetDID(did)` returns `r` with `credentials` replaced by `newCredentials`
and the strings coerced to valid UTF-8, `verified` being that of `r`; it
returns exactly `r` with `credentials` replaced when the strings of `r` and
`newCredentials` are valid UTF-8. -/
theorem C3_update_then_get (ctx : Stub) (did newCredentials : Bytes) (r : DID)
    (hst : ctx.state did = some (json.encodeDID r))
    (hget : ctx.getErr did = none)
    (hput : ∀ v, ctx.putErr did v = none) :
    (UpdateCredentials ctx did newCredentials).1 = .ok () ∧
    (GetDID (UpdateCredentials ctx did newCredentials).2 did).1
      = .ok (coerceDID { r with Credentials := newCredentials }) ∧
    (validDID r = true → utf8.Valid newCredentials = true →
      (GetDID (UpdateCredentials ctx did newCredentials).2 did).1
        = .ok { r with Credentials := newCredentials }) := by
  obtain ⟨h1, h2, h3, _, _⟩ := UpdateCredentials_ok ctx did newCredentials _ (coerceDID r) hst
    (by have := encodeDID_length_pos r; omega) (Unmarshal_encodeDID r zeroDID) hget (hput _)
  have hg : (GetDID (UpdateCredentials ctx did newCredentials).2 did).1
      = .ok (coerceDID { r with Credentials := newCredentials }) := by
    rw [GetDID_encoded _ did _ (by rw [h3]; exact hget) (by rw [h2]; exact putAt_same _ _ _)]
    simp [coerceDID, coerce_coerce]
  refine ⟨h1, hg, fun hv hc => ?_⟩
  rw [hg]
  have hv2 : validDID { r with Credentials := newCredentials } = true := by
    simp only [validDID, Bool.and_eq_true] at hv ⊢
    exact ⟨⟨hv.1.1, hv.1.2⟩, hc⟩
  rw [validDID_coerce _ hv2]

/-- The scenario of the specification as an instance of C3: on the verified
record of "did:x:1", `UpdateCredentials("did:x:1", "cred-B")` and then `Get`
give the record with `credentials = "cred-B"` and `verified = true`. -/
theorem C3_witness :
    (UpdateCredentials
        (Stub.reliable (putAt emptyState (lit "did:x:1")
          (json.encodeDID ⟨lit "did:x:1", lit "Alice", lit "cred-A", true⟩)))
        (lit "did:x:1") (lit "cred-B")).1 = .ok () ∧
    (GetDID (UpdateCredentials
        (Stub.reliable (putAt emptyState (lit "did:x:1")
          (json.encodeDID ⟨lit "did:x:1", lit "Alice", lit "cred-A", true⟩)))
        (lit "did:x:1") (lit "cred-B")).2 (lit "did:x:1")).1
      = .ok ⟨lit "did:x:1", lit "Alice", lit "cred-B", true⟩ :=
  have h := C3_update_then_get
    (Stub.reliable (putAt emptyState (lit "did:x:1")
      (json.encodeDID ⟨lit "did:x:1", lit "Alice", lit "cred-A", true⟩)))
    (lit "did:x:1") (lit "cred-B") ⟨lit "did:x:1", lit "Alice", lit "cred-A", true⟩
    (putAt_same emptyState (lit "did:x:1") _) rfl (fun _ => rfl)
  ⟨h.1, h.2.2 (by decide) (by decide)⟩

/-- Claim C3 as stated fails for new credentials that are not valid UTF-8:
after `UpdateCredentials("d", "\xff")`, `GetDID("d")` returns the
credentials U+FFFD (bytes `EF BF BD`), not the credentials that were given. -/
theorem C3_counterexample :
    (UpdateCredentials
        (Stub.reliable (putAt emptyState (lit "d") (json.encodeDID ⟨lit "d", lit "n", lit "c", true⟩)))
        (lit "d") [0xFF]).1 = .ok () ∧
    (GetDID (UpdateCredentials
        (Stub.reliable (putAt emptyState (lit "d") (json.encodeDID ⟨lit "d", lit "n", lit "c", true⟩)))
        (lit "d") [0xFF]).2 (lit "d")).1
      = .ok ⟨lit "d", lit "n", [0xEF, 0xBF, 0xBD], true⟩ ∧
    (GetDID (UpdateCredentials
        (Stub.reliable (putAt emptyState (lit "d") (json.encodeDID ⟨lit "d", lit "n", lit "c", true⟩)))
        (lit "d") [0xFF]).2 (lit "d")).1
      ≠ .ok ⟨lit "d", lit "n", [0xFF], true⟩ := by
  obtain ⟨h1, h2, h3, _, _⟩ := UpdateCredentials_ok
    (Stub.reliable (putAt emptyState (lit "d") (json.encodeDID ⟨lit "d", lit "n", lit "c", true⟩)))
    (lit "d") [0xFF] _ (coerceDID ⟨lit "d", lit "n", lit "c", true⟩)
    (putAt_same emptyState (lit "d") _)
    (by have := encodeDID_length_pos ⟨lit "d", lit "n", lit "c", true⟩; omega)
    (Unmarshal_encodeDID _ zeroDID) rfl rfl
  have hg := GetDID_encoded _ (lit "d") _ (by rw [h3]; rfl) (by rw [h2]; exact putAt_same _ _ _)
  have hc : coerceDID { coerceDID ⟨lit "d", lit "n", lit "c", true⟩ with Credentials := [0xFF] }
      = ⟨lit "d", lit "n", [0xEF, 0xBF, 0xBD], true⟩ := by decide
  rw [hc] at hg
  refine ⟨h1, hg, ?_⟩
  rw [hg]
  intro h
  injection h with h
  revert h
  decide

/-- Claim C5.  On a world state where key `d` holds the encoding of a record
`r`, verified or not, with a host that returns no error, `RevokeDID(d)`
succeeds, `GetDID(d)` then returns "DID does not exist", a following
`CreateDID(d, name, credentials)` succeeds and `GetDID(d)` then returns a
record with `verified = false`. -/
theorem C5_revoke_then_create (ctx : Stub) (d name credentials : Bytes) (r : DID)
    (hst : ctx.state d = some (json.encodeDID r))
    (hget : ctx.getErr d = none) (hdel : ctx.delErr d = none)
    (hput : ∀ v, ctx.putErr d v = none) :
    (RevokeDID ctx d).1 = .ok () ∧
    (GetDID (RevokeDID ctx d).2 d).1 = .error (Error.Errorf "DID does not exist") ∧
    (CreateDID (RevokeDID ctx d).2 d name credentials).1 = .ok () ∧
    ∃ r1, (GetDID (CreateDID (RevokeDID ctx d).2 d name credentials).2 d).1 = .ok r1 ∧
      r1.Verified = false := by
  obtain ⟨h1, h2, h3, h4, _⟩ := RevokeDID_ok ctx d _ hst
    (by have := encodeDID_length_pos r; omega) hget hdel
  have habs : (RevokeDID ctx d).2.state d = none := by rw [h2]; simp
  have hg1 : (RevokeDID ctx d).2.getErr d = none := by rw [h3]; exact hget
  obtain ⟨k1, k2, k3, _, _⟩ := CreateDID_ok (RevokeDID ctx d).2 d name credentials
    (Or.inl habs) hg1 (by rw [h4]; exact hput _)
  refine ⟨h1, ?_, k1, coerceDID ⟨d, name, credentials, false⟩, ?_, rfl⟩
  · rw [(absent_NotFound _ d (by rw [habs]; rfl) hg1).2.2.2]
  · exact GetDID_encoded _ d _ (by rw [k3]; exact hg1) (by rw [k2]; exact putAt_same _ _ _)

/-- The scenario of the specification as an instance of C5: `Revoke` of the
verified record of "did:x:1", then `Get`. -/
theorem C5_witness :
    (RevokeDID (Stub.reliable (putAt emptyState (lit "did:x:1")
        (json.encodeDID ⟨lit "did:x:1", lit "Alice", lit "cred-B", true⟩))) (lit "did:x:1")).1
      = .ok () ∧
    (GetDID (RevokeDID (Stub.reliable (putAt emptyState (lit "did:x:1")
        (json.encodeDID ⟨lit "did:x:1", lit "Alice", lit "cred-B", true⟩))) (lit "did:x:1")).2
        (lit "did:x:1")).1
      = .error (Error.Errorf "DID does not exist") :=
  have h := C5_revoke_then_create
    (Stub.reliable (putAt emptyState (lit "did:x:1")
      (json.encodeDID ⟨lit "did:x:1", lit "Alice", lit "cred-B", true⟩)))
    (lit "did:x:1") (lit "Alice2") (lit "cred-D") ⟨lit "did:x:1", lit "Alice", lit "cred-B", true⟩
    (putAt_same emptyState (lit "did:x:1") _) rfl rfl (fun _ => rfl)
  ⟨h.1, h.2.1⟩

/-- Claim C6.  On a world state from which key `did` is absent, with a host
that returns no error for the read, each of `UpdateCredentials`, `VerifyDID`,
`RevokeDID` and `GetDID` returns the error "DID does not exist". -/
theorem C6_not_found (ctx : Stub) (did newCredentials : Bytes)
    (habs : ctx.state did = none) (hget : ctx.getErr did = none) :
    (UpdateCredentials ctx did newCredentials).1 = .error (Error.Errorf "DID does not exist") ∧
    (VerifyDID ctx did).1 = .error (Error.Errorf "DID does not exist") ∧
    (RevokeDID ctx did).1 = .error (Error.Errorf "DID does not exist") ∧
    (GetDID ctx did).1 = .error (Error.Errorf "DID does not exist") := by
  obtain ⟨h1, h2, h3, h4⟩ := absent_NotFound ctx did (by rw [habs]; rfl) hget
  rw [h1, h2, h3, h4]
  exact ⟨rfl, rfl, rfl, rfl⟩

/-- An instance of C6 on the empty world state. -/
theorem C6_witness :
    (UpdateCredentials (Stub.reliable emptyState) (lit "did:x:1") (lit "cred-B")).1
      = .error (Error.Errorf "DID does not exist") ∧
    (VerifyDID (Stub.reliable emptyState) (lit "did:x:1")).1
      = .error (Error.Errorf "DID does not exist") ∧
    (RevokeDID (Stub.reliable emptyState) (lit "did:x:1")).1
      = .error (Error.Errorf "DID does not exist") ∧
    (GetDID (Stub.reliable emptyState) (lit "did:x:1")).1
      = .error (Error.Errorf "DID does not exist") :=
  C6_not_found (Stub.reliable emptyState) (lit "did:x:1") (lit "cred-B") rfl rfl

/-- Claim C7.  For keys `d ≠ d1`, each of the five operations invoked on `d`,
with any other arguments, on any host and whatever its outcome, leaves the
value at key `d1` as it was. -/
theorem C7_locality (ctx : Stub) (d d1 : Bytes) (h : d ≠ d1)
    (name credentials newCredentials : Bytes) :
    (CreateDID ctx d name credentials).2.state d1 = ctx.state d1 ∧
    (UpdateCredentials ctx d newCredentials).2.state d1 = ctx.state d1 ∧
    (VerifyDID ctx d).2.state d1 = ctx.state d1 ∧
    (RevokeDID ctx d).2.state d1 = ctx.state d1 ∧
    (GetDID ctx d).2.state d1 = ctx.state d1 :=
  state_other_key ctx d d1 h name credentials newCredentials

/-- An instance of C7: `CreateDID` and `RevokeDID` on "did:x:1" leave the
record stored under "did:x:2" in place. -/
theorem C7_witness :
    (CreateDID (Stub.reliable (putAt emptyState (lit "did:x:2")
        (json.encodeDID ⟨lit "did:x:2", lit "Bob", lit "cred-Z", true⟩)))
        (lit "did:x:1") (lit "Alice") (lit "cred-A")).2.state (lit "did:x:2")
      = some (json.encodeDID ⟨lit "did:x:2", lit "Bob", lit "cred-Z", true⟩) ∧
    (RevokeDID (Stub.reliable (putAt emptyState (lit "did:x:2")
        (json.encodeDID ⟨lit "did:x:2", lit "Bob", lit "cred-Z", true⟩)))
        (lit "did:x:1")).2.state (lit "did:x:2")
      = some (json.encodeDID ⟨lit "did:x:2", lit "Bob", lit "cred-Z", true⟩) :=
  have h := C7_locality (Stub.reliable (putAt emptyState (lit "did:x:2")
      (json.encodeDID ⟨lit "did:x:2", lit "Bob", lit "cred-Z", true⟩)))
    (lit "did:x:1") (lit "did:x:2") (by decide) (lit "Alice") (lit "cred-A") (lit "cred-B")
  ⟨h.1.trans (putAt_same emptyState (lit "did:x:2") _),
    h.2.2.2.1.trans (putAt_same emptyState (lit "did:x:2") _)⟩

/-- Claim C8.  If `GetDID(d)` returns a record with `verified = true`, then
after any sequence of invocations none of which is `RevokeDID(d)` (any
operations, any arguments, any keys; a single invocation is the sequence of
length one) `GetDID(d)` still returns a record with `verified = true`. -/
theorem C8_verified_monotone (ctx : Stub) (d : Bytes) (r : DID) (ops : List Op)
    (h : (GetDID ctx d).1 = .ok r) (hv : r.Verified = true)
    (hops : ∀ op ∈ ops, op ≠ Op.RevokeDID d) :
    ∃ r1, (GetDID (runAll ctx ops) d).1 = .ok r1 ∧ r1.Verified = true := by
  induction ops generalizing ctx r with
  | nil => exact ⟨r, h, hv⟩
  | cons op ops ih =>
    obtain ⟨r1, h1, hv1⟩ := verified_step ctx d r op h hv (hops op (by simp))
    exact ih (op.run ctx) r1 h1 hv1 (fun o ho => hops o (by simp [ho]))

/-- An instance of C8: the verified record of "did:x:1" stays verified through
an update, a rejected re-creation and the revocation of another key. -/
theorem C8_witness :
    ∃ r1, (GetDID (runAll
        (Stub.reliable (putAt emptyState (lit "did:x:1")
          (json.encodeDID ⟨lit "did:x:1", lit "Alice", lit "cred-A", true⟩)))
        [Op.UpdateCredentials (lit "did:x:1") (lit "cred-B"),
         Op.CreateDID (lit "did:x:1") (lit "Eve") (lit "cred-C"),
         Op.RevokeDID (lit "did:x:2")]) (lit "did:x:1")).1 = .ok r1 ∧ r1.Verified = true :=
  C8_verified_monotone
    (Stub.reliable (putAt emptyState (lit "did:x:1")
      (json.encodeDID ⟨lit "did:x:1", lit "Alice", lit "cred-A", true⟩)))
    (lit "did:x:1") ⟨lit "did:x:1", lit "Alice", lit "cred-A", true⟩
    [Op.UpdateCredentials (lit "did:x:1") (lit "cred-B"),
     Op.CreateDID (lit "did:x:1") (lit "Eve") (lit "cred-C"),
     Op.RevokeDID (lit "did:x:2")]
    (by
      rw [GetDID_encoded _ (lit "did:x:1") ⟨lit "did:x:1", lit "Alice", lit "cred-A", true⟩ rfl
        (putAt_same emptyState (lit "did:x:1") _), validDID_coerce _ (by decide)])
    rfl (by decide)

/-- Claim C9, amended.  For every record `r`, whatever bytes its strings hold,
`json.Marshal` succeeds and `json.Unmarshal` of the result succeeds and yields
`r` with its strings coerced to valid UTF-8; it yields `r` itself when the
strings of `r` are valid UTF-8, whichever quotes, backslashes, braces,
colons, commas or control characters they contain. -/
theorem C9_round_trip (r : DID) :
    ∃ data, json.Marshal r = .ok data ∧
      json.Unmarshal data zeroDID = .ok (coerceDID r) ∧
      (validDID r = true → json.Unmarshal data zeroDID = .ok r) := by
  refine ⟨json.encodeDID r, rfl, Unmarshal_encodeDID r zeroDID, fun hv => ?_⟩
  rw [Unmarshal_encodeDID, validDID_coerce r hv]

/-- An instance of C9 with a quote, a backslash, braces, a colon, a comma, two
control characters and a two-byte rune in the strings: the bytes written and
the record read back. -/
theorem C9_witness :
    json.Marshal ⟨lit "a\"b\\c", lit "\x7b,:\x7d", [0x01, 0x0A, 0xC3, 0xA9], true⟩
      = .ok (lit "\x7b\"did\":\"a\\\"b\\\\c\",\"name\":\"\x7b,:\x7d\",\"credentials\":\"\\u0001\\n"
          ++ [0xC3, 0xA9] ++ lit "\",\"verified\":true\x7d") ∧
    json.Unmarshal (lit "\x7b\"did\":\"a\\\"b\\\\c\",\"name\":\"\x7b,:\x7d\",\"credentials\":\"\\u0001\\n"
          ++ [0xC3, 0xA9] ++ lit "\",\"verified\":true\x7d") zeroDID
      = .ok ⟨lit "a\"b\\c", lit "\x7b,:\x7d", [0x01, 0x0A, 0xC3, 0xA9], true⟩ := by
  obtain ⟨data, h1, _, h3⟩ :=
    C9_round_trip ⟨lit "a\"b\\c", lit "\x7b,:\x7d", [0x01, 0x0A, 0xC3, 0xA9], true⟩
  have hd : data = lit "\x7b\"did\":\"a\\\"b\\\\c\",\"name\":\"\x7b,:\x7d\",\"credentials\":\"\\u0001\\n"
          ++ [0xC3, 0xA9] ++ lit "\",\"verified\":true\x7d" := by
    have : json.Marshal ⟨lit "a\"b\\c", lit "\x7b,:\x7d", [0x01, 0x0A, 0xC3, 0xA9], true⟩
        = .ok (lit "\x7b\"did\":\"a\\\"b\\\\c\",\"name\":\"\x7b,:\x7d\",\"credentials\":\"\\u0001\\n"
          ++ [0xC3, 0xA9] ++ lit "\",\"verified\":true\x7d") :=
      congrArg Except.ok (by decide)
    rw [this] at h1
    injection h1 with h1
    exact h1.symm
  subst hd
  exact ⟨h1, h3 (by decide)⟩

/-- Claim C9 as stated fails for a string that is not valid UTF-8: the record
with `did = "\xff"` is written with the escape for U+FFFD and read back with
`did` equal to the bytes `EF BF BD`. -/
theorem C9_counterexample :
    json.Marshal ⟨[0xFF], [], [], false⟩
      = .ok (lit "\x7b\"did\":\"\\ufffd\",\"name\":\"\",\"credentials\":\"\",\"verified\":false\x7d") ∧
    json.Unmarshal
        (lit "\x7b\"did\":\"\\ufffd\",\"name\":\"\",\"credentials\":\"\",\"verified\":false\x7d") zeroDID
      = .ok ⟨[0xEF, 0xBF, 0xBD], [], [], false⟩ ∧
    json.Unmarshal
        (lit "\x7b\"did\":\"\\ufffd\",\"name\":\"\",\"credentials\":\"\",\"verified\":false\x7d") zeroDID
      ≠ .ok ⟨[0xFF], [], [], false⟩ := by
  have hm : json.encodeDID ⟨[0xFF], [], [], false⟩
      = lit "\x7b\"did\":\"\\ufffd\",\"name\":\"\",\"credentials\":\"\",\"verified\":false\x7d" := by
    decide
  have hu := Unmarshal_encodeDID ⟨[0xFF], [], [], false⟩ zeroDID
  rw [hm] at hu
  have hc : coerceDID ⟨[0xFF], [], [], false⟩ = ⟨[0xEF, 0xBF, 0xBD], [], [], false⟩ := by decide
  rw [hc] at hu
  refine ⟨by rw [json.Marshal, hm], hu, ?_⟩
  rw [hu]
  intro h
  injection h with h
  revert h
  decide

/-- Claim C10, amended.  The code has no check of the `did` argument: called
with the empty string as `did`, every operation first reads key `""`.  On a
world state from which that key is absent, with a host that returns no error
for the read, `UpdateCredentials`, `VerifyDID`, `RevokeDID` and `GetDID`
return "DID does not exist" after that one read, and `CreateDID` goes on to
`PutState("", …)` with the encoding of `{"", name, credentials, false}` and
returns what the host returns for that write. -/
theorem C10_empty_did (ctx : Stub) (name credentials newCredentials : Bytes)
    (habs : ctx.state [] = none) (hget : ctx.getErr [] = none) :
    UpdateCredentials ctx [] newCredentials
      = (.error (Error.Errorf "DID does not exist"),
          { ctx with calls := ctx.calls ++ [Call.GetState []] }) ∧
    VerifyDID ctx []
      = (.error (Error.Errorf "DID does not exist"),
          { ctx with calls := ctx.calls ++ [Call.GetState []] }) ∧
    RevokeDID ctx []
      = (.error (Error.Errorf "DID does not exist"),
          { ctx with calls := ctx.calls ++ [Call.GetState []] }) ∧
    GetDID ctx []
      = (.error (Error.Errorf "DID does not exist"),
          { ctx with calls := ctx.calls ++ [Call.GetState []] }) ∧
    CreateDID ctx [] name credentials
      = Stub.PutState { ctx with calls := ctx.calls ++ [Call.GetState []] } []
          (json.encodeDID ⟨[], name, credentials, false⟩) := by
  have h0 : ((ctx.state []).getD []).length = 0 := by rw [habs]; rfl
  obtain ⟨h1, h2, h3, h4⟩ := absent_NotFound ctx [] h0 hget
  exact ⟨h1 newCredentials, h2, h3, h4, CreateDID_absent ctx [] name credentials h0 hget⟩

/-- An instance of C10: `GetDID("")` on the empty world state reads key `""`
and returns "DID does not exist". -/
theorem C10_witness :
    (GetDID (Stub.reliable emptyState) []).1 = .error (Error.Errorf "DID does not exist") ∧
    (GetDID (Stub.reliable emptyState) []).2.calls = [Call.GetState []] := by
  have h := (C10_empty_did (Stub.reliable emptyState) (lit "Alice") (lit "cred-A") (lit "cred-B")
    rfl rfl).2.2.2.1
  rw [h]
  exact ⟨rfl, rfl⟩

/-- Claim C10 as stated fails: on the empty world state, with a host that
accepts the empty key, `CreateDID("", "Alice", "cred-A")` returns no error at
all, after reading key `""` and writing the record under it; and `GetDID("")`
reads key `""`. -/
theorem C10_counterexample :
    (CreateDID (Stub.reliable emptyState) [] (lit "Alice") (lit "cred-A")).1 = .ok () ∧
    (CreateDID (Stub.reliable emptyState) [] (lit "Alice") (lit "cred-A")).2.calls
      = [Call.GetState [],
         Call.PutState [] (json.encodeDID ⟨[], lit "Alice", lit "cred-A", false⟩)] ∧
    (CreateDID (Stub.reliable emptyState) [] (lit "Alice") (lit "cred-A")).2.state []
      = some (json.encodeDID ⟨[], lit "Alice", lit "cred-A", false⟩) ∧
    (GetDID (Stub.reliable emptyState) []).2.calls = [Call.GetState []] :=
  ⟨rfl, rfl, rfl, rfl⟩

/-- Claim C11, amended.  In every world state that can be reached from the
empty one by any finite sequence of invocations of the five operations, with
any arguments and on any host, every key `k` that holds a value holds one that
decodes to a record, and the `did` field of that record is `k` coerced to valid
UTF-8; it is `k` itself when `k` is valid UTF-8. -/
theorem C11_key_field (st : Bytes → Option Bytes) (h : Reachable st) (k v : Bytes)
    (hv : st k = some v) :
    ∃ r, json.Unmarshal v zeroDID = .ok r ∧ r.DID = utf8.coerce k ∧
      (utf8.Valid k = true → r.DID = k) := by
  obtain ⟨r0, h1, h2⟩ := reachable_encoded st h k v hv
  refine ⟨coerceDID r0, by rw [h1, Unmarshal_encodeDID], h2, fun hk => ?_⟩
  show utf8.coerce r0.DID = k
  rw [h2, coerce_of_valid k hk]

/-- An instance of C11: after `Create("did:x:1", "Alice", "cred-A")` on the
empty world state the value at key `did:x:1` decodes to a record whose `did`
field is `did:x:1`. -/
theorem C11_witness :
    ∃ r, json.Unmarshal (json.encodeDID ⟨lit "did:x:1", lit "Alice", lit "cred-A", false⟩) zeroDID
        = .ok r ∧ r.DID = lit "did:x:1" :=
  have h := C11_key_field
    (Op.run (Stub.reliable emptyState) (Op.CreateDID (lit "did:x:1") (lit "Alice") (lit "cred-A"))).state
    (Reachable.step (Stub.reliable emptyState) _ Reachable.empty)
    (lit "did:x:1") (json.encodeDID ⟨lit "did:x:1", lit "Alice", lit "cred-A", false⟩) rfl
  h.elim (fun r hr => ⟨r, hr.1, hr.2.2 (by decide)⟩)

/-- Claim C11 as stated fails for a key that is not valid UTF-8: after
`CreateDID("\xff", "Alice", "cred-A")` on the empty world state, key `FF`
holds a value that decodes to a record whose `did` field is U+FFFD (bytes
`EF BF BD`), which is not the key. -/
theorem C11_counterexample :
    Reachable (Op.run (Stub.reliable emptyState)
      (Op.CreateDID [0xFF] (lit "Alice") (lit "cred-A"))).state ∧
    (Op.run (Stub.reliable emptyState) (Op.CreateDID [0xFF] (lit "Alice") (lit "cred-A"))).state
        [0xFF]
      = some (json.encodeDID ⟨[0xFF], lit "Alice", lit "cred-A", false⟩) ∧
    json.Unmarshal (json.encodeDID ⟨[0xFF], lit "Alice", lit "cred-A", false⟩) zeroDID
      = .ok ⟨[0xEF, 0xBF, 0xBD], lit "Alice", lit "cred-A", false⟩ ∧
    ([0xEF, 0xBF, 0xBD] : Bytes) ≠ [0xFF] := by
  refine ⟨Reachable.step (Stub.reliable emptyState) _ Reachable.empty, rfl, ?_, by decide⟩
  rw [Unmarshal_encodeDID]
  exact congrArg Except.ok (by decide)

/-- Claim C12.  For every transaction context and every invocation of any of
the five operations that returns an error, whatever the error, the world state
after the call is the world state before the call. -/
theorem C12_error_atomic (ctx : Stub) (did name credentials newCredentials : Bytes) :
    (∀ e, (CreateDID ctx did name credentials).1 = .error e →
      (CreateDID ctx did name credentials).2.state = ctx.state) ∧
    (∀ e, (UpdateCredentials ctx did newCredentials).1 = .error e →
      (UpdateCredentials ctx did newCredentials).2.state = ctx.state) ∧
    (∀ e, (VerifyDID ctx did).1 = .error e → (VerifyDID ctx did).2.state = ctx.state) ∧
    (∀ e, (RevokeDID ctx did).1 = .error e → (RevokeDID ctx did).2.state = ctx.state) ∧
    (∀ e, (GetDID ctx did).1 = .error e → (GetDID ctx did).2.state = ctx.state) :=
  error_state ctx did name credentials newCredentials

/-- An instance of C12: `Create("did:x:1", "Eve", "cred-C")` on a world state
that holds a record at `did:x:1` returns "DID already exists" and leaves the
world state as it was. -/
theorem C12_witness :
    (CreateDID (Stub.reliable (putAt emptyState (lit "did:x:1")
        (json.encodeDID ⟨lit "did:x:1", lit "Alice", lit "cred-B", true⟩)))
        (lit "did:x:1") (lit "Eve") (lit "cred-C")).2.state
      = putAt emptyState (lit "did:x:1")
          (json.encodeDID ⟨lit "did:x:1", lit "Alice", lit "cred-B", true⟩) :=
  (C12_error_atomic (Stub.reliable (putAt emptyState (lit "did:x:1")
        (json.encodeDID ⟨lit "did:x:1", lit "Alice", lit "cred-B", true⟩)))
      (lit "did:x:1") (lit "Eve") (lit "cred-C") (lit "cred-C")).1
    (Error.Errorf "DID already exists")
    (CreateDID_present _ _ _ _
      (by rw [show (Stub.reliable (putAt emptyState (lit "did:x:1")
            (json.encodeDID ⟨lit "did:x:1", lit "Alice", lit "cred-B", true⟩))).state
            (lit "did:x:1") = some _ from putAt_same emptyState (lit "did:x:1") _]
          exact encodeDID_length_pos _) rfl ▸ rfl)

/-- Claim C13, amended.  Let the value stored at key `did` be a well-formed
JSON object, on a host that returns no error for the read.  When no member
that names a field has a value of the wrong type, the value decodes to a
record, also when fields are missing: a field without a member is left at its
zero value (the empty string, `false`); `GetDID` returns that record, and
`UpdateCredentials` and `VerifyDID` go on to write the changed record.  When
some member that names a field has a value of the wrong type, decoding returns
an `UnmarshalTypeError`, and `GetDID`, `UpdateCredentials` and `VerifyDID`
return it after the read and issue no write. -/
theorem C13_missing_fields (ctx : Stub) (did data : Bytes) (ms : List (Bytes × json.Value))
    (hp : json.parse data = some (json.Value.object ms))
    (hst : ctx.state did = some data) (hget : ctx.getErr did = none) :
    ((∀ m ∈ ms, json.wrongType m = false) →
      ∃ r, json.Unmarshal data zeroDID = .ok r ∧
        (json.hasField json.Field.DID ms = false → r.DID = []) ∧
        (json.hasField json.Field.Name ms = false → r.Name = []) ∧
        (json.hasField json.Field.Credentials ms = false → r.Credentials = []) ∧
        (json.hasField json.Field.Verified ms = false → r.Verified = false) ∧
        (GetDID ctx did).1 = .ok r ∧
        (∀ c, UpdateCredentials ctx did c
          = Stub.PutState { ctx with calls := ctx.calls ++ [Call.GetState did] } did
              (json.encodeDID { r with Credentials := c })) ∧
        VerifyDID ctx did
          = Stub.PutState { ctx with calls := ctx.calls ++ [Call.GetState did] } did
              (json.encodeDID { r with Verified := true })) ∧
    ((∃ m ∈ ms, json.wrongType m = true) →
      json.Unmarshal data zeroDID = .error json.DecodeError.UnmarshalTypeError ∧
      GetDID ctx did
        = (.error (Error.json json.DecodeError.UnmarshalTypeError),
            { ctx with calls := ctx.calls ++ [Call.GetState did] }) ∧
      (∀ c, UpdateCredentials ctx did c
        = (.error (Error.json json.DecodeError.UnmarshalTypeError),
            { ctx with calls := ctx.calls ++ [Call.GetState did] })) ∧
      VerifyDID ctx did
        = (.error (Error.json json.DecodeError.UnmarshalTypeError),
            { ctx with calls := ctx.calls ++ [Call.GetState did] })) := by
  have hsc := parse_object_unquote data ms hp
  have hlen := parse_ne_nil data _ hp
  have hl1 : ((ctx.state did).getD []).length ≠ 0 := by rw [hst]; exact hlen
  refine ⟨fun hok => ?_, fun hbad => ?_⟩
  · obtain ⟨r, h1, h2, h3, h4, h5⟩ := decodeObject_ok ms zeroDID
      (fun m hm => memberOK_of_scanned m (hsc m hm).1 (hsc m hm).2 (hok m hm))
    have hu : json.Unmarshal data zeroDID = .ok r := by
      rw [json.Unmarshal, hp]
      exact h1
    have hu1 : json.Unmarshal ((ctx.state did).getD []) zeroDID = .ok r := by
      rw [hst]; exact hu
    refine ⟨r, hu, h2, h3, h4, h5, ?_, fun c => ?_, ?_⟩
    · rw [GetDID_fst ctx did hget, if_neg hl1, hu1]
    · rcases UpdateCredentials_cases ctx did c with
        ⟨_, he, _⟩ | ⟨_, h0, _⟩ | ⟨_, _, _, he, _⟩ | ⟨_, _, r1, hr, e1⟩
      · rw [hget] at he; exact Option.noConfusion he
      · exact absurd h0 hl1
      · rw [hu1] at he; exact Except.noConfusion he
      · rw [hu1] at hr
        injection hr with hr
        subst hr
        exact e1
    · rcases VerifyDID_cases ctx did with
        ⟨_, he, _⟩ | ⟨_, h0, _⟩ | ⟨_, _, _, he, _⟩ | ⟨_, _, r1, hr, e1⟩
      · rw [hget] at he; exact Option.noConfusion he
      · exact absurd h0 hl1
      · rw [hu1] at he; exact Except.noConfusion he
      · rw [hu1] at hr
        injection hr with hr
        subst hr
        exact e1
  · have hu : json.Unmarshal data zeroDID = .error json.DecodeError.UnmarshalTypeError := by
      rw [json.Unmarshal, hp]
      exact decodeObject_wrongType ms zeroDID hsc hbad
    have hu1 : json.Unmarshal ((ctx.state did).getD []) zeroDID
        = .error json.DecodeError.UnmarshalTypeError := by
      rw [hst]; exact hu
    refine ⟨hu, ?_, fun c => ?_, ?_⟩
    · rcases GetDID_cases ctx did with
        ⟨_, he, _⟩ | ⟨_, h0, _⟩ | ⟨_, _, e, he, e1⟩ | ⟨_, _, r1, hr, _⟩
      · rw [hget] at he; exact Option.noConfusion he
      · exact absurd h0 hl1
      · rw [hu1] at he
        injection he with he
        rw [e1, ← he]
      · rw [hu1] at hr; exact Except.noConfusion hr
    · rcases UpdateCredentials_cases ctx did c with
        ⟨_, he, _⟩ | ⟨_, h0, _⟩ | ⟨_, _, e, he, e1⟩ | ⟨_, _, r1, hr, _⟩
      · rw [hget] at he; exact Option.noConfusion he
      · exact absurd h0 hl1
      · rw [hu1] at he
        injection he with he
        rw [e1, ← he]
      · rw [hu1] at hr; exact Except.noConfusion hr
    · rcases VerifyDID_cases ctx did with
        ⟨_, he, _⟩ | ⟨_, h0, _⟩ | ⟨_, _, e, he, e1⟩ | ⟨_, _, r1, hr, _⟩
      · rw [hget] at he; exact Option.noConfusion he
      · exact absurd h0 hl1
      · rw [hu1] at he
        injection he with he
        rw [e1, ← he]
      · rw [hu1] at hr; exact Except.noConfusion hr

/-- Instances of C13, amended: the object with the members `did` and
`verified` only decodes to a record with an empty name and empty credentials,
and `GetDID` returns it; on the object whose member `verified` is the string
`"yes"`, `GetDID` returns the type error. -/
theorem C13_witness :
    (∃ r, json.Unmarshal (lit "\x7b\"did\":\"did:x:1\",\"verified\":true\x7d") zeroDID = .ok r ∧
      r.Name = [] ∧ r.Credentials = [] ∧
      (GetDID (Stub.reliable (putAt emptyState (lit "did:x:1")
        (lit "\x7b\"did\":\"did:x:1\",\"verified\":true\x7d"))) (lit "did:x:1")).1 = .ok r) ∧
    (GetDID (Stub.reliable (putAt emptyState (lit "did:x:1")
        (lit "\x7b\"did\":\"did:x:1\",\"verified\":\"yes\"\x7d"))) (lit "did:x:1")).1
      = .error (Error.json json.DecodeError.UnmarshalTypeError) :=
  have h := (C13_missing_fields
    (Stub.reliable (putAt emptyState (lit "did:x:1")
      (lit "\x7b\"did\":\"did:x:1\",\"verified\":true\x7d")))
    (lit "did:x:1") (lit "\x7b\"did\":\"did:x:1\",\"verified\":true\x7d")
    [(lit "did", json.Value.string (lit "did:x:1")), (lit "verified", json.Value.bool true)]
    rfl (putAt_same emptyState (lit "did:x:1") _) rfl).1 (by decide)
  have k := (C13_missing_fields
    (Stub.reliable (putAt emptyState (lit "did:x:1")
      (lit "\x7b\"did\":\"did:x:1\",\"verified\":\"yes\"\x7d")))
    (lit "did:x:1") (lit "\x7b\"did\":\"did:x:1\",\"verified\":\"yes\"\x7d")
    [(lit "did", json.Value.string (lit "did:x:1")),
     (lit "verified", json.Value.string (lit "yes"))]
    rfl (putAt_same emptyState (lit "did:x:1") _) rfl).2
      ⟨(lit "verified", json.Value.string (lit "yes")), by simp, by decide⟩
  ⟨h.elim (fun r hr => ⟨r, hr.1, hr.2.2.1 (by decide), hr.2.2.2.1 (by decide), hr.2.2.2.2.2.1⟩),
    congrArg Prod.fst k.2.1⟩

/-- Claim C13 as stated fails: the empty object, which lacks all four fields,
decodes to the zero record; `GetDID` on a key that holds it returns that
record, and `UpdateCredentials` and `VerifyDID` succeed.  The object with the
member `name` only decodes as well. -/
theorem C13_counterexample :
    json.parse (lit "\x7b\x7d") = some (json.Value.object []) ∧
    json.Unmarshal (lit "\x7b\x7d") zeroDID = .ok ⟨[], [], [], false⟩ ∧
    (GetDID (Stub.reliable (putAt emptyState (lit "did:x:1") (lit "\x7b\x7d")))
      (lit "did:x:1")).1 = .ok ⟨[], [], [], false⟩ ∧
    (UpdateCredentials (Stub.reliable (putAt emptyState (lit "did:x:1") (lit "\x7b\x7d")))
      (lit "did:x:1") (lit "cred-B")).1 = .ok () ∧
    (VerifyDID (Stub.reliable (putAt emptyState (lit "did:x:1") (lit "\x7b\x7d")))
      (lit "did:x:1")).1 = .ok () ∧
    json.Unmarshal (lit "\x7b\"name\":\"Alice\"\x7d") zeroDID = .ok ⟨[], lit "Alice", [], false⟩ :=
  ⟨rfl, rfl, rfl, rfl, rfl, rfl⟩

/-- Claim C14.  When the read of key `did` fails, each of the five operations
returns an error that carries the cause, and the read is the only call it has
issued.  When the write issued by `CreateDID`, `UpdateCredentials` or
`VerifyDID` fails, or the delete issued by `RevokeDID`, the operation returns
the error of the host. -/
theorem C14_store_errors (ctx : Stub) (did name credentials newCredentials : Bytes) :
    (∀ e, ctx.getErr did = some e →
      CreateDID ctx did name credentials
        = (.error (Error.Errorf ("failed to read from world state: " ++ e)),
            { ctx with calls := ctx.calls ++ [Call.GetState did] }) ∧
      UpdateCredentials ctx did newCredentials
        = (.error (Error.Errorf ("failed to read DID: " ++ e)),
            { ctx with calls := ctx.calls ++ [Call.GetState did] }) ∧
      VerifyDID ctx did
        = (.error (Error.Errorf ("failed to read DID: " ++ e)),
            { ctx with calls := ctx.calls ++ [Call.GetState did] }) ∧
      RevokeDID ctx did
        = (.error (Error.Errorf ("failed to read DID: " ++ e)),
            { ctx with calls := ctx.calls ++ [Call.GetState did] }) ∧
      GetDID ctx did
        = (.error (Error.Errorf ("failed to read DID: " ++ e)),
            { ctx with calls := ctx.calls ++ [Call.GetState did] })) ∧
    (∀ v e, ctx.putErr did v = some e →
      (CreateDID ctx did name credentials).2.calls
          = ctx.calls ++ [Call.GetState did, Call.PutState did v] →
        (CreateDID ctx did name credentials).1 = .error (Error.stub e)) ∧
    (∀ v e, ctx.putErr did v = some e →
      (UpdateCredentials ctx did newCredentials).2.calls
          = ctx.calls ++ [Call.GetState did, Call.PutState did v] →
        (UpdateCredentials ctx did newCredentials).1 = .error (Error.stub e)) ∧
    (∀ v e, ctx.putErr did v = some e →
      (VerifyDID ctx did).2.calls = ctx.calls ++ [Call.GetState did, Call.PutState did v] →
        (VerifyDID ctx did).1 = .error (Error.stub e)) ∧
    (∀ e, ctx.delErr did = some e →
      (RevokeDID ctx did).2.calls = ctx.calls ++ [Call.GetState did, Call.DelState did] →
        (RevokeDID ctx did).1 = .error (Error.stub e)) := by
  have one : ∀ c : Call, ctx.calls ++ [Call.GetState did] ≠ ctx.calls ++ [Call.GetState did, c] := by
    intro c h
    have := congrArg List.length h
    simp at this
  have put : ∀ v1 v e, ctx.putErr did v = some e →
      (Stub.PutState { ctx with calls := ctx.calls ++ [Call.GetState did] } did v1).2.calls
        = ctx.calls ++ [Call.GetState did, Call.PutState did v] →
      (Stub.PutState { ctx with calls := ctx.calls ++ [Call.GetState did] } did v1).1
        = .error (Error.stub e) := by
    intro v1 v e hp hc
    rw [put_calls] at hc
    have hv : v1 = v := by
      have := List.append_cancel_left hc
      simpa using this
    subst hv
    exact (PutState_fail { ctx with calls := ctx.calls ++ [Call.GetState did] } did v1 e hp).1
  refine ⟨fun e he => ⟨?_, ?_, ?_, ?_, ?_⟩, fun v e hp hc => ?_, fun v e hp hc => ?_,
    fun v e hp hc => ?_, fun e hd hc => ?_⟩
  · simp [CreateDID, GetState_fail ctx did e he]
  · simp [UpdateCredentials, GetState_fail ctx did e he]
  · simp [VerifyDID, GetState_fail ctx did e he]
  · simp [RevokeDID, GetState_fail ctx did e he]
  · simp [GetDID, GetState_fail ctx did e he]
  · rcases CreateDID_cases ctx did name credentials with ⟨_, _, h1⟩ | ⟨_, _, h1⟩ | ⟨_, _, h1⟩
    · rw [h1] at hc; exact absurd hc (one _)
    · rw [h1] at hc; exact absurd hc (one _)
    · rw [h1] at hc ⊢; exact put _ v e hp hc
  · rcases UpdateCredentials_cases ctx did newCredentials with
      ⟨_, _, h1⟩ | ⟨_, _, h1⟩ | ⟨_, _, _, _, h1⟩ | ⟨_, _, _, _, h1⟩
    · rw [h1] at hc; exact absurd hc (one _)
    · rw [h1] at hc; exact absurd hc (one _)
    · rw [h1] at hc; exact absurd hc (one _)
    · rw [h1] at hc ⊢; exact put _ v e hp hc
  · rcases VerifyDID_cases ctx did with
      ⟨_, _, h1⟩ | ⟨_, _, h1⟩ | ⟨_, _, _, _, h1⟩ | ⟨_, _, _, _, h1⟩
    · rw [h1] at hc; exact absurd hc (one _)
    · rw [h1] at hc; exact absurd hc (one _)
    · rw [h1] at hc; exact absurd hc (one _)
    · rw [h1] at hc ⊢; exact put _ v e hp hc
  · rcases RevokeDID_cases ctx did with ⟨_, _, h1⟩ | ⟨_, _, h1⟩ | ⟨_, _, h1⟩
    · rw [h1] at hc; exact absurd hc (one _)
    · rw [h1] at hc; exact absurd hc (one _)
    · rw [h1]
      rcases DelState_cases { ctx with calls := ctx.calls ++ [Call.GetState did] } did with
        ⟨h0, _⟩ | ⟨e1, h0, h2⟩
      · rw [hd] at h0; exact Option.noConfusion h0
      · rw [h2]
        have : ctx.delErr did = some e1 := h0
        rw [hd] at this
        injection this with this
        rw [this]

/-- Instances of C14: `CreateDID` and `RevokeDID` on a host whose ledger cannot
be read, and `CreateDID` on a host that rejects every write. -/
theorem C14_witness :
    CreateDID (Stub.unreadable "ledger unavailable") (lit "did:x:1") (lit "Alice") (lit "cred-A")
      = (.error (Error.Errorf "failed to read from world state: ledger unavailable"),
          { Stub.unreadable "ledger unavailable" with calls := [Call.GetState (lit "did:x:1")] }) ∧
    RevokeDID (Stub.unreadable "ledger unavailable") (lit "did:x:1")
      = (.error (Error.Errorf "failed to read DID: ledger unavailable"),
          { Stub.unreadable "ledger unavailable" with calls := [Call.GetState (lit "did:x:1")] }) ∧
    (CreateDID (Stub.unwritable emptyState "read-only") (lit "did:x:1") (lit "Alice")
      (lit "cred-A")).1 = .error (Error.stub "read-only") :=
  have h := (C14_store_errors (Stub.unreadable "ledger unavailable") (lit "did:x:1") (lit "Alice")
    (lit "cred-A") (lit "cred-B")).1 "ledger unavailable" rfl
  ⟨h.1, h.2.2.2.1,
    (C14_store_errors (Stub.unwritable emptyState "read-only") (lit "did:x:1") (lit "Alice")
      (lit "cred-A") (lit "cred-B")).2.1
      (json.encodeDID ⟨lit "did:x:1", lit "Alice", lit "cred-A", false⟩) "read-only" rfl rfl⟩

/-- Claim C15.  Whatever `GetDID` returns, the world state after the call is
the world state before it, the only call issued is the read of key `did`, and
nothing else of the transaction context changes. -/
theorem C15_get_pure (ctx : Stub) (did : Bytes) :
    (GetDID ctx did).2.state = ctx.state ∧
    (GetDID ctx did).2.calls = ctx.calls ++ [Call.GetState did] ∧
    (GetDID ctx did).2 = { ctx with calls := ctx.calls ++ [Call.GetState did] } := by
  rw [GetDID_snd]
  exact ⟨rfl, rfl, rfl⟩

/-- Claim C16.  For every record `r`, `Marshal` succeeds with the bytes
`{"did":S1,"name":S2,"credentials":S3,"verified":B}`, where each `S` is the
quoted and escaped string and `B` is the literal `true` or `false`; the
decoder reads these bytes as an object with exactly the four members `did`,
`name`, `credentials`, `verified`, in this order; a quoted string is read back
up to its closing quote and unquotes to the string (coerced to valid UTF-8);
the only white space in the encoding is a space inside one of the three
strings; and the record created by `Create("did:x:1", "Alice", "cred-A")` is
stored as the bytes given in the specification. -/
theorem C16_storage_format (r : DID) :
    json.Marshal r = .ok (lit "\x7b\"did\":" ++ json.appendString r.DID
      ++ lit ",\"name\":" ++ json.appendString r.Name
      ++ lit ",\"credentials\":" ++ json.appendString r.Credentials
      ++ lit ",\"verified\":" ++ (if r.Verified then lit "true" else lit "false")
      ++ lit "\x7d") ∧
    json.parse (json.encodeDID r) = some (json.Value.object
      [(lit "did", json.Value.string (json.appendStringLoop r.DID.length r.DID)),
       (lit "name", json.Value.string (json.appendStringLoop r.Name.length r.Name)),
       (lit "credentials",
          json.Value.string (json.appendStringLoop r.Credentials.length r.Credentials)),
       (lit "verified", json.Value.bool r.Verified)]) ∧
    (∀ s X : Bytes, json.appendString s ++ X
        = 0x22 :: (json.appendStringLoop s.length s ++ 0x22 :: X) ∧
      json.scanString (json.appendStringLoop s.length s ++ 0x22 :: X)
        = some (json.appendStringLoop s.length s, X) ∧
      json.unquote (json.appendStringLoop s.length s) = some (utf8.coerce s)) ∧
    (∀ c ∈ json.encodeDID r, json.isSpace c = true →
      c.val = 0x20 ∧ (c ∈ r.DID ∨ c ∈ r.Name ∨ c ∈ r.Credentials)) ∧
    (CreateDID (Stub.reliable emptyState) (lit "did:x:1") (lit "Alice") (lit "cred-A")).2.state
        (lit "did:x:1")
      = some (lit "\x7b\"did\":\"did:x:1\",\"name\":\"Alice\",\"credentials\":\"cred-A\",\"verified\":false\x7d") := by
  refine ⟨rfl, parse_encodeDID r, fun s X => ⟨?_, scan_appendString s X, unquote_appendString s⟩,
    fun c hc hsp => encodeDID_space r c hc hsp, ?_⟩
  · simp [json.appendString]
  · have h : (CreateDID (Stub.reliable emptyState) (lit "did:x:1") (lit "Alice")
        (lit "cred-A")).2.state (lit "did:x:1")
        = some (json.encodeDID ⟨lit "did:x:1", lit "Alice", lit "cred-A", false⟩) := rfl
    rw [h]
    exact congrArg some (by decide)

/-- Claim C17.  Every invocation issues the read of key `did` and then at most
one mutation, a `PutState` (for `RevokeDID`, a `DelState`) on key `did`;
`GetDID` issues none.  A successful `UpdateCredentials` and a successful
`VerifyDID` issue exactly one `PutState`.  This holds also when nothing
changes: on a stored record of valid UTF-8 strings whose credentials are
`newCredentials`, or that is verified already, the bytes written are the bytes
stored. -/
theorem C17_mutations (ctx : Stub) (did name credentials newCredentials : Bytes) :
    ((CreateDID ctx did name credentials).2.calls = ctx.calls ++ [Call.GetState did] ∨
      ∃ v, (CreateDID ctx did name credentials).2.calls
        = ctx.calls ++ [Call.GetState did, Call.PutState did v]) ∧
    ((UpdateCredentials ctx did newCredentials).2.calls = ctx.calls ++ [Call.GetState did] ∨
      ∃ v, (UpdateCredentials ctx did newCredentials).2.calls
        = ctx.calls ++ [Call.GetState did, Call.PutState did v]) ∧
    ((VerifyDID ctx did).2.calls = ctx.calls ++ [Call.GetState did] ∨
      ∃ v, (VerifyDID ctx did).2.calls
        = ctx.calls ++ [Call.GetState did, Call.PutState did v]) ∧
    ((RevokeDID ctx did).2.calls = ctx.calls ++ [Call.GetState did] ∨
      (RevokeDID ctx did).2.calls = ctx.calls ++ [Call.GetState did, Call.DelState did]) ∧
    (GetDID ctx did).2.calls = ctx.calls ++ [Call.GetState did] ∧
    ((UpdateCredentials ctx did newCredentials).1 = .ok () →
      ∃ v, (UpdateCredentials ctx did newCredentials).2.calls
        = ctx.calls ++ [Call.GetState did, Call.PutState did v]) ∧
    ((VerifyDID ctx did).1 = .ok () →
      ∃ v, (VerifyDID ctx did).2.calls
        = ctx.calls ++ [Call.GetState did, Call.PutState did v]) ∧
    (∀ r, ctx.state did = some (json.encodeDID r) → validDID r = true →
      ctx.getErr did = none → r.Credentials = newCredentials →
      (UpdateCredentials ctx did newCredentials).2.calls
        = ctx.calls ++ [Call.GetState did, Call.PutState did (json.encodeDID r)]) ∧
    (∀ r, ctx.state did = some (json.encodeDID r) → validDID r = true →
      ctx.getErr did = none → r.Verified = true →
      (VerifyDID ctx did).2.calls
        = ctx.calls ++ [Call.GetState did, Call.PutState did (json.encodeDID r)]) := by
  obtain ⟨a, b, c, d, e⟩ := calls_shape ctx did name credentials newCredentials
  refine ⟨a, b, c, d, e, fun h => ?_, fun h => ?_, fun r hst hv hg hc => ?_,
    fun r hst hv hg hc => ?_⟩
  · obtain ⟨_, _, r, _, _, _, h6⟩ := UpdateCredentials_success_inv ctx did newCredentials h
    exact ⟨_, h6⟩
  · obtain ⟨_, _, r, _, _, _, h6⟩ := VerifyDID_success_inv ctx did h
    exact ⟨_, h6⟩
  · have hu : json.Unmarshal ((ctx.state did).getD []) zeroDID = .ok r := by
      rw [hst, Option.getD_some, Unmarshal_encodeDID, validDID_coerce r hv]
    rcases UpdateCredentials_cases ctx did newCredentials with
      ⟨_, he, _⟩ | ⟨_, h0, _⟩ | ⟨_, _, _, he, _⟩ | ⟨_, _, r1, hr, h1⟩
    · rw [hg] at he; exact Option.noConfusion he
    · rw [hst, Option.getD_some] at h0
      exact absurd (List.length_eq_zero.mp h0) (encodeDID_ne_nil r)
    · rw [hu] at he; exact Except.noConfusion he
    · rw [hu] at hr
      injection hr with hr
      subst hr
      rw [h1, put_calls, ← hc]
  · have hu : json.Unmarshal ((ctx.state did).getD []) zeroDID = .ok r := by
      rw [hst, Option.getD_some, Unmarshal_encodeDID, validDID_coerce r hv]
    rcases VerifyDID_cases ctx did with
      ⟨_, he, _⟩ | ⟨_, h0, _⟩ | ⟨_, _, _, he, _⟩ | ⟨_, _, r1, hr, h1⟩
    · rw [hg] at he; exact Option.noConfusion he
    · rw [hst, Option.getD_some] at h0
      exact absurd (List.length_eq_zero.mp h0) (encodeDID_ne_nil r)
    · rw [hu] at he; exact Except.noConfusion he
    · rw [hu] at hr
      injection hr with hr
      subst hr
      rw [h1, put_calls, ← hc]

/-- Instances of C17: `VerifyDID` on a verified record and `UpdateCredentials`
with the stored credentials both write the stored bytes again. -/
theorem C17_witness :
    (VerifyDID (Stub.reliable (putAt emptyState (lit "did:x:1")
        (json.encodeDID ⟨lit "did:x:1", lit "Alice", lit "cred-A", true⟩))) (lit "did:x:1")).2.calls
      = [Call.GetState (lit "did:x:1"),
         Call.PutState (lit "did:x:1")
           (json.encodeDID ⟨lit "did:x:1", lit "Alice", lit "cred-A", true⟩)] ∧
    (UpdateCredentials (Stub.reliable (putAt emptyState (lit "did:x:1")
        (json.encodeDID ⟨lit "did:x:1", lit "Alice", lit "cred-A", true⟩))) (lit "did:x:1")
        (lit "cred-A")).2.calls
      = [Call.GetState (lit "did:x:1"),
         Call.PutState (lit "did:x:1")
           (json.encodeDID ⟨lit "did:x:1", lit "Alice", lit "cred-A", true⟩)] :=
  have h := C17_mutations (Stub.reliable (putAt emptyState (lit "did:x:1")
      (json.encodeDID ⟨lit "did:x:1", lit "Alice", lit "cred-A", true⟩)))
    (lit "did:x:1") (lit "Alice") (lit "cred-A") (lit "cred-A")
  ⟨h.2.2.2.2.2.2.2.2 ⟨lit "did:x:1", lit "Alice", lit "cred-A", true⟩
      (putAt_same emptyState (lit "did:x:1") _) (by decide) rfl rfl,
    h.2.2.2.2.2.2.2.1 ⟨lit "did:x:1", lit "Alice", lit "cred-A", true⟩
      (putAt_same emptyState (lit "did:x:1") _) (by decide) rfl rfl⟩

/-- Claim C18.  In a reachable world state every key has an abstract state
(absent, unverified or verified, by decoding its value).  On any host, an
invocation that succeeds moves the abstract state of its key along a
transition of the state machine of the specification, and one that fails
leaves it unchanged.  On a host that performs the calls on the key without
error, an invocation succeeds exactly when the state machine has a transition
for the operation and the state.  The abstract state of every other key is
unchanged, and the world state after the invocation is reachable. -/
theorem C18_refines (ctx : Stub) (op : Op) (hr : Reachable ctx.state) :
    ∃ s, lifeOf ctx.state op.key = some s ∧
      (Op.succeeds ctx op = true →
        ∃ s1, specLifecycle op s = some s1 ∧ lifeOf (op.run ctx).state op.key = some s1) ∧
      (Op.succeeds ctx op = false → lifeOf (op.run ctx).state op.key = some s) ∧
      (ctx.getErr op.key = none → (∀ v, ctx.putErr op.key v = none) →
        ctx.delErr op.key = none →
        match specLifecycle op s with
        | some s1 => Op.succeeds ctx op = true ∧ lifeOf (op.run ctx).state op.key = some s1
        | none => Op.succeeds ctx op = false ∧ lifeOf (op.run ctx).state op.key = some s) ∧
      (∀ d, d ≠ op.key → lifeOf (op.run ctx).state d = lifeOf ctx.state d) ∧
      Reachable (op.run ctx).state := by
  have henc := reachable_encoded ctx.state hr
  have hs : ∃ s, lifeOf ctx.state op.key = some s := by
    rcases lifeOf_cases ctx.state henc op.key with ⟨_, hl⟩ | ⟨r, _, hl⟩
    · exact ⟨_, hl⟩
    · exact ⟨_, hl⟩
  obtain ⟨s, hs⟩ := hs
  refine ⟨s, hs, fun h => ?_, fun h => ?_, fun hget hput hdel => ?_,
    fun d hd => lifeOf_ne ctx op d hd, Reachable.step ctx op hr⟩
  · obtain ⟨s0, s1, h0, h1, h2⟩ := succeeds_true ctx op hr h
    rw [hs] at h0
    injection h0 with h0
    subst h0
    exact ⟨s1, h1, h2⟩
  · rw [succeeds_false ctx op h]; exact hs
  · obtain ⟨s0, h0, h1⟩ := lifecycle_refines ctx op hr hget hput hdel
    rw [hs] at h0
    injection h0 with h0
    subst h0
    exact h1

/-- An instance of C18: after `Create("did:x:1", "Alice", "cred-A")` on the
empty world state the key is unverified, `Verify` moves it to verified, and a
second `Create` fails. -/
theorem C18_witness :
    Reachable ((Op.CreateDID (lit "did:x:1") (lit "Alice") (lit "cred-A")).run
      (Stub.reliable emptyState)).state ∧
    lifeOf ((Op.CreateDID (lit "did:x:1") (lit "Alice") (lit "cred-A")).run
      (Stub.reliable emptyState)).state (lit "did:x:1") = some Life.unverified ∧
    lifeOf ((Op.VerifyDID (lit "did:x:1")).run
      ((Op.CreateDID (lit "did:x:1") (lit "Alice") (lit "cred-A")).run
        (Stub.reliable emptyState))).state (lit "did:x:1") = some Life.verified ∧
    Op.succeeds ((Op.CreateDID (lit "did:x:1") (lit "Alice") (lit "cred-A")).run
      (Stub.reliable emptyState)) (Op.CreateDID (lit "did:x:1") (lit "Eve") (lit "cred-C"))
      = false := by
  have hr : Reachable ((Op.CreateDID (lit "did:x:1") (lit "Alice") (lit "cred-A")).run
      (Stub.reliable emptyState)).state := Reachable.step _ _ Reachable.empty
  have e : lifeOf ((Op.CreateDID (lit "did:x:1") (lit "Alice") (lit "cred-A")).run
      (Stub.reliable emptyState)).state (lit "did:x:1") = some Life.unverified := rfl
  refine ⟨hr, e, ?_, rfl⟩
  obtain ⟨s, hs, _, _, h4, _⟩ := C18_refines _ (Op.VerifyDID (lit "did:x:1")) hr
  have h5 := h4 rfl (fun _ => rfl) rfl
  have es : s = Life.unverified := Option.some.inj (hs.symm.trans e)
  subst es
  exact h5.2

/-- Claim C19.  The encoding of every record is a non-empty byte string.  After
a successful `CreateDID`, `UpdateCredentials` or `VerifyDID` on `d` the value
at key `d` has a length greater than zero, and every operation treats `d` as
existing: `CreateDID` returns "DID already exists", and none of the other four
returns "DID does not exist". -/
theorem C19_existence (ctx : Stub) (d name credentials newCredentials : Bytes) :
    (∀ r, (json.encodeDID r).length > 0) ∧
    ((CreateDID ctx d name credentials).1 = .ok () →
      (((CreateDID ctx d name credentials).2.state d).getD []).length > 0 ∧
      (∀ n c, (CreateDID (CreateDID ctx d name credentials).2 d n c).1
        = .error (Error.Errorf "DID already exists")) ∧
      (∀ c, (UpdateCredentials (CreateDID ctx d name credentials).2 d c).1
        ≠ .error (Error.Errorf "DID does not exist")) ∧
      (VerifyDID (CreateDID ctx d name credentials).2 d).1
        ≠ .error (Error.Errorf "DID does not exist") ∧
      (RevokeDID (CreateDID ctx d name credentials).2 d).1
        ≠ .error (Error.Errorf "DID does not exist") ∧
      (GetDID (CreateDID ctx d name credentials).2 d).1
        ≠ .error (Error.Errorf "DID does not exist")) ∧
    ((UpdateCredentials ctx d newCredentials).1 = .ok () →
      (((UpdateCredentials ctx d newCredentials).2.state d).getD []).length > 0 ∧
      (∀ n c, (CreateDID (UpdateCredentials ctx d newCredentials).2 d n c).1
        = .error (Error.Errorf "DID already exists")) ∧
      (∀ c, (UpdateCredentials (UpdateCredentials ctx d newCredentials).2 d c).1
        ≠ .error (Error.Errorf "DID does not exist")) ∧
      (VerifyDID (UpdateCredentials ctx d newCredentials).2 d).1
        ≠ .error (Error.Errorf "DID does not exist") ∧
      (RevokeDID (UpdateCredentials ctx d newCredentials).2 d).1
        ≠ .error (Error.Errorf "DID does not exist") ∧
      (GetDID (UpdateCredentials ctx d newCredentials).2 d).1
        ≠ .error (Error.Errorf "DID does not exist")) ∧
    ((VerifyDID ctx d).1 = .ok () →
      (((VerifyDID ctx d).2.state d).getD []).length > 0 ∧
      (∀ n c, (CreateDID (VerifyDID ctx d).2 d n c).1
        = .error (Error.Errorf "DID already exists")) ∧
      (∀ c, (UpdateCredentials (VerifyDID ctx d).2 d c).1
        ≠ .error (Error.Errorf "DID does not exist")) ∧
      (VerifyDID (VerifyDID ctx d).2 d).1 ≠ .error (Error.Errorf "DID does not exist") ∧
      (RevokeDID (VerifyDID ctx d).2 d).1 ≠ .error (Error.Errorf "DID does not exist") ∧
      (GetDID (VerifyDID ctx d).2 d).1 ≠ .error (Error.Errorf "DID does not exist")) := by
  refine ⟨encodeDID_length_pos, fun h => ?_, fun h => ?_, fun h => ?_⟩
  · obtain ⟨hg, hs⟩ := CreateDID_success_inv ctx d name credentials h
    have hl : (((CreateDID ctx d name credentials).2.state d).getD []).length > 0 := by
      rw [hs, putAt_same]; exact encodeDID_length_pos _
    have hg1 : (CreateDID ctx d name credentials).2.getErr d = none := by
      have := (run_faults ctx (Op.CreateDID d name credentials)).1
      simp only [Op.run] at this
      rw [this]; exact hg
    exact ⟨hl, existing_key _ d hg1 hl⟩
  · obtain ⟨hg, _, r, _, _, hs, _⟩ := UpdateCredentials_success_inv ctx d newCredentials h
    have hl : (((UpdateCredentials ctx d newCredentials).2.state d).getD []).length > 0 := by
      rw [hs, putAt_same]; exact encodeDID_length_pos _
    have hg1 : (UpdateCredentials ctx d newCredentials).2.getErr d = none := by
      have := (run_faults ctx (Op.UpdateCredentials d newCredentials)).1
      simp only [Op.run] at this
      rw [this]; exact hg
    exact ⟨hl, existing_key _ d hg1 hl⟩
  · obtain ⟨hg, _, r, _, _, hs, _⟩ := VerifyDID_success_inv ctx d h
    have hl : (((VerifyDID ctx d).2.state d).getD []).length > 0 := by
      rw [hs, putAt_same]; exact encodeDID_length_pos _
    have hg1 : (VerifyDID ctx d).2.getErr d = none := by
      have := (run_faults ctx (Op.VerifyDID d)).1
      simp only [Op.run] at this
      rw [this]; exact hg
    exact ⟨hl, existing_key _ d hg1 hl⟩

/-- An instance of C19: after `Create("did:x:1", "Alice", "cred-A")` on the
empty world state the value at the key is not empty and `GetDID` does not
return "DID does not exist". -/
theorem C19_witness :
    (((CreateDID (Stub.reliable emptyState) (lit "did:x:1") (lit "Alice")
        (lit "cred-A")).2.state (lit "did:x:1")).getD []).length > 0 ∧
    (GetDID (CreateDID (Stub.reliable emptyState) (lit "did:x:1") (lit "Alice")
        (lit "cred-A")).2 (lit "did:x:1")).1 ≠ .error (Error.Errorf "DID does not exist") :=
  have h := (C19_existence (Stub.reliable emptyState) (lit "did:x:1") (lit "Alice")
    (lit "cred-A") (lit "cred-B")).2.1 rfl
  ⟨h.1, h.2.2.2.2.2⟩

/-- Claim C20.  On a world state where key `d` holds any non-empty byte string,
with a host that returns no error for the read and the delete, `RevokeDID(d)`
succeeds and removes key `d`, and `CreateDID(d, ...)` returns "DID already
exists".  In no context does `CreateDID` or `RevokeDID` return a decode
error. -/
theorem C20_no_decode (ctx : Stub) (d v name credentials : Bytes)
    (hst : ctx.state d = some v) (hv : v ≠ []) (hget : ctx.getErr d = none)
    (hdel : ctx.delErr d = none) :
    (RevokeDID ctx d).1 = .ok () ∧
    (RevokeDID ctx d).2.state d = none ∧
    (CreateDID ctx d name credentials).1 = .error (Error.Errorf "DID already exists") ∧
    (∀ (c : Stub) (k n cr : Bytes) (e : json.DecodeError),
      (CreateDID c k n cr).1 ≠ .error (Error.json e)) ∧
    (∀ (c : Stub) (k : Bytes) (e : json.DecodeError),
      (RevokeDID c k).1 ≠ .error (Error.json e)) := by
  have hlen : v.length ≠ 0 := fun h => hv (List.length_eq_zero.mp h)
  obtain ⟨h1, h2, _, _, _⟩ := RevokeDID_ok ctx d v hst hlen hget hdel
  refine ⟨h1, by rw [h2]; simp, ?_, ?_, ?_⟩
  · exact CreateDID_present ctx d name credentials (by rw [hst]; simp; omega) hget ▸ rfl
  · intro c k n cr e
    rcases CreateDID_cases c k n cr with ⟨_, _, h1⟩ | ⟨_, _, h1⟩ | ⟨_, _, h1⟩
    · rw [h1]; simp
    · rw [h1]; simp
    · rw [h1]
      rcases PutState_cases { c with calls := c.calls ++ [Call.GetState k] } k
          (json.encodeDID ⟨k, n, cr, false⟩) with ⟨_, h2⟩ | ⟨_, _, h2⟩ <;> rw [h2] <;> simp
  · intro c k e
    rcases RevokeDID_cases c k with ⟨_, _, h1⟩ | ⟨_, _, h1⟩ | ⟨_, _, h1⟩
    · rw [h1]; simp
    · rw [h1]; simp
    · rw [h1]
      rcases DelState_cases { c with calls := c.calls ++ [Call.GetState k] } k with
        ⟨_, h2⟩ | ⟨_, _, h2⟩ <;> rw [h2] <;> simp

/-- An instance of C20: on a key that holds the bytes `not json`, `RevokeDID`
succeeds and removes the key, `CreateDID` returns "DID already exists", and
`GetDID`, `UpdateCredentials` and `VerifyDID` return a decode error. -/
theorem C20_witness :
    (RevokeDID (Stub.reliable (putAt emptyState (lit "did:x:1") (lit "not json")))
      (lit "did:x:1")).1 = .ok () ∧
    (RevokeDID (Stub.reliable (putAt emptyState (lit "did:x:1") (lit "not json")))
      (lit "did:x:1")).2.state (lit "did:x:1") = none ∧
    (CreateDID (Stub.reliable (putAt emptyState (lit "did:x:1") (lit "not json")))
      (lit "did:x:1") (lit "Alice") (lit "cred-A")).1
      = .error (Error.Errorf "DID already exists") ∧
    (GetDID (Stub.reliable (putAt emptyState (lit "did:x:1") (lit "not json")))
      (lit "did:x:1")).1 = .error (Error.json json.DecodeError.SyntaxError) ∧
    (UpdateCredentials (Stub.reliable (putAt emptyState (lit "did:x:1") (lit "not json")))
      (lit "did:x:1") (lit "cred-B")).1 = .error (Error.json json.DecodeError.SyntaxError) ∧
    (VerifyDID (Stub.reliable (putAt emptyState (lit "did:x:1") (lit "not json")))
      (lit "did:x:1")).1 = .error (Error.json json.DecodeError.SyntaxError) :=
  have h := C20_no_decode (Stub.reliable (putAt emptyState (lit "did:x:1") (lit "not json")))
    (lit "did:x:1") (lit "not json") (lit "Alice") (lit "cred-A")
    (putAt_same emptyState (lit "did:x:1") _) (by decide) rfl rfl
  ⟨h.1, h.2.1, h.2.2.1, rfl, rfl, rfl⟩

end DIDChaincode
